import Mathlib

/-!
The metering proxy of llm-gateway.

A shallow embedding of the proxy package (`src/proxy/internal/proxy`) and the
properties of its bounded capture sink, its event-stream relay, its request
handler, its metering queue and its configuration loader; and of the event
handler of the collector (`src/collector/internal/collector`), whose definitions
are under the name `Collector`.

Conventions of the embedding:

* a Go `[]byte` and a Go `string` are both a `List Byte` (a Go string is a byte
  sequence); string constants are written `str "..."`;
* a Go `int` is an `Int`; lengths are `Nat`;
* a Go `error` is an `Option GoError`, `none` being `nil`;
* a pointer that may be `nil` (`*Usage`) is an `Option`;
* readers, writers, the clock, the random request identifier, the process
  environment, `time.ParseDuration` and the JSON decoder are inputs of the
  functions that use them.
-/

namespace Proxy

/-- One byte of a Go `[]byte` or `string`. -/
abbrev Byte := Nat

/-- The bytes of an ASCII string constant. -/
def str (s : String) : List Byte := s.toList.map Char.toNat

/-- A Go `error` value: `io.EOF`, or any other error (told apart by a code). -/
inductive GoError where
  | EOF
  | other (code : Nat)
deriving DecidableEq, Repr

/-! ## Library functions on byte strings (`bytes`, `strings`, `net/textproto`) -/

/-- The UTF-8 encodings of the runes that `unicode.IsSpace` accepts: tab, line
feed, vertical tab, form feed, carriage return, space, U+0085, U+00A0, U+1680,
U+2000 to U+200A, U+2028, U+2029, U+202F, U+205F, U+3000. -/
def spaceRunes : List (List Byte) :=
  [[0x09], [0x0A], [0x0B], [0x0C], [0x0D], [0x20], [0xC2, 0x85], [0xC2, 0xA0],
   [0xE1, 0x9A, 0x80], [0xE2, 0x80, 0x80], [0xE2, 0x80, 0x81], [0xE2, 0x80, 0x82],
   [0xE2, 0x80, 0x83], [0xE2, 0x80, 0x84], [0xE2, 0x80, 0x85], [0xE2, 0x80, 0x86],
   [0xE2, 0x80, 0x87], [0xE2, 0x80, 0x88], [0xE2, 0x80, 0x89], [0xE2, 0x80, 0x8A],
   [0xE2, 0x80, 0xA8], [0xE2, 0x80, 0xA9], [0xE2, 0x80, 0xAF], [0xE2, 0x81, 0x9F],
   [0xE3, 0x80, 0x80]]

/-- The number of bytes of the rune of `runes` that `s` starts with, 0 when it
starts with none of them. -/
def leadingRune (runes : List (List Byte)) (s : List Byte) : Nat :=
  match runes.find? (fun r => r.isPrefixOf s) with
  | some r => r.length
  | none => 0

/-- Drop the runes of `runes` that `s` starts with; the number argument is the
count of bytes of the current rune that are still to be dropped. -/
def dropRunes (runes : List (List Byte)) : Nat → List Byte → List Byte
  | _, [] => []
  | k + 1, _ :: bs => dropRunes runes k bs
  | 0, b :: bs =>
    match leadingRune runes (b :: bs) with
    | 0 => b :: bs
    | k + 1 => dropRunes runes k bs

/-- The functions `bytes.TrimSpace` and `strings.TrimSpace`: white-space runes
are cut from the front, then from the back. A rune is recognised at the back by
its encoding read backwards, which is what `utf8.DecodeLastRune` finds. -/
def TrimSpace (s : List Byte) : List Byte :=
  (dropRunes (spaceRunes.map List.reverse) 0 (dropRunes spaceRunes 0 s).reverse).reverse

/-- The functions `bytes.HasPrefix` and `strings.HasPrefix`. -/
def HasPrefix (s p : List Byte) : Bool := p.isPrefixOf s

/-- The function `bytes.TrimPrefix`. -/
def TrimPrefix (s p : List Byte) : List Byte :=
  if HasPrefix s p then s.drop p.length else s

/-- The function `strings.TrimRight(s, cutset)` for a cutset of one ASCII byte. -/
def TrimRight (s : List Byte) (c : Byte) : List Byte :=
  (s.reverse.dropWhile (fun b => b == c)).reverse

/-- The function `strings.SplitN(s, sep, 2)` for a separator of one byte: the
part before the first separator and the part after it, or `s` alone when it has
no separator. -/
def SplitN2 (s : List Byte) (sep : Byte) : List (List Byte) :=
  match s.span (fun b => b != sep) with
  | (a, []) => [a]
  | (a, _ :: b) => [a, b]

/-- ASCII lower case of one byte. -/
def lowerByte (c : Byte) : Byte := if 0x41 ≤ c ∧ c ≤ 0x5A then c + 32 else c

/-- The function `strings.EqualFold(s, t)` for a `t` made of ASCII letters other
than k and s, as `"Bearer"` is: no rune outside ASCII folds to such a letter, so
the strings are equal under folding exactly when they are equal byte by byte up
to ASCII case. -/
def EqualFold (s t : List Byte) : Bool := s.map lowerByte == t.map lowerByte

/-- The function `strings.ToLower`, as far as its result can equal an ASCII
constant: ASCII capitals are lowered, U+212A (Kelvin sign) becomes k and U+0130
becomes i, the only two runes outside ASCII whose lower case is in ASCII; bytes
of other runes are kept, where Go writes the lower case rune, which is outside
ASCII as well. -/
def ToLower : List Byte → List Byte
  | 0xE2 :: 0x84 :: 0xAA :: rest => 0x6B :: ToLower rest
  | 0xC4 :: 0xB0 :: rest => 0x69 :: ToLower rest
  | c :: rest => lowerByte c :: ToLower rest
  | [] => []

/-- The bytes allowed in a header field name (`validHeaderFieldByte`). -/
def validHeaderFieldByte (c : Byte) : Bool :=
  c == 0x21 || (0x23 ≤ c && c ≤ 0x27) || c == 0x2A || c == 0x2B || c == 0x2D || c == 0x2E
    || (0x30 ≤ c && c ≤ 0x39) || (0x41 ≤ c && c ≤ 0x5A) || (0x5E ≤ c && c ≤ 0x7A)
    || c == 0x7C || c == 0x7E

/-- The letter-case pass of `canonicalMIMEHeaderKey`: upper case at the start and
after each hyphen, lower case elsewhere. -/
def canonicalCase : Bool → List Byte → List Byte
  | _, [] => []
  | upper, c :: cs =>
    let c1 : Byte :=
      if upper && (0x61 ≤ c && c ≤ 0x7A) then c - 32
      else if !upper && (0x41 ≤ c && c ≤ 0x5A) then c + 32
      else c
    c1 :: canonicalCase (c1 == 0x2D) cs

/-- The function `textproto.CanonicalMIMEHeaderKey`: a key with a byte that is
not allowed in a field name is returned unchanged. -/
def CanonicalMIMEHeaderKey (s : List Byte) : List Byte :=
  if s.all validHeaderFieldByte then canonicalCase true s else s

/-- The type `http.Header`, a map from field name to values, as an association
list with one entry per key. -/
abbrev Header := List (List Byte × List (List Byte))

/-- The method `Header.Get`: the first value under the canonical form of the
key, the empty string when there is none. -/
def Header.Get (h : Header) (key : List Byte) : List Byte :=
  match h.lookup (CanonicalMIMEHeaderKey key) with
  | some (v :: _) => v
  | _ => []

/-- The method `Header.Set`. -/
def Header.Set (h : Header) (key v : List Byte) : Header :=
  let k := CanonicalMIMEHeaderKey key
  if h.any (fun e => e.1 == k) then h.map (fun e => if e.1 == k then (k, [v]) else e)
  else h ++ [(k, [v])]

/-- The method `Header.Add`. -/
def Header.Add (h : Header) (key v : List Byte) : Header :=
  let k := CanonicalMIMEHeaderKey key
  if h.any (fun e => e.1 == k) then h.map (fun e => if e.1 == k then (k, e.2 ++ [v]) else e)
  else h ++ [(k, [v])]

/-- The method `Header.Del`. -/
def Header.Del (h : Header) (key : List Byte) : Header :=
  h.filter (fun e => e.1 != CanonicalMIMEHeaderKey key)

/-- An `io.Reader` as the code sees it: the chunks that successive `Read` calls
deliver, the error that ends the stream (`io.EOF` at a clean end), and whether
that error is returned by the `Read` call that delivers the last chunk, as a
reader may do, or by a call of its own after it. -/
structure Reader where
  chunks : List (List Byte)
  err : GoError
  errWithLast : Bool := false
deriving DecidableEq, Repr

/-- The error of the stream is returned together with bytes: by the `Read` call
that delivers the last chunk, which is not empty. -/
def Reader.errWithData (r : Reader) : Bool :=
  r.errWithLast && decide (r.chunks.getLast?.getD [] ≠ [])

/-- An `http.ResponseWriter`: the header map, the status code given to
`WriteHeader`, the slices given to `Write` in order, the number of `Flush`
calls, whether it is an `http.Flusher`, and the error that the k-th call of
`Write` returns (counted from 0). -/
structure ResponseWriter where
  header : Header
  status : Option Int
  body : List (List Byte)
  flushes : Nat
  flusher : Bool
  writeErr : Nat → Option GoError

/-- The method `ResponseWriter.Write`: the slice is recorded, also when the call
reports an error. -/
def ResponseWriter.Write (w : ResponseWriter) (p : List Byte) :
    ResponseWriter × Option GoError :=
  ({ w with body := w.body ++ [p] }, w.writeErr w.body.length)

/-- The method `Flusher.Flush`. -/
def ResponseWriter.Flush (w : ResponseWriter) : ResponseWriter :=
  { w with flushes := w.flushes + 1 }

/-- The method `ResponseWriter.WriteHeader`: the status code is recorded as it is
given; a second call changes nothing. -/
def ResponseWriter.WriteHeader (w : ResponseWriter) (code : Int) : ResponseWriter :=
  match w.status with
  | none => { w with status := some code }
  | some _ => w

/-- The function `http.Error`: plain-text headers, the status code, and the
message followed by a newline; the result of the write is ignored. -/
def httpError (w : ResponseWriter) (msg : List Byte) (code : Int) : ResponseWriter :=
  let h := ((Header.Del w.header (str "Content-Length")).Set (str "Content-Type")
    (str "text/plain; charset=utf-8")).Set (str "X-Content-Type-Options") (str "nosniff")
  (({ w with header := h }.WriteHeader code).Write (msg ++ [0x0A])).1

/-- What successive calls of `ReadBytes(delim)` on a `bufio.Reader` return for a
stream that delivers `data` and then fails: the lines that end in the delimiter,
each returned with a nil error, and the bytes after the last delimiter, returned
together with the error of the stream. -/
def ReadBytes (delim : Byte) : List Byte → List (List Byte) × List Byte
  | [] => ([], [])
  | b :: bs =>
    let r := ReadBytes delim bs
    if b = delim then ([b] :: r.1, r.2)
    else
      match r.1 with
      | [] => ([], b :: r.2)
      | l :: ls => ((b :: l) :: ls, r.2)

/-! ## capture.go -/

/-- The struct `limitedCapture` of capture.go. -/
structure limitedCapture where
  limit : Int
  buf : List Byte
deriving DecidableEq, Repr

/-- The function `NewLimitedCapture` of capture.go. The capacity hint given to
`make` does not change the contents of the buffer. -/
def NewLimitedCapture (limit : Int) : limitedCapture :=
  if limit ≤ 0 then { limit := 0, buf := [] }
  else { limit := limit, buf := [] }

/-- The method `(*limitedCapture).Write` of capture.go: the sink after the
call, and the pair `(n, err)` it returns. -/
def limitedCapture.Write (lc : limitedCapture) (p : List Byte) :
    limitedCapture × (Int × Option GoError) :=
  if lc.limit ≤ 0 then (lc, ((p.length : Int), none))
  else
    let remain : Int := lc.limit - (lc.buf.length : Int)
    if remain ≤ 0 then (lc, ((p.length : Int), none))
    else if (p.length : Int) ≤ remain then
      ({ lc with buf := lc.buf ++ p }, ((p.length : Int), none))
    else
      ({ lc with buf := lc.buf ++ p.take remain.toNat }, ((p.length : Int), none))

/-- The method `(*limitedCapture).Bytes` of capture.go. -/
def limitedCapture.Bytes (lc : limitedCapture) : List Byte := lc.buf

/-- A sequence of `Write` calls on one sink: the sink afterwards and what each
call returned, in order. -/
def limitedCapture.WriteAll (lc : limitedCapture) :
    List (List Byte) → limitedCapture × List (Int × Option GoError)
  | [] => (lc, [])
  | p :: ps =>
    let r := lc.Write p
    let rest := limitedCapture.WriteAll r.1 ps
    (rest.1, r.2 :: rest.2)

/-! ## types.go -/

/-- The struct `Config` of types.go; durations are in nanoseconds. -/
structure Config where
  ListenAddr : List Byte
  UpstreamBaseURL : List Byte
  UpstreamAPIKey : List Byte
  CollectorURL : List Byte
  EventQueueSize : Int
  EventFlushTimeout : Int
  HTTPClientTimeout : Int
  MeteringCaptureBytes : Int
deriving DecidableEq, Repr

/-- The struct `Usage` of types.go. -/
structure Usage where
  PromptTokens : Int
  CompletionTokens : Int
  TotalTokens : Int
deriving DecidableEq, Repr

/-- The struct `OpenAIResponse` of types.go. -/
structure OpenAIResponse where
  ID : List Byte
  Model : List Byte
  Usage : Option Usage
deriving DecidableEq, Repr

/-- The struct `OpenAIRequest` of types.go, without the field `Messages`, which
the code never reads. -/
structure OpenAIRequest where
  Model : List Byte
  Stream : Bool
deriving DecidableEq, Repr

/-- The struct `MeteringEvent` of types.go; `At` is an instant on the clock. -/
structure MeteringEvent where
  RequestID : List Byte
  Tenant : List Byte
  AppKey : List Byte
  Provider : List Byte
  Model : List Byte
  PromptTokens : Int
  CompletionTokens : Int
  TotalTokens : Int
  LatencyMs : Int
  StatusCode : Int
  At : Int
deriving DecidableEq, Repr

/-- The struct `StreamChunk` of types.go. -/
structure StreamChunk where
  ID : List Byte
  Model : List Byte
  Usage : Option Usage
deriving DecidableEq, Repr

/-- The decoder `json.Unmarshal`, taken as given, for each of the three types
the code decodes into. For a request body and a response body, whose decoding
error the handler discards, it gives the struct as `Unmarshal` leaves it when
called on the zero value, together with the error it returns: `encoding/json`
fills the fields it can, also when it returns an error for another field. For
the payload of a frame, which `StreamSSE` uses only when the error is nil, it
gives the chunk, or `none` for an error. -/
structure JSON where
  request : List Byte → OpenAIRequest × Option GoError
  response : List Byte → OpenAIResponse × Option GoError
  chunk : List Byte → Option StreamChunk

/-- What `json.Unmarshal` gives for a request body that is not JSON: the zero
value and an error. -/
def undecodedRequest : OpenAIRequest × Option GoError :=
  ({ Model := [], Stream := false }, some (GoError.other 0))

/-- What `json.Unmarshal` gives for a response body that is not JSON: the zero
value and an error. -/
def undecodedResponse : OpenAIResponse × Option GoError :=
  ({ ID := [], Model := [], Usage := none }, some (GoError.other 0))

/-! ## util.go -/

/-- The function `BearerToken` of util.go. -/
def BearerToken (auth : List Byte) : List Byte :=
  let auth := TrimSpace auth
  if auth = [] then []
  else
    let parts := SplitN2 auth 0x20
    if parts.length ≠ 2 then []
    else if !EqualFold (parts.getD 0 []) (str "Bearer") then []
    else TrimSpace (parts.getD 1 [])

/-- The function `FirstNonEmpty` of util.go. -/
def FirstNonEmpty : List (List Byte) → List Byte
  | [] => []
  | v :: vals => if TrimSpace v ≠ [] then v else FirstNonEmpty vals

/-- The function `IsHopByHopHeader` of util.go. -/
def IsHopByHopHeader (k : List Byte) : Bool :=
  let l := ToLower (TrimSpace k)
  l == str "connection" || l == str "keep-alive" || l == str "proxy-authenticate"
    || l == str "proxy-authorization" || l == str "te" || l == str "trailer"
    || l == str "transfer-encoding" || l == str "upgrade"

/-- The function `Min` of util.go. -/
def Min (a b : Int) : Int := if a < b then a else b

/-! ## sse.go -/

/-- The variables of `StreamSSE` while it runs: the client, the model and the
usage seen so far, and (as a record of the run) what each `ReadBytes` call has
returned. -/
structure SSEState where
  w : ResponseWriter
  model : List Byte
  usage : Option Usage
  reads : List (List Byte × Option GoError)

/-- What `StreamSSE` returns, with the client and the record of the run. -/
structure SSEResult where
  st : SSEState
  err : Option GoError

/-- How one pass through the body of the loop ends: a `return`, or on to the
next statement. -/
inductive SSEStep where
  | ret (r : SSEResult)
  | next (st : SSEState)

/-- The block `if len(line) > 0 { ... }` of the loop of `StreamSSE`. -/
def StreamSSE.lineBlock (json : JSON) (st : SSEState) (line : List Byte) : SSEStep :=
  if line.length > 0 then
    let wr := st.w.Write line
    match wr.2 with
    | some werr => .ret { st := { st with w := wr.1 }, err := some werr }
    | none =>
      let st1 : SSEState := { st with w := if wr.1.flusher then wr.1.Flush else wr.1 }
      let trim := TrimSpace line
      if HasPrefix trim (str "data:") then
        let payload := TrimSpace (TrimPrefix trim (str "data:"))
        if payload = str "[DONE]" then .ret { st := st1, err := none }
        else if payload.length > 0 ∧ payload.head? = some 0x7B then
          match json.chunk payload with
          | some ch =>
            let model := if ch.Model ≠ [] then ch.Model else st1.model
            let usage := if ch.Usage ≠ none then ch.Usage else st1.usage
            .next { st1 with model := model, usage := usage }
          | none => .next st1
        else .next st1
      else .next st1
  else .next st

/-- The block `if err != nil { ... }` of the loop of `StreamSSE`, entered with a
non-nil `err`. -/
def StreamSSE.errBlock (st : SSEState) (err : GoError) : SSEResult :=
  if err = GoError.EOF then { st := st, err := none }
  else { st := st, err := some err }

/-- The loop of `StreamSSE`, one pass per `ReadBytes` call: `lines` are the
lines still to come that end in a newline (read with a nil error, so the pass
goes round again), `last` is what the final call returns together with `err`. -/
def StreamSSE.loop (json : JSON) :
    SSEState → List (List Byte) → List Byte → GoError → SSEResult
  | st, [], last, err =>
    match StreamSSE.lineBlock json { st with reads := st.reads ++ [(last, some err)] } last with
    | .ret r => r
    | .next st1 => StreamSSE.errBlock st1 err
  | st, line :: lines, last, err =>
    match StreamSSE.lineBlock json { st with reads := st.reads ++ [(line, none)] } line with
    | .ret r => r
    | .next st1 => StreamSSE.loop json st1 lines last err

/-- The function `StreamSSE` of sse.go. The buffered reader turns the chunks of
the upstream into lines, whatever their boundaries. -/
def StreamSSE (json : JSON) (w : ResponseWriter) (upstream : Reader) : SSEResult :=
  let r := ReadBytes 0x0A upstream.chunks.flatten
  StreamSSE.loop json { w := w, model := [], usage := none, reads := [] } r.1 r.2 upstream.err

/-! ## handler.go -/

/-- The struct `Server` of handler.go, without its two HTTP clients (they are
part of the surroundings of a call): the configuration, the events buffered in
the channel `events` (oldest first) and the counter `dropped`. The counter is a
`uint64` in the code and a natural number here; the two agree as long as fewer
than 2^64 events have been dropped. -/
structure Server where
  cfg : Config
  events : List MeteringEvent
  dropped : Nat
deriving DecidableEq, Repr

/-- The capacity of the channel `events`, as `NewServer` allocates it. -/
def Server.capacity (s : Server) : Nat := s.cfg.EventQueueSize.toNat

/-- The largest size that `make(chan MeteringEvent, size)` accepts on a 64-bit
platform: the buffer, of 144 bytes for each event, and the header of the channel
have to fit in 2^48 bytes. (The header has 96 bytes, or 104 in later releases of
Go; both give the same bound.) -/
def maxQueueSize : Nat := (2 ^ 48 - 96) / 144

/-- The function `NewServer` of handler.go: `none` when `make` panics because the
queue size is negative or too large. (A size in range whose buffer the system
cannot provide ends the process without a panic; that is not modelled.) -/
def NewServer (cfg : Config) : Option Server :=
  if cfg.EventQueueSize < 0 ∨ (maxQueueSize : Int) < cfg.EventQueueSize then none
  else some { cfg := cfg, events := [], dropped := 0 }

/-- The method `(*Server).enqueue` of handler.go, called while no receive is
waiting on the channel: the send is taken when the channel buffer has room, the
`default` case otherwise. A send that meets the background sender waiting on the
empty channel is taken as well; with a buffer of capacity at least 1 that is a
store followed at once by a receive, and for every capacity it is the step
`QueueStep.handoff` of a run of the queue. -/
def Server.enqueue (s : Server) (ev : MeteringEvent) : Server :=
  if s.events.length < s.capacity then { s with events := s.events ++ [ev] }
  else { s with dropped := s.dropped + 1 }

/-- What the collector did with one posted event: the call failed, or it answered
with a status code. -/
inductive PostResult where
  | fail (err : GoError)
  | status (code : Int)
deriving DecidableEq, Repr

/-- The function `postEvent` of handler.go, given what the collector did: an
error when the call failed or the status is not 2xx. -/
def postEvent : PostResult → Option GoError
  | .fail err => some err
  | .status code => if Int.tdiv code 100 ≠ 2 then some (GoError.other 0) else none

/-- A line written by `log.Printf`. -/
inductive LogLine where
  | postFailed (err : GoError)
  | droppedEvents (d : Nat)
  | copyError (err : GoError)
deriving DecidableEq, Repr

/-- The case of the `select` of `backgroundSender` that fires in one pass of its
loop: an event is received (and the collector does something with it), or the
ticker fires. -/
inductive SenderCase where
  | recv (post : PostResult)
  | tick
deriving DecidableEq, Repr

/-- A record of what the background sender has done: the events it took from
the channel, those the collector accepted, and its log lines, all in order. -/
structure SenderLog where
  taken : List MeteringEvent
  posted : List MeteringEvent
  logs : List LogLine
deriving DecidableEq, Repr

/-- One pass of the loop of `(*Server).backgroundSender`. A receive on an empty
channel cannot fire and leaves everything as it is. -/
def Server.backgroundSender (s : Server) (out : SenderLog) : SenderCase → Server × SenderLog
  | .recv post =>
    match s.events with
    | [] => (s, out)
    | ev :: rest =>
      match postEvent post with
      | some err =>
        ({ s with events := rest },
          { out with taken := out.taken ++ [ev], logs := out.logs ++ [.postFailed err] })
      | none =>
        ({ s with events := rest },
          { out with taken := out.taken ++ [ev], posted := out.posted ++ [ev] })
  | .tick =>
    let d := s.dropped
    if d > 0 then (s, { out with logs := out.logs ++ [.droppedEvents d] })
    else (s, out)

/-- An inbound `*http.Request`, as far as the handler reads it. -/
structure Request where
  Method : List Byte
  Header : Header
  Body : Reader
deriving DecidableEq, Repr

/-- The request that the handler gives to `upstreamClient.Do`. -/
structure UpstreamRequest where
  Method : List Byte
  URL : List Byte
  Header : Header
  Body : List Byte
deriving DecidableEq, Repr

/-- What `upstreamClient.Do` returns: an error, or a response. -/
inductive UpstreamResult where
  | fail (err : GoError)
  | response (StatusCode : Int) (Header : Header) (Body : Reader)
deriving DecidableEq, Repr

/-- The surroundings of one call of the handler: the JSON decoder, the value of
`NewReqID()`, whether `http.NewRequestWithContext` rejects a URL, the upstream,
and the clock (`latencyMs` is `time.Since(start).Milliseconds()` and `now` is
`time.Now().UTC()` where the event is built). -/
structure Env where
  json : JSON
  requestID : List Byte
  newRequestErr : List Byte → Option GoError
  Do : UpstreamRequest → UpstreamResult
  latencyMs : Int
  now : Int

/-- The state after one call of the handler: the server, the client, and a
record of the call: the requests given to `upstreamClient.Do`, the events given
to `enqueue`, and the log lines, each in order. -/
structure Handled where
  s : Server
  w : ResponseWriter
  upstream : List UpstreamRequest
  enqueued : List MeteringEvent
  logs : List LogLine

/-- The call `io.ReadAll(io.LimitReader(body, n))`: at most `n` bytes are read.
`LimitReader` answers end-of-stream once `n` bytes were read, so the error of the
stream is met when the stream ends before that, and also when it ends with the
`n`-th byte and returns its error together with that byte; `ReadAll` turns
`io.EOF` into a nil error. -/
def readAllLimited (n : Nat) (body : Reader) : Except GoError (List Byte) :=
  let data := body.chunks.flatten
  if n < data.length ∨ (n = data.length ∧ body.errWithData = false) then .ok (data.take n)
  else if body.err = GoError.EOF then .ok data
  else .error body.err

/-- The call `io.Copy(out, io.TeeReader(body, capWriter))` of the handler, one
pass per chunk read: the chunk goes to the capture sink, then to the client
(followed by a flush when the client is a flusher); a failed write ends the
copy, and so does the end of the stream. -/
def copyTee : ResponseWriter → limitedCapture → List (List Byte) → GoError →
    ResponseWriter × limitedCapture × Option GoError
  | w, cap, [], err => (w, cap, if err = GoError.EOF then none else some err)
  | w, cap, chunk :: chunks, err =>
    if chunk.length > 0 then
      let cap1 := (cap.Write chunk).1
      let wr := w.Write chunk
      let w1 := if wr.1.flusher then wr.1.Flush else wr.1
      match wr.2 with
      | some werr => (w1, cap1, some werr)
      | none => copyTee w1 cap1 chunks err
    else copyTee w cap chunks err

/-- The loop that copies the upstream response headers to the client, skipping
the hop-by-hop ones. -/
def copyHeaders (up : Header) (h : Header) : Header :=
  up.foldl (fun acc e =>
    if IsHopByHopHeader e.1 then acc else e.2.foldl (fun a v => Header.Add a e.1 v) acc) h

/-- The statements `var oreq OpenAIRequest` and `_ = json.Unmarshal(reqBody, &oreq)`
of the handler: the struct is used as the decoder left it, the error is
discarded. -/
def decodeRequest (json : JSON) (reqBody : List Byte) : OpenAIRequest :=
  (json.request reqBody).1

/-- The statements `var oresp OpenAIResponse` and
`if len(captured) > 0 { _ = json.Unmarshal(captured, &oresp) }` of the handler:
the struct is used as the decoder left it, the error is discarded. -/
def decodeResponse (json : JSON) (captured : List Byte) : OpenAIResponse :=
  if captured.length > 0 then (json.response captured).1
  else { ID := [], Model := [], Usage := none }

/-- The upstream request that the handler builds from the inbound request and
the body it read. -/
def Server.upstreamRequest (s : Server) (r : Request) (reqBody : List Byte) : UpstreamRequest :=
  let upURL := TrimRight s.cfg.UpstreamBaseURL 0x2F ++ str "/v1/chat/completions"
  let h1 := (Header.Set [] (str "Content-Type") (str "application/json")).Set
    (str "Authorization") (str "Bearer " ++ s.cfg.UpstreamAPIKey)
  let org := r.Header.Get (str "OpenAI-Organization")
  let h2 := if org ≠ [] then h1.Set (str "OpenAI-Organization") org else h1
  let beta := r.Header.Get (str "OpenAI-Beta")
  let h3 := if beta ≠ [] then h2.Set (str "OpenAI-Beta") beta else h2
  let proj := r.Header.Get (str "OpenAI-Project")
  let h4 := if proj ≠ [] then h3.Set (str "OpenAI-Project") proj else h3
  { Method := str "POST", URL := upURL, Header := h4, Body := reqBody }

/-- The struct literal `MeteringEvent{...}` as the handler writes it at each of
its three `enqueue` sites, with the token counts at 0. -/
def newEvent (env : Env) (tenant appKey model : List Byte) (StatusCode : Int) : MeteringEvent :=
  { RequestID := env.requestID, Tenant := tenant, AppKey := appKey, Provider := str "openai",
    Model := model, LatencyMs := env.latencyMs, StatusCode := StatusCode, At := env.now,
    PromptTokens := 0, CompletionTokens := 0, TotalTokens := 0 }

/-- The statement `if usage != nil { ev.PromptTokens = usage.PromptTokens; ... }`
of the handler. -/
def MeteringEvent.setUsage (ev : MeteringEvent) : Option Usage → MeteringEvent
  | some usage =>
    { ev with PromptTokens := usage.PromptTokens, CompletionTokens := usage.CompletionTokens,
              TotalTokens := usage.TotalTokens }
  | none => ev

/-- The statement `if copyErr != nil { log.Printf(...) }` of the handler. -/
def logCopyErr : Option GoError → List LogLine
  | some copyErr => [.copyError copyErr]
  | none => []

/-- The branch `if oreq.Stream { ... }` of the handler. -/
def Server.relayStreamed (s : Server) (env : Env) (w1 : ResponseWriter)
    (tenant appKey : List Byte) (oreq : OpenAIRequest) (upReq : UpstreamRequest)
    (StatusCode : Int) (upBody : Reader) : Handled :=
  let sse := StreamSSE env.json w1 upBody
  let model := FirstNonEmpty [sse.st.model, oreq.Model, str "unknown"]
  let ev := (newEvent env tenant appKey model StatusCode).setUsage sse.st.usage
  { s := s.enqueue ev, w := sse.st.w, upstream := [upReq], enqueued := [ev],
    logs := logCopyErr sse.err }

/-- The rest of the handler, for a request that does not stream. -/
def Server.relayBuffered (s : Server) (env : Env) (w1 : ResponseWriter)
    (tenant appKey : List Byte) (oreq : OpenAIRequest) (upReq : UpstreamRequest)
    (StatusCode : Int) (upBody : Reader) : Handled :=
  let capWriter := NewLimitedCapture s.cfg.MeteringCaptureBytes
  let copied := copyTee w1 capWriter upBody.chunks upBody.err
  let captured := copied.2.1.Bytes
  let oresp := decodeResponse env.json captured
  let model := FirstNonEmpty [oresp.Model, oreq.Model, str "unknown"]
  let ev := (newEvent env tenant appKey model StatusCode).setUsage oresp.Usage
  { s := s.enqueue ev, w := copied.1, upstream := [upReq], enqueued := [ev],
    logs := logCopyErr copied.2.2 }

/-- The method `(*Server).handleChatCompletions` of handler.go. The server that
it leaves is the one after its `enqueue` call as `Server.enqueue` makes it, that
is, with no receive waiting on the channel at that moment. -/
def Server.handleChatCompletions (s : Server) (env : Env) (w : ResponseWriter) (r : Request) :
    Handled :=
  if r.Method ≠ str "POST" then
    { s := s, w := httpError w (str "method not allowed") 405,
      upstream := [], enqueued := [], logs := [] }
  else
    let tenant := FirstNonEmpty
      [r.Header.Get (str "X-LLM-Tenant"), r.Header.Get (str "X-Tenant"), str "default"]
    let appKey := BearerToken (r.Header.Get (str "Authorization"))
    if appKey = [] then
      { s := s, w := httpError w (str "missing Authorization bearer token (gateway key)") 401,
        upstream := [], enqueued := [], logs := [] }
    else
      match readAllLimited (8 * 2 ^ 20) r.Body with
      | .error _ =>
        { s := s, w := httpError w (str "failed to read body") 400,
          upstream := [], enqueued := [], logs := [] }
      | .ok reqBody =>
        let oreq := decodeRequest env.json reqBody
        let upReq := s.upstreamRequest r reqBody
        match env.newRequestErr upReq.URL with
        | some _ =>
          { s := s, w := httpError w (str "failed to create upstream request") 500,
            upstream := [], enqueued := [], logs := [] }
        | none =>
          match env.Do upReq with
          | .fail _ =>
            let ev := newEvent env tenant appKey (FirstNonEmpty [oreq.Model, str "unknown"]) 0
            { s := s.enqueue ev, w := httpError w (str "upstream request failed") 502,
              upstream := [upReq], enqueued := [ev], logs := [] }
          | .response StatusCode upHeader upBody =>
            let wh := Header.Set (copyHeaders upHeader w.header) (str "X-LLM-Request-ID")
              env.requestID
            let w1 := ResponseWriter.WriteHeader { w with header := wh } StatusCode
            if oreq.Stream then
              s.relayStreamed env w1 tenant appKey oreq upReq StatusCode upBody
            else
              s.relayBuffered env w1 tenant appKey oreq upReq StatusCode upBody

/-! ## Runs of the metering queue -/

/-- One step of the metering queue: a request calls `enqueue` while no receive is
waiting on the channel; the background sender makes one pass of its loop; or a
request calls `enqueue` while the background sender waits in its `select` on the
empty channel, so that the send is taken whatever the capacity (also on a
channel of capacity 0) and the sender receives the event at once and delivers
it. -/
inductive QueueStep where
  | enqueue (ev : MeteringEvent)
  | sender (c : SenderCase)
  | handoff (ev : MeteringEvent) (post : PostResult)
deriving DecidableEq, Repr

/-- The queue together with a record of its run: the server, what the sender did,
the number of `enqueue` calls made, and the events whose send was taken. -/
structure QueueRun where
  s : Server
  out : SenderLog
  calls : Nat
  accepted : List MeteringEvent
deriving DecidableEq, Repr

/-- The run at the start: the server as `NewServer` made it, nothing done yet. -/
def QueueRun.start (s : Server) : QueueRun :=
  { s := s, out := { taken := [], posted := [], logs := [] }, calls := 0, accepted := [] }

/-- One step of a run. An `enqueue` that did not touch the counter had its send
taken. In a hand-off the event goes through the channel to the waiting sender,
which runs the receive case of its loop on it; the sender does not wait while
the channel holds an event, so a hand-off cannot happen then and leaves
everything as it is. -/
def QueueRun.step (t : QueueRun) : QueueStep → QueueRun
  | .enqueue ev =>
    let s1 := t.s.enqueue ev
    { t with s := s1, calls := t.calls + 1,
             accepted := if s1.dropped = t.s.dropped then t.accepted ++ [ev] else t.accepted }
  | .sender c =>
    let r := t.s.backgroundSender t.out c
    { t with s := r.1, out := r.2 }
  | .handoff ev post =>
    match t.s.events with
    | [] =>
      let r := Server.backgroundSender { t.s with events := [ev] } t.out (.recv post)
      { t with s := r.1, out := r.2, calls := t.calls + 1, accepted := t.accepted ++ [ev] }
    | _ :: _ => t

/-- A run of several steps. -/
def QueueRun.run (t : QueueRun) (steps : List QueueStep) : QueueRun :=
  steps.foldl QueueRun.step t

/-! ## The words of the specification about the event stream -/

/-- The payload of a `data:` frame: the line trimmed of white space, without the
prefix `data:`, trimmed again; `none` for a line that is not a `data:` frame. -/
def dataPayload (line : List Byte) : Option (List Byte) :=
  if HasPrefix (TrimSpace line) (str "data:") then
    some (TrimSpace (TrimPrefix (TrimSpace line) (str "data:")))
  else none

/-- A sentinel line: a `data:` frame whose payload is exactly `[DONE]`. -/
def isSentinelLine (line : List Byte) : Bool := dataPayload line == some (str "[DONE]")

/-- The chunk that a line carries: the line is a `data:` frame whose payload
starts with an opening brace and decodes. -/
def decodedFrame (json : JSON) (line : List Byte) : Option StreamChunk :=
  match dataPayload line with
  | some payload => if payload.head? = some 0x7B then json.chunk payload else none
  | none => none

/-- The model that a line carries: that of its decoded chunk, when not empty. -/
def frameModel (json : JSON) (line : List Byte) : Option (List Byte) :=
  match decodedFrame json line with
  | some ch => if ch.Model ≠ [] then some ch.Model else none
  | none => none

/-- The usage that a line carries: that of its decoded chunk, when present. -/
def frameUsage (json : JSON) (line : List Byte) : Option Usage :=
  match decodedFrame json line with
  | some ch => ch.Usage
  | none => none

/-- The lines of a stream: the pieces that end in a newline, and the piece after
the last newline when it is not empty. -/
def streamLines (data : List Byte) : List (List Byte) :=
  (ReadBytes 0x0A data).1 ++ (if (ReadBytes 0x0A data).2 = [] then [] else [(ReadBytes 0x0A data).2])

/-- The lines before the first sentinel line. -/
def beforeSentinel (lines : List (List Byte)) : List (List Byte) :=
  lines.takeWhile (fun l => !isSentinelLine l)

/-- The lines up to and including the first sentinel line. -/
def throughSentinel (lines : List (List Byte)) : List (List Byte) :=
  beforeSentinel lines ++ (lines.dropWhile (fun l => !isSentinelLine l)).take 1

/-- The model of the last line before the first sentinel line that carries one;
the empty string when no line does. -/
def lastSeenModel (json : JSON) (lines : List (List Byte)) : List Byte :=
  (((beforeSentinel lines).filterMap (frameModel json)).getLast?).getD []

/-- The usage of the last line before the first sentinel line that carries one;
none when no line does. -/
def lastSeenUsage (json : JSON) (lines : List (List Byte)) : Option Usage :=
  ((beforeSentinel lines).filterMap (frameUsage json)).getLast?

/-- A write to the client failed during the call of `StreamSSE` that started
with client `w` and returned `r`. -/
def writeFailed (w : ResponseWriter) (r : SSEResult) : Prop :=
  ∃ k, w.body.length ≤ k ∧ k < r.st.w.body.length ∧ w.writeErr k ≠ none

/-- A read from the upstream failed with an error other than end-of-stream
during the call of `StreamSSE` that returned `r`. -/
def readFailed (r : SSEResult) : Prop :=
  ∃ line err, (line, some err) ∈ r.st.reads ∧ err ≠ GoError.EOF

/-- A fresh `http.ResponseWriter`, as the HTTP server hands it to a handler:
nothing set or written yet. -/
def newResponseWriter (flusher : Bool) (writeErr : Nat → Option GoError) : ResponseWriter :=
  { header := [], status := none, body := [], flushes := 0, flusher := flusher,
    writeErr := writeErr }

/-- A JSON decoder that rejects every input. -/
def rejectJSON : JSON :=
  { request := fun _ => undecodedRequest
    response := fun _ => undecodedResponse
    chunk := fun _ => none }

/-- The state of `StreamSSE` after a line was written to the client with
success, and flushed when the client is a flusher. -/
def SSEState.wrote (st : SSEState) (line : List Byte) : SSEState :=
  { st with w := if (st.w.Write line).1.flusher then (st.w.Write line).1.Flush
                 else (st.w.Write line).1 }

/-- The state of `StreamSSE` after a line was inspected: the model and the usage
that the line carries replace the ones seen so far. -/
def SSEState.saw (json : JSON) (st : SSEState) (line : List Byte) : SSEState :=
  { st with model := (frameModel json line).getD st.model,
            usage := match frameUsage json line with
              | some u => some u
              | none => st.usage }

/-- The model seen on the lines before the first sentinel line, starting from a
model already seen. -/
def seenModelFrom (json : JSON) (d : List Byte) (lines : List (List Byte)) : List Byte :=
  (((lines.takeWhile (fun l => !isSentinelLine l)).filterMap (frameModel json)).getLast?).getD d

/-- The usage seen on the lines before the first sentinel line, starting from a
usage already seen (or none). -/
def seenUsageFrom (json : JSON) (d : Option Usage) (lines : List (List Byte)) : Option Usage :=
  (((lines.takeWhile (fun l => !isSentinelLine l)).filterMap
    (fun l => (frameUsage json l).map some)).getLast?).getD d

/-- What a run of the loop of `StreamSSE` from state `st` to result `r` looks
like, `new` being the reads it made: the reads and the writes are recorded in
order, every read line that is not empty was given to the client, all writes but
the last succeeded, and either the last write failed and its error is returned
with what was seen on the lines before it, or all writes succeeded and what was
seen on all lines read is returned, with no error or with the error of a failed
read whose line is not a sentinel line. -/
def RelayRun (json : JSON) (err : GoError) (st : SSEState) (r : SSEResult)
    (new : List (List Byte × Option GoError)) : Prop :=
  r.st.reads = st.reads ++ new ∧ new ≠ [] ∧ r.st.w.writeErr = st.w.writeErr
  ∧ r.st.w.body = st.w.body ++ (new.map Prod.fst).filter (fun l => l ≠ [])
  ∧ (∀ l e, (l, some e) ∈ new → e = err)
  ∧ (∀ j, st.w.body.length ≤ j → j + 1 < r.st.w.body.length → st.w.writeErr j = none)
  ∧ ((∃ e, r.err = some e ∧ st.w.body.length < r.st.w.body.length
        ∧ st.w.writeErr (r.st.w.body.length - 1) = some e
        ∧ r.st.model = seenModelFrom json st.model (new.dropLast.map Prod.fst)
        ∧ r.st.usage = seenUsageFrom json st.usage (new.dropLast.map Prod.fst))
    ∨ ((∀ j, st.w.body.length ≤ j → j < r.st.w.body.length → st.w.writeErr j = none)
        ∧ r.st.model = seenModelFrom json st.model (new.map Prod.fst)
        ∧ r.st.usage = seenUsageFrom json st.usage (new.map Prod.fst)
        ∧ ((r.err = none ∧ ∀ l e, (l, some e) ∈ new → e = GoError.EOF ∨ isSentinelLine l = true)
          ∨ (∃ l e, r.err = some e ∧ e ≠ GoError.EOF ∧ (l, some e) ∈ new
              ∧ isSentinelLine l = false))))

/-- The payload of the data frame of `sse_test.go`. -/
def testPayload : List Byte :=
  str ("\x7b\"id\":\"1\",\"model\":\"gpt-4\",\"usage\":\x7b\"prompt_tokens\":5," ++
    "\"completion_tokens\":7,\"total_tokens\":12\x7d\x7d")

/-- The input stream of `TestStreamSSE_MultiChunkWithUsage`. -/
def testStream : List Byte :=
  str "\n" ++ str "data: " ++ testPayload ++ str "\n\ndata: [DONE]\n"

/-- A JSON decoder that knows the payload of the test, and rejects the rest. -/
def testJSON : JSON :=
  { request := fun _ => undecodedRequest
    response := fun _ => undecodedResponse
    chunk := fun p =>
      if p = testPayload then
        some { ID := str "1", Model := str "gpt-4",
               Usage := some { PromptTokens := 5, CompletionTokens := 7, TotalTokens := 12 } }
      else none }

/-- The three frames that the mock upstream of `tests/contract/mock-openai`
sends for a streaming request. -/
def mockStream : List Byte :=
  str ("data: \x7b\"id\":\"mock-1\",\"object\":\"chat.completion.chunk\",\"choices\":" ++
    "[\x7b\"index\":0,\"delta\":\x7b\"role\":\"assistant\"\x7d\x7d]\x7d\n\n")
  ++ str ("data: \x7b\"id\":\"mock-1\",\"object\":\"chat.completion.chunk\",\"choices\":" ++
    "[\x7b\"index\":0,\"delta\":\x7b\"content\":\"hello-from-mock\"\x7d\x7d]\x7d\n\n")
  ++ str "data: [DONE]\n\n"

/-- A JSON decoder for the frames of the mock upstream: every object decodes to a
chunk with the identifier `mock-1`, no model and no usage. -/
def mockJSON : JSON :=
  { request := fun _ => undecodedRequest
    response := fun _ => undecodedResponse
    chunk := fun p =>
      if p.head? = some 0x7B then some { ID := str "mock-1", Model := [], Usage := none }
      else none }

/-! ## The scenario of the specification -/

/-- A configuration with the defaults of `LoadConfig` and an upstream key. -/
def scenarioConfig : Config :=
  { ListenAddr := str ":8080", UpstreamBaseURL := str "https://api.openai.com",
    UpstreamAPIKey := str "sk-upstream",
    CollectorURL := str "http://llm-collector.llm-system.svc.cluster.local:8081/events",
    EventQueueSize := 10000, EventFlushTimeout := 2000000000,
    HTTPClientTimeout := 120000000000, MeteringCaptureBytes := 256 * 1024 }

/-- The server that `NewServer` makes for that configuration. -/
def scenarioServer : Server := { cfg := scenarioConfig, events := [], dropped := 0 }

/-- The request body of the scenario: model `gpt-4`, not streaming. -/
def scenarioRequestBody : List Byte := str "\x7b\"model\":\"gpt-4\",\"stream\":false\x7d"

/-- The response body of the scenario, as the mock upstream returns it. -/
def scenarioResponseBody : List Byte :=
  str ("\x7b\"model\":\"gpt-4\",\"usage\":\x7b\"prompt_tokens\":7,\"completion_tokens\":3," ++
    "\"total_tokens\":10\x7d\x7d")

/-- What the response body of the scenario decodes to. -/
def scenarioResponse : OpenAIResponse :=
  { ID := [], Model := str "gpt-4",
    Usage := some { PromptTokens := 7, CompletionTokens := 3, TotalTokens := 10 } }

/-- A JSON decoder that knows the two bodies of the scenario, and rejects the
rest. -/
def scenarioJSON : JSON :=
  { request := fun b =>
      if b = scenarioRequestBody then ({ Model := str "gpt-4", Stream := false }, none)
      else undecodedRequest
    response := fun b =>
      if b = scenarioResponseBody then (scenarioResponse, none) else undecodedResponse
    chunk := fun _ => none }

/-- The request of the scenario, with a given `Authorization` header. -/
def scenarioRequest (auth : List Byte) : Request :=
  { Method := str "POST", Header := [(str "Authorization", [auth])],
    Body := { chunks := [scenarioRequestBody], err := GoError.EOF } }

/-- The surroundings of the scenario, with a given answer of the upstream. -/
def scenarioEnv (up : UpstreamResult) : Env :=
  { json := scenarioJSON, requestID := str "req_00", newRequestErr := fun _ => none,
    Do := fun _ => up, latencyMs := 3, now := 0 }

/-! ## The words of the specification about headers -/

/-- The method `Header.Values`: all values under the canonical form of the key. -/
def Header.Values (h : Header) (key : List Byte) : List (List Byte) :=
  (h.lookup (CanonicalMIMEHeaderKey key)).getD []

/-- The values that the upstream response gives under a field name, hop-by-hop
fields left out: those of every entry of the upstream header map that
`IsHopByHopHeader` lets through and whose key has the canonical form of the
name, in order. -/
def forwardedValues (up : Header) (name : List Byte) : List (List Byte) :=
  (up.filter (fun e =>
    !IsHopByHopHeader e.1 && CanonicalMIMEHeaderKey e.1 == CanonicalMIMEHeaderKey name)).flatMap
    Prod.snd

/-- An upstream response header map that carries a request identifier of the
upstream under the name that the handler uses for its own. -/
def upstreamHeaderWithRequestID : Header :=
  [(str "Content-Type", [str "application/json"]),
   (str "X-Llm-Request-Id", [str "upstream-id"])]

/-! ## Example requests and upstream answers for the handler -/

/-- A request body of one byte more than 8 MiB. -/
def oversizedBody : List Byte := List.replicate (8 * 2 ^ 20 + 1) 0x20

/-- A POST request with a bearer token and the oversized body. -/
def oversizedRequest : Request :=
  { Method := str "POST", Header := [(str "Authorization", [str "Bearer abc"])],
    Body := { chunks := [oversizedBody], err := GoError.EOF } }

/-- Surroundings in which no body decodes and the upstream answers 200 with an
empty body. -/
def plainEnv : Env :=
  { json := rejectJSON, requestID := str "req_00", newRequestErr := fun _ => none,
    Do := fun _ => .response 200 [] { chunks := [], err := GoError.EOF },
    latencyMs := 3, now := 0 }

/-- A response body whose usage has negative counts. -/
def negativeUsageBody : List Byte :=
  str ("\x7b\"model\":\"gpt-4\",\"usage\":\x7b\"prompt_tokens\":-5,\"completion_tokens\":3," ++
    "\"total_tokens\":-2\x7d\x7d")

/-- A JSON decoder that knows the request body of the scenario and the response
body with the negative counts, and rejects the rest; `encoding/json` decodes a
negative number into an `int` field. -/
def negativeUsageJSON : JSON :=
  { request := fun b =>
      if b = scenarioRequestBody then ({ Model := str "gpt-4", Stream := false }, none)
      else undecodedRequest
    response := fun b =>
      if b = negativeUsageBody then
        ({ ID := [], Model := str "gpt-4",
           Usage := some { PromptTokens := -5, CompletionTokens := 3, TotalTokens := -2 } }, none)
      else undecodedResponse
    chunk := fun _ => none }

/-- Surroundings in which the upstream answers 200 with the body that has the
negative counts. -/
def negativeUsageEnv : Env :=
  { json := negativeUsageJSON, requestID := str "req_00", newRequestErr := fun _ => none,
    Do := fun _ => .response 200 [] { chunks := [negativeUsageBody], err := GoError.EOF },
    latencyMs := 3, now := 0 }

/-! ## config.go, with the environment helpers of util.go -/

/-- The value of a run of decimal digits; `none` when a byte is not a digit. -/
def digitsValue : Nat → List Byte → Option Nat
  | acc, [] => some acc
  | acc, c :: cs => if 0x30 ≤ c ∧ c ≤ 0x39 then digitsValue (acc * 10 + (c - 0x30)) cs else none

/-- The function `strconv.Atoi`: an optional sign and at least one decimal digit,
with a value in the range of a 64-bit `int`; `none` for an error. -/
def Atoi (s : List Byte) : Option Int :=
  let neg := s.head? = some 0x2D
  let ds := if s.head? = some 0x2D ∨ s.head? = some 0x2B then s.tail else s
  if ds = [] then none
  else
    match digitsValue 0 ds with
    | none => none
    | some n =>
      let v : Int := if neg then -(n : Int) else (n : Int)
      if -(2 ^ 63) ≤ v ∧ v < 2 ^ 63 then some v else none

/-- The function `EnvOr` of util.go; `getenv` is `os.Getenv`, which gives the
empty string for a variable that is not set. -/
def EnvOr (getenv : List Byte → List Byte) (key def0 : List Byte) : List Byte :=
  let v := TrimSpace (getenv key)
  if v = [] then def0 else v

/-- The function `EnvOrInt` of util.go. -/
def EnvOrInt (getenv : List Byte → List Byte) (key : List Byte) (def0 : Int) : Int :=
  let v := TrimSpace (getenv key)
  if v = [] then def0
  else
    match Atoi v with
    | none => def0
    | some n => n

/-- The function `EnvOrDuration` of util.go; `ParseDuration` is
`time.ParseDuration`, taken as given (`none` for an error), and a duration is a
count of nanoseconds. -/
def EnvOrDuration (ParseDuration : List Byte → Option Int) (getenv : List Byte → List Byte)
    (key : List Byte) (def0 : Int) : Int :=
  let v := TrimSpace (getenv key)
  if v = [] then def0
  else
    match ParseDuration v with
    | none => def0
    | some d => d

/-- The function `LoadConfig` of config.go: the configuration and the error. -/
def LoadConfig (ParseDuration : List Byte → Option Int) (getenv : List Byte → List Byte) :
    Config × Option GoError :=
  let cfg : Config :=
    { ListenAddr := EnvOr getenv (str "LISTEN_ADDR") (str ":8080"),
      UpstreamBaseURL := EnvOr getenv (str "UPSTREAM_OPENAI_BASE_URL") (str "https://api.openai.com"),
      UpstreamAPIKey := getenv (str "UPSTREAM_OPENAI_API_KEY"),
      CollectorURL := EnvOr getenv (str "COLLECTOR_URL")
        (str "http://llm-collector.llm-system.svc.cluster.local:8081/events"),
      EventQueueSize := EnvOrInt getenv (str "EVENT_QUEUE_SIZE") 10000,
      EventFlushTimeout := EnvOrDuration ParseDuration getenv (str "EVENT_FLUSH_TIMEOUT")
        (2 * 1000000000),
      HTTPClientTimeout := EnvOrDuration ParseDuration getenv (str "HTTP_CLIENT_TIMEOUT")
        (120 * 1000000000),
      MeteringCaptureBytes := EnvOrInt getenv (str "METERING_CAPTURE_BYTES") (256 * 1024) }
  if cfg.UpstreamAPIKey = [] then (cfg, some (GoError.other 0))
  else if cfg.MeteringCaptureBytes < 0 then ({ cfg with MeteringCaptureBytes := 0 }, none)
  else (cfg, none)

/-- The call `time.NewTicker(d)` at the start of `backgroundSender`: the period
of the ticker, `none` when the call panics because `d` is not positive. -/
def NewTicker (d : Int) : Option Int := if d ≤ 0 then none else some d

/-- What `time.ParseDuration` returns for a few strings; other strings are left
as errors here. -/
def someDurations (s : List Byte) : Option Int :=
  if s = str "0" then some 0
  else if s = str "0s" then some 0
  else if s = str "-1s" then some (-1000000000)
  else if s = str "2s" then some 2000000000
  else if s = str "120s" then some 120000000000
  else none

/-- An environment that sets the upstream key, and the queue size to -1. -/
def negativeQueueEnviron (key : List Byte) : List Byte :=
  if key = str "UPSTREAM_OPENAI_API_KEY" then str "sk-upstream"
  else if key = str "EVENT_QUEUE_SIZE" then str "-1"
  else []

/-- An environment that sets the upstream key, and the flush timeout to 0s. -/
def zeroFlushEnviron (key : List Byte) : List Byte :=
  if key = str "UPSTREAM_OPENAI_API_KEY" then str "sk-upstream"
  else if key = str "EVENT_FLUSH_TIMEOUT" then str "0s"
  else []

/-- An environment that sets the upstream key, and the capture budget to -1. -/
def negativeCaptureEnviron (key : List Byte) : List Byte :=
  if key = str "UPSTREAM_OPENAI_API_KEY" then str "sk-upstream"
  else if key = str "METERING_CAPTURE_BYTES" then str "-1"
  else []

/-! ## The collector (src/collector/internal/collector) -/

/-- The struct `MeteringEvent` of the collector's types.go; `At` is an instant,
counted from the zero time, so that `At.IsZero()` is `At = 0`. -/
structure Collector.MeteringEvent where
  RequestID : List Byte
  Tenant : List Byte
  AppKey : List Byte
  Provider : List Byte
  Model : List Byte
  PromptTokens : Int
  CompletionTokens : Int
  TotalTokens : Int
  LatencyMs : Int
  StatusCode : Int
  At : Int
  Stream : Bool
deriving DecidableEq, Repr

/-- The package `encoding/json` as the collector uses it, taken as given:
`decode` is `Decode` on a decoder of the request body with
`DisallowUnknownFields`, which returns the event or an error with its text, and
`marshal` is `json.Marshal` of an event, `none` for an error. -/
structure Collector.JSON where
  decode : Reader → Except (List Byte) Collector.MeteringEvent
  marshal : Collector.MeteringEvent → Option (List Byte)

/-- The struct `Server` of the collector's server.go, with a record of its
output: whether a log file is configured (`s.w != nil`), the bytes given to the
buffered writer of the file, the number of times it was flushed, and the
messages given to `log.Printf`. The results of the writes are discarded by the
code, so they are not part of the state. -/
structure Collector.Server where
  file : Bool
  written : List Byte
  flushes : Nat
  logged : List (List Byte)
deriving DecidableEq, Repr

/-- The function `NewServer` of the collector, `openErr` being the result of
`os.OpenFile`: no log file for an empty path. -/
def Collector.NewServer (outPath : List Byte) (openErr : Option GoError) :
    Except GoError Collector.Server :=
  if outPath = [] then .ok { file := false, written := [], flushes := 0, logged := [] }
  else
    match openErr with
    | some err => .error err
    | none => .ok { file := true, written := [], flushes := 0, logged := [] }

/-- The method `(*Server).HandleEvents` of the collector; `now` is
`time.Now().UTC()`. -/
def Collector.Server.HandleEvents (s : Collector.Server) (json : Collector.JSON) (now : Int)
    (w : ResponseWriter) (r : Request) : Collector.Server × ResponseWriter :=
  if r.Method ≠ str "POST" then (s, httpError w (str "method not allowed") 405)
  else
    match json.decode r.Body with
    | .error msg => (s, httpError w (str "invalid json: " ++ msg) 400)
    | .ok ev =>
      if ev.RequestID = [] then (s, httpError w (str "missing request_id") 400)
      else
        let ev1 := if ev.At = 0 then { ev with At := now } else ev
        match json.marshal ev1 with
        | none => (s, httpError w (str "failed to marshal") 500)
        | some b =>
          let s1 : Collector.Server :=
            if s.file then
              { s with written := s.written ++ b ++ str "\n", flushes := s.flushes + 1 }
            else { s with logged := s.logged ++ [str "EVENT " ++ b] }
          (s1, ((w.WriteHeader 202).Write (str "accepted")).1)

/-- The event of `TestHandleEvents_Accepted`, sent without a timestamp. -/
def Collector.testEvent : Collector.MeteringEvent :=
  { RequestID := str "req_123", Tenant := str "default", AppKey := [], Provider := str "openai",
    Model := str "gpt-4", PromptTokens := 0, CompletionTokens := 0, TotalTokens := 0,
    LatencyMs := 0, StatusCode := 0, At := 0, Stream := false }

/-- A request body for the event of the test. -/
def Collector.testBody : List Byte :=
  str ("\x7b\"request_id\":\"req_123\",\"tenant\":\"default\",\"provider\":\"openai\"," ++
    "\"model\":\"gpt-4\"\x7d")

/-- A stand-in for `encoding/json`: the decoder knows the body of the test and
rejects the rest, and the encoder writes the request identifier and the
timestamp of an event only. -/
def Collector.testJSON : Collector.JSON :=
  { decode := fun body =>
      if body.chunks.flatten = Collector.testBody then .ok Collector.testEvent
      else .error (str "invalid character")
    marshal := fun ev =>
      some (str "\x7b\"request_id\":\"" ++ ev.RequestID ++ str "\",\"ts\":"
        ++ str (toString ev.At) ++ str "\x7d") }

/-- A POST request with the body of the test. -/
def Collector.testRequest : Request :=
  { Method := str "POST", Header := [],
    Body := { chunks := [Collector.testBody], err := GoError.EOF } }

/-! ## Bodies with a field of the wrong type -/

/-- A request body whose `stream` field is a string, not a boolean. -/
def mistypedRequestBody : List Byte :=
  str "\x7b\"model\":\"gpt-4\",\"stream\":\"yes\"\x7d"

/-- A response body whose prompt count is a string, not a number. -/
def mistypedResponseBody : List Byte :=
  str ("\x7b\"model\":\"gpt-4\",\"usage\":\x7b\"prompt_tokens\":\"7\",\"completion_tokens\":3," ++
    "\"total_tokens\":10\x7d\x7d")

/-- A JSON decoder that knows the request body of the scenario and the two bodies
with a field of the wrong type, and rejects the rest: for each of the two,
`json.Unmarshal` returns an error for the field of the wrong type, leaves that
field at its zero value, and has filled the other fields. -/
def mistypedJSON : JSON :=
  { request := fun b =>
      if b = mistypedRequestBody then
        ({ Model := str "gpt-4", Stream := false }, some (GoError.other 1))
      else if b = scenarioRequestBody then ({ Model := str "gpt-4", Stream := false }, none)
      else undecodedRequest
    response := fun b =>
      if b = mistypedResponseBody then
        ({ ID := [], Model := str "gpt-4",
           Usage := some { PromptTokens := 0, CompletionTokens := 3, TotalTokens := 10 } },
          some (GoError.other 1))
      else undecodedResponse
    chunk := fun _ => none }

/-- A POST request with a bearer token and the request body with the field of
the wrong type. -/
def mistypedRequest : Request :=
  { Method := str "POST", Header := [(str "Authorization", [str "Bearer abc"])],
    Body := { chunks := [mistypedRequestBody], err := GoError.EOF } }

/-- Surroundings with the decoder above and a given answer of the upstream. -/
def mistypedEnv (up : UpstreamResult) : Env :=
  { json := mistypedJSON, requestID := str "req_00", newRequestErr := fun _ => none,
    Do := fun _ => up, latencyMs := 3, now := 0 }

/-- The client after the handler has copied the upstream response headers to it,
set its request identifier and written the status code. -/
def answeredWriter (env : Env) (w : ResponseWriter) (upHeader : Header) (StatusCode : Int) :
    ResponseWriter :=
  ResponseWriter.WriteHeader
    { w with
      header := Header.Set (copyHeaders upHeader w.header) (str "X-LLM-Request-ID")
        env.requestID }
    StatusCode

/-! ## A stream relayed to a client whose write fails -/

/-- A stream of two data frames, with the models m1 and m2, and a sentinel
line. -/
def twoModelStream : List Byte :=
  str "data: \x7b\"model\":\"m1\"\x7d\ndata: \x7b\"model\":\"m2\"\x7d\ndata: [DONE]\n"

/-- A JSON decoder that knows the payloads of the two frames, and rejects the
rest. -/
def twoModelJSON : JSON :=
  { request := fun _ => undecodedRequest
    response := fun _ => undecodedResponse
    chunk := fun p =>
      if p = str "\x7b\"model\":\"m1\"\x7d" then some { ID := [], Model := str "m1", Usage := none }
      else if p = str "\x7b\"model\":\"m2\"\x7d" then
        some { ID := [], Model := str "m2", Usage := none }
      else none }

/-- The write errors of a client whose second write fails. -/
def secondWriteFails (k : Nat) : Option GoError := if k = 1 then some (GoError.other 7) else none

/-! ## Theorems -/

theorem take_take_append {α : Type} (n : Nat) (xs ys : List α) :
    (xs.take n ++ ys).take n = (xs ++ ys).take n := by
  rcases Nat.lt_or_ge xs.length n with h | h
  · rw [List.take_of_length_le (Nat.le_of_lt h)]
  · rw [List.take_append_of_le_length h, List.take_append_of_le_length, List.take_take, Nat.min_self]
    rw [List.length_take]; omega

theorem limitedCapture.Write_ret (lc : limitedCapture) (p : List Byte) :
    (lc.Write p).2 = ((p.length : Int), none) := by
  dsimp only [limitedCapture.Write]
  split_ifs <;> rfl

theorem limitedCapture.Write_limit (lc : limitedCapture) (p : List Byte) :
    (lc.Write p).1.limit = lc.limit := by
  dsimp only [limitedCapture.Write]
  split_ifs <;> rfl

theorem limitedCapture.Write_buf (lc : limitedCapture) (p : List Byte)
    (h0 : 0 ≤ lc.limit) (hb : (lc.buf.length : Int) ≤ lc.limit) :
    (lc.Write p).1.buf = (lc.buf ++ p).take lc.limit.toNat := by
  have hb' : lc.buf.length ≤ lc.limit.toNat := by omega
  dsimp only [limitedCapture.Write]
  split_ifs with h1 h2 h3
  · have : lc.buf.length = 0 := by omega
    have hn : lc.limit.toNat = 0 := by omega
    simp [hn, List.length_eq_zero.mp this]
  · have : lc.limit.toNat = lc.buf.length := by omega
    simp [this]
  · simp only
    rw [List.take_of_length_le]
    simp only [List.length_append]
    omega
  · simp only
    rw [List.take_append_eq_append_take, List.take_of_length_le hb']
    congr 2
    omega

theorem limitedCapture.WriteAll_rets (lc : limitedCapture) (ps : List (List Byte)) :
    (lc.WriteAll ps).2 = ps.map (fun p => ((p.length : Int), none)) := by
  induction ps generalizing lc with
  | nil => rfl
  | cons p ps ih => simp [limitedCapture.WriteAll, ih, limitedCapture.Write_ret]

theorem limitedCapture.WriteAll_limit (lc : limitedCapture) (ps : List (List Byte)) :
    (lc.WriteAll ps).1.limit = lc.limit := by
  induction ps generalizing lc with
  | nil => rfl
  | cons p ps ih => simp [limitedCapture.WriteAll, ih, limitedCapture.Write_limit]

theorem limitedCapture.WriteAll_buf (lc : limitedCapture) (ps : List (List Byte))
    (h0 : 0 ≤ lc.limit) (hb : (lc.buf.length : Int) ≤ lc.limit) :
    (lc.WriteAll ps).1.buf = (lc.buf ++ ps.flatten).take lc.limit.toNat := by
  induction ps generalizing lc with
  | nil =>
    simp only [limitedCapture.WriteAll, List.flatten_nil, List.append_nil]
    rw [List.take_of_length_le]; omega
  | cons p ps ih =>
    simp only [limitedCapture.WriteAll, List.flatten_cons]
    have hl := limitedCapture.Write_limit lc p
    have hbuf := limitedCapture.Write_buf lc p h0 hb
    rw [ih _ (by rw [hl]; exact h0) (by rw [hl, hbuf, List.length_take]; omega), hl, hbuf]
    rw [← List.append_assoc, take_take_append]

/-- C1: for every limit `L ≥ 0` and every sequence of writes to the sink made by
`NewLimitedCapture L`, each write returns the length of its input and no error,
and afterwards `Bytes()` is the first `min L (total length)` bytes of the
concatenation of the inputs; so the sink never holds more than `L` bytes, holds
nothing when `L = 0`, a write that straddles the limit is cut to the remaining
capacity, and limit 5 with input "hello world" captures "hello" and reports 11. -/
theorem limitedCapture_keeps_first_bytes (L : Int) (hL : 0 ≤ L) (ps : List (List Byte)) :
    ((NewLimitedCapture L).WriteAll ps).2 = ps.map (fun p => ((p.length : Int), none))
    ∧ ((NewLimitedCapture L).WriteAll ps).1.Bytes
        = ps.flatten.take (min L.toNat ps.flatten.length)
    ∧ ((((NewLimitedCapture L).WriteAll ps).1.Bytes.length : Int) ≤ L)
    ∧ (L = 0 → ((NewLimitedCapture L).WriteAll ps).1.Bytes = [])
    ∧ (∀ (qs : List (List Byte)) (p : List Byte),
        let lc := ((NewLimitedCapture L).WriteAll qs).1
        (lc.Bytes.length : Int) < L → L - lc.Bytes.length < p.length →
          (lc.Write p).1.Bytes = lc.Bytes ++ p.take (L - lc.Bytes.length).toNat
          ∧ (lc.Write p).2 = ((p.length : Int), none))
    ∧ ((NewLimitedCapture 5).Write (str "hello world")).1.Bytes = str "hello"
    ∧ ((NewLimitedCapture 5).Write (str "hello world")).2 = (11, none) := by
  have hnew : (NewLimitedCapture L).limit = L ∧ (NewLimitedCapture L).buf = [] := by
    unfold NewLimitedCapture
    split_ifs with h
    · exact ⟨by simp only; omega, rfl⟩
    · exact ⟨rfl, rfl⟩
  have hbuf : ∀ qs, ((NewLimitedCapture L).WriteAll qs).1.buf = qs.flatten.take L.toNat := by
    intro qs
    have := limitedCapture.WriteAll_buf (NewLimitedCapture L) qs (by rw [hnew.1]; exact hL)
      (by rw [hnew.1, hnew.2]; simpa using hL)
    rw [this, hnew.1, hnew.2, List.nil_append]
  refine ⟨limitedCapture.WriteAll_rets _ _, ?_, ?_, ?_, ?_, by decide, by decide⟩
  · show ((NewLimitedCapture L).WriteAll ps).1.buf = _
    rw [hbuf]
    rcases Nat.le_total L.toNat ps.flatten.length with h | h
    · rw [Nat.min_eq_left h]
    · rw [Nat.min_eq_right h, List.take_of_length_le h, List.take_of_length_le (Nat.le_refl _)]
  · show ((((NewLimitedCapture L).WriteAll ps).1.buf.length : Int) ≤ L)
    rw [hbuf, List.length_take]
    omega
  · intro h0
    show ((NewLimitedCapture L).WriteAll ps).1.buf = _
    rw [hbuf, h0]
    rfl
  · intro qs p lc h1 h2
    refine ⟨?_, limitedCapture.Write_ret _ _⟩
    have hlim : lc.limit = L := by
      show ((NewLimitedCapture L).WriteAll qs).1.limit = L
      rw [limitedCapture.WriteAll_limit, hnew.1]
    show (lc.Write p).1.buf = lc.buf ++ _
    have h1' : (lc.buf.length : Int) < L := h1
    have h2' : L - lc.buf.length < p.length := h2
    dsimp only [limitedCapture.Write]
    rw [hlim]
    rw [if_neg (by omega), if_neg (by omega), if_neg (by omega)]
    rfl

theorem limitedCapture_keeps_first_bytes_witness :
    (0 : Int) ≤ 5
    ∧ ((NewLimitedCapture 5).WriteAll [str "hel", str "lo w", str "orld"]).1.Bytes = str "hello" :=
  ⟨by decide, by
    rw [(limitedCapture_keeps_first_bytes 5 (by decide) [str "hel", str "lo w", str "orld"]).2.1]
    decide⟩


/-! ### The event-stream relay -/

theorem lineBlock_nil (json : JSON) (st : SSEState) :
    StreamSSE.lineBlock json st [] = .next st := by
  simp [StreamSSE.lineBlock]

theorem lineBlock_fail (json : JSON) (st : SSEState) (line : List Byte) (e : GoError)
    (hl : line ≠ []) (he : st.w.writeErr st.w.body.length = some e) :
    StreamSSE.lineBlock json st line
      = .ret { st := { st with w := (st.w.Write line).1 }, err := some e } := by
  have hlen : line.length > 0 := List.length_pos.mpr hl
  have h2 : (st.w.Write line).2 = some e := he
  simp only [StreamSSE.lineBlock, hlen, if_true]
  rw [h2]

theorem lineBlock_sentinel (json : JSON) (st : SSEState) (line : List Byte)
    (hl : line ≠ []) (hw : st.w.writeErr st.w.body.length = none)
    (hs : isSentinelLine line = true) :
    StreamSSE.lineBlock json st line = .ret { st := st.wrote line, err := none } := by
  have hlen : line.length > 0 := List.length_pos.mpr hl
  have h2 : (st.w.Write line).2 = none := hw
  simp only [isSentinelLine, dataPayload] at hs
  split_ifs at hs with hp
  · have hpay : TrimSpace (TrimPrefix (TrimSpace line) (str "data:")) = str "[DONE]" := by
      simpa using hs
    simp only [StreamSSE.lineBlock, hlen, if_true]
    rw [h2]
    simp only [hp, if_true, hpay, SSEState.wrote]
  · simp at hs

theorem lineBlock_next (json : JSON) (st : SSEState) (line : List Byte)
    (hl : line ≠ []) (hw : st.w.writeErr st.w.body.length = none)
    (hs : isSentinelLine line = false) :
    StreamSSE.lineBlock json st line = .next ((st.wrote line).saw json line) := by
  have hlen : line.length > 0 := List.length_pos.mpr hl
  have h2 : (st.w.Write line).2 = none := hw
  simp only [StreamSSE.lineBlock, hlen, if_true]
  rw [h2]
  simp only [isSentinelLine, dataPayload] at hs
  simp only [SSEState.saw, frameModel, frameUsage, decodedFrame, dataPayload]
  by_cases hp : HasPrefix (TrimSpace line) (str "data:") = true
  · simp only [hp, if_true] at hs ⊢
    have hpay : TrimSpace (TrimPrefix (TrimSpace line) (str "data:")) ≠ str "[DONE]" := by
      simpa using hs
    simp only [hpay, if_false]
    by_cases hb : (TrimSpace (TrimPrefix (TrimSpace line) (str "data:"))).head? = some 0x7B
    · have hpos : (TrimSpace (TrimPrefix (TrimSpace line) (str "data:"))).length > 0 := by
        cases h : TrimSpace (TrimPrefix (TrimSpace line) (str "data:")) with
        | nil => rw [h] at hb; simp at hb
        | cons a as => simp
      simp only [hb, hpos, and_self, if_true]
      cases hj : json.chunk (TrimSpace (TrimPrefix (TrimSpace line) (str "data:"))) with
      | none => simp [SSEState.wrote]
      | some ch =>
        simp only [SSEState.wrote]
        by_cases hm : ch.Model = [] <;> cases hu : ch.Usage <;> simp [hm, hu]
    · simp only [hb, and_false, if_false]
      simp [SSEState.wrote]
  · simp only [hp]
    simp [SSEState.wrote]


theorem last_getD_cons {α β : Type} (f : β → Option α) (p : β → Bool) (x : β) (xs : List β)
    (d : α) (hp : p x = true) :
    ((((x :: xs).takeWhile p).filterMap f).getLast?).getD d
      = (((xs.takeWhile p).filterMap f).getLast?).getD ((f x).getD d) := by
  rw [List.takeWhile_cons, if_pos hp, List.filterMap_cons]
  cases hf : f x with
  | none => simp
  | some a =>
    simp only [Option.getD_some]
    rw [List.getLast?_cons]
    simp

theorem last_getD_stop {α β : Type} (f : β → Option α) (p : β → Bool) (x : β) (xs : List β)
    (d : α) (hp : p x = false) :
    ((((x :: xs).takeWhile p).filterMap f).getLast?).getD d = d := by
  rw [List.takeWhile_cons]
  simp [hp]

theorem dataPayload_nil : dataPayload [] = none := by decide

theorem isSentinelLine_nil : isSentinelLine [] = false := by decide

theorem frameModel_nil (json : JSON) : frameModel json [] = none := by
  simp [frameModel, decodedFrame, dataPayload_nil]

theorem frameUsage_nil (json : JSON) : frameUsage json [] = none := by
  simp [frameUsage, decodedFrame, dataPayload_nil]


theorem seenModelFrom_nil (json : JSON) (d : List Byte) : seenModelFrom json d [] = d := rfl

theorem seenUsageFrom_nil (json : JSON) (d : Option Usage) : seenUsageFrom json d [] = d := rfl

theorem seenModelFrom_cons (json : JSON) (d : List Byte) (l : List Byte) (ls : List (List Byte))
    (hs : isSentinelLine l = false) :
    seenModelFrom json d (l :: ls) = seenModelFrom json ((frameModel json l).getD d) ls := by
  unfold seenModelFrom
  exact last_getD_cons _ _ l ls d (by simp [hs])

theorem seenUsageFrom_cons (json : JSON) (d : Option Usage) (l : List Byte)
    (ls : List (List Byte)) (hs : isSentinelLine l = false) :
    seenUsageFrom json d (l :: ls)
      = seenUsageFrom json (((frameUsage json l).map some).getD d) ls := by
  unfold seenUsageFrom
  exact last_getD_cons _ _ l ls d (by simp [hs])

theorem seenModelFrom_stop (json : JSON) (d : List Byte) (l : List Byte) (ls : List (List Byte))
    (hs : isSentinelLine l = true) : seenModelFrom json d (l :: ls) = d := by
  unfold seenModelFrom
  exact last_getD_stop _ _ l ls d (by simp [hs])

theorem seenUsageFrom_stop (json : JSON) (d : Option Usage) (l : List Byte)
    (ls : List (List Byte)) (hs : isSentinelLine l = true) : seenUsageFrom json d (l :: ls) = d := by
  unfold seenUsageFrom
  exact last_getD_stop _ _ l ls d (by simp [hs])

theorem lastSeenModel_eq (json : JSON) (ls : List (List Byte)) :
    lastSeenModel json ls = seenModelFrom json [] ls := rfl

theorem lastSeenUsage_eq (json : JSON) (ls : List (List Byte)) :
    lastSeenUsage json ls = seenUsageFrom json none ls := by
  unfold lastSeenUsage seenUsageFrom beforeSentinel
  generalize ls.takeWhile (fun l => !isSentinelLine l) = xs
  have h : xs.filterMap (fun l => (frameUsage json l).map some)
      = (xs.filterMap (frameUsage json)).map some := by
    induction xs with
    | nil => rfl
    | cons x xs ih =>
      simp only [List.filterMap_cons]
      cases frameUsage json x <;> simp [ih]
  rw [h, List.getLast?_map]
  cases (xs.filterMap (frameUsage json)).getLast? <;> rfl

theorem saw_model (json : JSON) (st : SSEState) (line : List Byte) :
    (st.saw json line).model = (frameModel json line).getD st.model := rfl

theorem saw_usage (json : JSON) (st : SSEState) (line : List Byte) :
    (st.saw json line).usage = ((frameUsage json line).map some).getD st.usage := by
  unfold SSEState.saw
  cases frameUsage json line <;> rfl

theorem wrote_body (st : SSEState) (line : List Byte) :
    (st.wrote line).w.body = st.w.body ++ [line] := by
  unfold SSEState.wrote
  split_ifs <;> rfl

theorem wrote_writeErr (st : SSEState) (line : List Byte) :
    (st.wrote line).w.writeErr = st.w.writeErr := by
  unfold SSEState.wrote
  split_ifs <;> rfl

/-- The loop at its last read. -/
theorem loop_nil (json : JSON) (st : SSEState) (last : List Byte) (err : GoError) :
    StreamSSE.loop json st [] last err
      = match StreamSSE.lineBlock json { st with reads := st.reads ++ [(last, some err)] } last with
        | .ret r => r
        | .next st1 => StreamSSE.errBlock st1 err := rfl

/-- The loop at a read that is not the last. -/
theorem loop_cons (json : JSON) (st : SSEState) (line : List Byte) (lines : List (List Byte))
    (last : List Byte) (err : GoError) :
    StreamSSE.loop json st (line :: lines) last err
      = match StreamSSE.lineBlock json { st with reads := st.reads ++ [(line, none)] } line with
        | .ret r => r
        | .next st1 => StreamSSE.loop json st1 lines last err := rfl

/-- The four ways a line can go through the loop body. -/
theorem line_cases (st : SSEState) (line : List Byte) :
    line = []
    ∨ (line ≠ [] ∧ ∃ e, st.w.writeErr st.w.body.length = some e)
    ∨ (line ≠ [] ∧ st.w.writeErr st.w.body.length = none ∧ isSentinelLine line = true)
    ∨ (line ≠ [] ∧ st.w.writeErr st.w.body.length = none ∧ isSentinelLine line = false) := by
  by_cases hl : line = []
  · exact Or.inl hl
  · cases hw : st.w.writeErr st.w.body.length with
    | some e => exact Or.inr (Or.inl ⟨hl, e, rfl⟩)
    | none =>
      cases hs : isSentinelLine line with
      | true => exact Or.inr (Or.inr (Or.inl ⟨hl, rfl, rfl⟩))
      | false => exact Or.inr (Or.inr (Or.inr ⟨hl, rfl, rfl⟩))


theorem wrote_reads (st : SSEState) (line : List Byte) : (st.wrote line).reads = st.reads := rfl

theorem wrote_model (st : SSEState) (line : List Byte) : (st.wrote line).model = st.model := rfl

theorem wrote_usage (st : SSEState) (line : List Byte) : (st.wrote line).usage = st.usage := rfl

theorem saw_w (json : JSON) (st : SSEState) (line : List Byte) : (st.saw json line).w = st.w := rfl

theorem saw_reads (json : JSON) (st : SSEState) (line : List Byte) :
    (st.saw json line).reads = st.reads := rfl

theorem relay_last (json : JSON) (st : SSEState) (last : List Byte) (err : GoError) :
    RelayRun json err st (StreamSSE.loop json st [] last err) [(last, some err)] := by
  rw [loop_nil]
  have hmem : ∀ (l : List Byte) (e : GoError), (l, some e) ∈ [(last, some err)] → e = err ∧ l = last := by
    intro l e h
    simp only [List.mem_singleton, Prod.mk.injEq, Option.some.injEq] at h
    exact ⟨h.2, h.1⟩
  rcases line_cases st last with hl | ⟨hl, e, he⟩ | ⟨hl, hw, hs⟩ | ⟨hl, hw, hs⟩
  · subst hl
    rw [lineBlock_nil]
    have hfin : ∀ r : SSEResult, r.st = { st with reads := st.reads ++ [([], some err)] } →
        (r.err = if err = GoError.EOF then none else some err) →
        RelayRun json err st r [([], some err)] := by
      intro r hst herr
      refine ⟨by rw [hst], by simp, by rw [hst], by rw [hst]; simp, fun l e h => (hmem l e h).1,
        fun j h1 h2 => by rw [hst] at h2; simp only at h2; omega, Or.inr ⟨?_, ?_, ?_, ?_⟩⟩
      · intro j h1 h2; rw [hst] at h2; simp only at h2; omega
      · rw [hst]
        simp [seenModelFrom_cons, isSentinelLine_nil, frameModel_nil, seenModelFrom_nil]
      · rw [hst]
        simp [seenUsageFrom_cons, isSentinelLine_nil, frameUsage_nil, seenUsageFrom_nil]
      · by_cases hE : err = GoError.EOF
        · left
          refine ⟨by rw [herr, if_pos hE], fun l e h => Or.inl ?_⟩
          rw [(hmem l e h).1, hE]
        · right
          exact ⟨[], err, by rw [herr, if_neg hE], hE, by simp, isSentinelLine_nil⟩
    apply hfin
    · unfold StreamSSE.errBlock; split_ifs <;> rfl
    · unfold StreamSSE.errBlock; split_ifs <;> rfl
  · rw [lineBlock_fail json { st with reads := st.reads ++ [(last, some err)] } last e hl he]
    refine ⟨rfl, by simp, rfl, by simp [ResponseWriter.Write, hl], fun l e h => (hmem l e h).1,
      fun j h1 h2 => ?_, Or.inl ⟨e, rfl, ?_, ?_, ?_, ?_⟩⟩
    · simp only [ResponseWriter.Write, List.length_append, List.length_singleton] at h2; omega
    · simp [ResponseWriter.Write]
    · simpa [ResponseWriter.Write] using he
    · simp [seenModelFrom_nil]
    · simp [seenUsageFrom_nil]
  · rw [lineBlock_sentinel json { st with reads := st.reads ++ [(last, some err)] } last hl hw hs]
    refine ⟨rfl, by simp, by rw [wrote_writeErr], by rw [wrote_body]; simp [hl],
      fun l e h => (hmem l e h).1, fun j h1 h2 => ?_, Or.inr ⟨?_, ?_, ?_, Or.inl ⟨rfl, ?_⟩⟩⟩
    · rw [wrote_body] at h2
      simp only [List.length_append, List.length_singleton] at h2; omega
    · intro j h1 h2
      rw [wrote_body] at h2
      simp only [List.length_append, List.length_singleton] at h2
      have : j = st.w.body.length := by omega
      rw [this]; exact hw
    · simp [wrote_model, seenModelFrom_stop, hs]
    · simp [wrote_usage, seenUsageFrom_stop, hs]
    · intro l e h
      right
      rw [(hmem l e h).2]; exact hs
  · rw [lineBlock_next json { st with reads := st.reads ++ [(last, some err)] } last hl hw hs]
    have hfin : ∀ r : SSEResult,
        r.st = ({ st with reads := st.reads ++ [(last, some err)] }.wrote last).saw json last →
        (r.err = if err = GoError.EOF then none else some err) →
        RelayRun json err st r [(last, some err)] := by
      intro r hst herr
      refine ⟨by rw [hst]; rfl, by simp, by rw [hst, saw_w, wrote_writeErr],
        by rw [hst, saw_w, wrote_body]; simp [hl], fun l e h => (hmem l e h).1,
        fun j h1 h2 => ?_, Or.inr ⟨?_, ?_, ?_, ?_⟩⟩
      · rw [hst, saw_w, wrote_body] at h2
        simp only [List.length_append, List.length_singleton] at h2; omega
      · intro j h1 h2
        rw [hst, saw_w, wrote_body] at h2
        simp only [List.length_append, List.length_singleton] at h2
        have : j = st.w.body.length := by omega
        rw [this]; exact hw
      · rw [hst, saw_model, wrote_model]
        simp [seenModelFrom_cons, hs, seenModelFrom_nil]
      · rw [hst, saw_usage, wrote_usage]
        simp [seenUsageFrom_cons, hs, seenUsageFrom_nil]
      · by_cases hE : err = GoError.EOF
        · left
          refine ⟨by rw [herr, if_pos hE], fun l e h => Or.inl ?_⟩
          rw [(hmem l e h).1, hE]
        · right
          exact ⟨last, err, by rw [herr, if_neg hE], hE, by simp, hs⟩
    apply hfin
    · unfold StreamSSE.errBlock; split_ifs <;> rfl
    · unfold StreamSSE.errBlock; split_ifs <;> rfl


theorem relay_step (json : JSON) (err : GoError) (st st1 : SSEState) (r : SSEResult)
    (line : List Byte) (new : List (List Byte × Option GoError))
    (hreads : st1.reads = st.reads ++ [(line, none)])
    (hwerr : st1.w.writeErr = st.w.writeErr)
    (hbody : st1.w.body = st.w.body ++ (if line = [] then [] else [line]))
    (hok : line ≠ [] → st.w.writeErr st.w.body.length = none)
    (hs : isSentinelLine line = false)
    (hmodel : st1.model = (frameModel json line).getD st.model)
    (husage : st1.usage = ((frameUsage json line).map some).getD st.usage)
    (h : RelayRun json err st1 r new) :
    RelayRun json err st r ((line, none) :: new) := by
  obtain ⟨h1, h2, h3, h4, h5, h6, h7⟩ := h
  have hlen : st1.w.body.length = st.w.body.length + (if line = [] then 0 else 1) := by
    rw [hbody]; split_ifs <;> simp
  have hidx : ∀ j, st.w.body.length ≤ j → ¬ st1.w.body.length ≤ j →
      st.w.writeErr j = none := by
    intro j hj hj1
    by_cases hl : line = []
    · rw [hlen, if_pos hl] at hj1; omega
    · rw [hlen, if_neg hl] at hj1
      have : j = st.w.body.length := by omega
      rw [this]; exact hok hl
  have hle : st.w.body.length ≤ st1.w.body.length := by rw [hlen]; omega
  have hle1 : st1.w.body.length ≤ r.st.w.body.length := by rw [h4]; simp
  refine ⟨?_, by simp, by rw [h3, hwerr], ?_, ?_, ?_, ?_⟩
  · rw [h1, hreads, List.append_assoc]; rfl
  · rw [h4, hbody, List.append_assoc]
    congr 1
    by_cases hl : line = [] <;> simp [hl, List.filter_cons]
  · intro l e hmem
    simp only [List.mem_cons, Prod.mk.injEq] at hmem
    rcases hmem with ⟨_, hne⟩ | hmem
    · exact absurd hne (by simp)
    · exact h5 l e hmem
  · intro j hj hj2
    by_cases hj1 : st1.w.body.length ≤ j
    · rw [← hwerr]; exact h6 j hj1 hj2
    · exact hidx j hj hj1
  · have hdl : ((line, (none : Option GoError)) :: new).dropLast = (line, none) :: new.dropLast :=
      List.dropLast_cons_of_ne_nil h2
    rcases h7 with ⟨e, he, hlt, hwe, hm, hu⟩ | ⟨hall, hm, hu, hcase⟩
    · left
      refine ⟨e, he, by omega, by rw [← hwerr]; exact hwe, ?_, ?_⟩
      · rw [hm, hdl, List.map_cons, seenModelFrom_cons json st.model line _ hs, hmodel]
      · rw [hu, hdl, List.map_cons, seenUsageFrom_cons json st.usage line _ hs, husage]
    · right
      refine ⟨?_, ?_, ?_, ?_⟩
      · intro j hj hj2
        by_cases hj1 : st1.w.body.length ≤ j
        · rw [← hwerr]; exact hall j hj1 hj2
        · exact hidx j hj hj1
      · rw [hm, List.map_cons, seenModelFrom_cons json st.model line _ hs, hmodel]
      · rw [hu, List.map_cons, seenUsageFrom_cons json st.usage line _ hs, husage]
      · rcases hcase with ⟨hnone, hall2⟩ | ⟨l, e, he, hne, hmem, hsl⟩
        · left
          refine ⟨hnone, ?_⟩
          intro l e hmem
          simp only [List.mem_cons, Prod.mk.injEq] at hmem
          rcases hmem with ⟨_, hne⟩ | hmem
          · exact absurd hne (by simp)
          · exact hall2 l e hmem
        · right
          exact ⟨l, e, he, hne, List.mem_cons_of_mem _ hmem, hsl⟩

/-- Every run of the loop of `StreamSSE` is a `RelayRun`, and its reads are the
first reads that the stream offers. -/
theorem relay_run (json : JSON) (last : List Byte) (err : GoError) (lines : List (List Byte)) :
    ∀ st : SSEState, ∃ new,
      RelayRun json err st (StreamSSE.loop json st lines last err) new
      ∧ new <+: (lines.map (fun l => (l, (none : Option GoError))) ++ [(last, some err)])
      ∧ (new = lines.map (fun l => (l, (none : Option GoError))) ++ [(last, some err)]
        ∨ st.w.writeErr ((StreamSSE.loop json st lines last err).st.w.body.length - 1) ≠ none
        ∨ ∃ l o, new.getLast? = some (l, o) ∧ isSentinelLine l = true) := by
  induction lines with
  | nil => intro st; exact ⟨_, relay_last json st last err, by simp, Or.inl (by simp)⟩
  | cons line lines ih =>
    intro st
    rw [loop_cons]
    rcases line_cases st line with hl | ⟨hl, e, he⟩ | ⟨hl, hw, hs⟩ | ⟨hl, hw, hs⟩
    · subst hl
      rw [lineBlock_nil]
      obtain ⟨new, hrun, hpre, hstop⟩ := ih { st with reads := st.reads ++ [([], none)] }
      refine ⟨([], none) :: new, ?_, ?_, ?_⟩
      · exact relay_step json err st { st with reads := st.reads ++ [([], none)] } _ [] new
          rfl rfl (by simp) (fun h => absurd rfl h)
          isSentinelLine_nil (by simp [frameModel_nil]) (by simp [frameUsage_nil]) hrun
      · simpa using hpre
      · rcases hstop with h | h | ⟨l, o, h, hsl⟩
        · exact Or.inl (by rw [h]; rfl)
        · exact Or.inr (Or.inl h)
        · refine Or.inr (Or.inr ⟨l, o, ?_, hsl⟩)
          rw [List.getLast?_cons, h]; rfl
    · rw [lineBlock_fail json { st with reads := st.reads ++ [(line, none)] } line e hl he]
      refine ⟨[(line, none)], ⟨rfl, by simp, rfl, by simp [ResponseWriter.Write, hl], ?_,
        fun j h1 h2 => ?_, Or.inl ⟨e, rfl, ?_, ?_, ?_, ?_⟩⟩, by simp, Or.inr (Or.inl ?_)⟩
      · intro l e h; simp at h
      · simp only [ResponseWriter.Write, List.length_append, List.length_singleton] at h2; omega
      · simp [ResponseWriter.Write]
      · simpa [ResponseWriter.Write] using he
      · simp [seenModelFrom_nil]
      · simp [seenUsageFrom_nil]
      · simp [ResponseWriter.Write, he]
    · rw [lineBlock_sentinel json { st with reads := st.reads ++ [(line, none)] } line hl hw hs]
      refine ⟨[(line, none)], ⟨rfl, by simp, by rw [wrote_writeErr],
        by rw [wrote_body]; simp [hl], ?_, fun j h1 h2 => ?_,
        Or.inr ⟨?_, ?_, ?_, Or.inl ⟨rfl, ?_⟩⟩⟩, by simp,
        Or.inr (Or.inr ⟨line, none, rfl, hs⟩)⟩
      · intro l e h; simp at h
      · rw [wrote_body] at h2
        simp only [List.length_append, List.length_singleton] at h2; omega
      · intro j h1 h2
        rw [wrote_body] at h2
        simp only [List.length_append, List.length_singleton] at h2
        have : j = st.w.body.length := by omega
        rw [this]; exact hw
      · simp [wrote_model, seenModelFrom_stop, hs]
      · simp [wrote_usage, seenUsageFrom_stop, hs]
      · intro l e h; simp at h
    · rw [lineBlock_next json { st with reads := st.reads ++ [(line, none)] } line hl hw hs]
      obtain ⟨new, hrun, hpre, hstop⟩ :=
        ih (({ st with reads := st.reads ++ [(line, none)] }.wrote line).saw json line)
      refine ⟨(line, none) :: new, ?_, ?_, ?_⟩
      · exact relay_step json err st
          (({ st with reads := st.reads ++ [(line, none)] }.wrote line).saw json line) _ line new
          rfl (by rw [saw_w, wrote_writeErr])
          (by rw [saw_w, wrote_body]; simp [hl]) (fun _ => hw) hs
          (by rw [saw_model, wrote_model]) (by rw [saw_usage, wrote_usage]) hrun
      · simpa using hpre
      · rcases hstop with h | h | ⟨l, o, h, hsl⟩
        · exact Or.inl (by rw [h]; rfl)
        · refine Or.inr (Or.inl ?_)
          rw [saw_w, wrote_writeErr] at h
          exact h
        · refine Or.inr (Or.inr ⟨l, o, ?_, hsl⟩)
          rw [List.getLast?_cons, h]; rfl


theorem takeWhile_append_stop {α : Type} (p : α → Bool) (xs ys : List α)
    (h : ∃ x ∈ xs, p x = false) : (xs ++ ys).takeWhile p = xs.takeWhile p := by
  induction xs with
  | nil => obtain ⟨x, hx, _⟩ := h; simp at hx
  | cons a as ih =>
    obtain ⟨x, hx, hpx⟩ := h
    rw [List.cons_append, List.takeWhile_cons, List.takeWhile_cons]
    by_cases hpa : p a = true
    · rw [if_pos hpa, if_pos hpa]
      rcases List.mem_cons.mp hx with hxa | hxas
      · rw [hxa] at hpx; rw [hpx] at hpa; exact absurd hpa (by simp)
      · rw [ih ⟨x, hxas, hpx⟩]
    · rw [if_neg hpa, if_neg hpa]

theorem takeWhile_filterMap_append_nil {α β : Type} (p : List α → Bool) (f : List α → Option β)
    (hp : p [] = true) (hf : f [] = none) (xs : List (List α)) :
    ((xs ++ [[]]).takeWhile p).filterMap f = (xs.takeWhile p).filterMap f := by
  induction xs with
  | nil => simp [List.takeWhile_cons, hp, hf]
  | cons a as ih =>
    rw [List.cons_append, List.takeWhile_cons, List.takeWhile_cons]
    by_cases hpa : p a = true
    · rw [if_pos hpa, if_pos hpa, List.filterMap_cons, List.filterMap_cons, ih]
    · rw [if_neg hpa, if_neg hpa]

/-- The lines read by a run that stopped at a sentinel line or went to the end
show the same lines before the sentinel as the whole stream. -/
theorem read_lines_before_sentinel (lines : List (List Byte)) (last : List Byte) (err : GoError)
    (new : List (List Byte × Option GoError))
    (hpre : new <+: (lines.map (fun l => (l, (none : Option GoError))) ++ [(last, some err)]))
    (hstop : new = lines.map (fun l => (l, (none : Option GoError))) ++ [(last, some err)]
      ∨ ∃ l o, new.getLast? = some (l, o) ∧ isSentinelLine l = true) :
    (new.map Prod.fst).takeWhile (fun l => !isSentinelLine l)
      = (lines ++ [last]).takeWhile (fun l => !isSentinelLine l) := by
  have hall : (lines.map (fun l => (l, (none : Option GoError))) ++ [(last, some err)]).map Prod.fst
      = lines ++ [last] := by
    simp [List.map_append, List.map_map, Function.comp_def]
  rcases hstop with h | ⟨l, o, hlast, hs⟩
  · rw [h, hall]
  · obtain ⟨rest, hrest⟩ := hpre
    rw [← hall, ← hrest, List.map_append]
    symm
    apply takeWhile_append_stop
    refine ⟨l, ?_, by simp [hs]⟩
    have : (l, o) ∈ new := List.mem_of_getLast?_eq_some hlast
    exact List.mem_map.mpr ⟨(l, o), this, rfl⟩

theorem seenModelFrom_streamLines (json : JSON) (d : List Byte) (data : List Byte) :
    seenModelFrom json d ((ReadBytes 0x0A data).1 ++ [(ReadBytes 0x0A data).2])
      = seenModelFrom json d (streamLines data) := by
  unfold streamLines seenModelFrom
  by_cases h : (ReadBytes 0x0A data).2 = []
  · rw [if_pos h, h, List.append_nil,
      takeWhile_filterMap_append_nil _ _ (by simp [isSentinelLine_nil]) (frameModel_nil json)]
  · rw [if_neg h]

theorem seenUsageFrom_streamLines (json : JSON) (d : Option Usage) (data : List Byte) :
    seenUsageFrom json d ((ReadBytes 0x0A data).1 ++ [(ReadBytes 0x0A data).2])
      = seenUsageFrom json d (streamLines data) := by
  unfold streamLines seenUsageFrom
  by_cases h : (ReadBytes 0x0A data).2 = []
  · rw [if_pos h, h, List.append_nil,
      takeWhile_filterMap_append_nil _ _ (by simp [isSentinelLine_nil])
        (by simp [frameUsage_nil])]
  · rw [if_neg h]

set_option maxRecDepth 100000 in
/-- C3, as stated, fails: the stream has a frame with the model m1, a frame with
the model m2 and a sentinel line, and the second write to the client fails;
`StreamSSE` returns the model m1, while the last model before the sentinel line
is m2. -/
theorem StreamSSE_returns_model_before_failed_write :
    (StreamSSE twoModelJSON (newResponseWriter true secondWriteFails)
        { chunks := [twoModelStream], err := GoError.EOF }).st.model = str "m1"
    ∧ lastSeenModel twoModelJSON (streamLines twoModelStream) = str "m2"
    ∧ (StreamSSE twoModelJSON (newResponseWriter true secondWriteFails)
        { chunks := [twoModelStream], err := GoError.EOF }).err = some (GoError.other 7) := by
  decide

/-- C3, amended: with JSON decoding taken as given and a client whose writes all
succeed, `StreamSSE` returns as model the model of the last line before the first
sentinel line that is a data frame whose payload starts with an opening brace,
decodes and has a non-empty model (the empty string if there is none), and as
usage the usage of the last such decodable frame whose usage is present (none if
there is none); a line that is not a data frame, a frame that fails to decode,
and a decodable frame with an empty model or without usage leave the
corresponding value as it was and do not stop the relay. -/
theorem StreamSSE_returns_last_seen (json : JSON) (w : ResponseWriter) (upstream : Reader)
    (hw : ∀ k, w.writeErr k = none) :
    (StreamSSE json w upstream).st.model
        = lastSeenModel json (streamLines upstream.chunks.flatten)
    ∧ (StreamSSE json w upstream).st.usage
        = lastSeenUsage json (streamLines upstream.chunks.flatten)
    ∧ (∀ (st : SSEState) (line : List Byte), st.w.writeErr st.w.body.length = none →
        isSentinelLine line = false →
        ∃ st1, StreamSSE.lineBlock json st line = .next st1
          ∧ (frameModel json line = none → st1.model = st.model)
          ∧ (frameUsage json line = none → st1.usage = st.usage))
    ∧ (∀ line, dataPayload line = none →
        frameModel json line = none ∧ frameUsage json line = none)
    ∧ (∀ line payload, dataPayload line = some payload → json.chunk payload = none →
        frameModel json line = none ∧ frameUsage json line = none)
    ∧ (∀ line ch, decodedFrame json line = some ch →
        (ch.Model = [] → frameModel json line = none)
        ∧ (ch.Usage = none → frameUsage json line = none)) := by
  refine ⟨?_, ?_, ?_, ?_, ?_, ?_⟩
  · obtain ⟨new, hrun, hpre, hstop⟩ := relay_run json (ReadBytes 0x0A upstream.chunks.flatten).2
      upstream.err (ReadBytes 0x0A upstream.chunks.flatten).1
      { w := w, model := [], usage := none, reads := [] }
    obtain ⟨_, _, _, _, _, _, h7⟩ := hrun
    have hstop' := hstop.resolve_left
    rw [lastSeenModel_eq, ← seenModelFrom_streamLines]
    show (StreamSSE.loop json _ _ _ _).st.model = _
    rcases h7 with ⟨e, _, _, hwe, _⟩ | ⟨_, hm, _, _⟩
    · rw [hw] at hwe; exact absurd hwe (by simp)
    · rw [hm]
      unfold seenModelFrom
      rw [read_lines_before_sentinel _ _ _ new hpre]
      rcases hstop with h | h | h
      · exact Or.inl h
      · exact absurd (hw _) h
      · exact Or.inr h
  · obtain ⟨new, hrun, hpre, hstop⟩ := relay_run json (ReadBytes 0x0A upstream.chunks.flatten).2
      upstream.err (ReadBytes 0x0A upstream.chunks.flatten).1
      { w := w, model := [], usage := none, reads := [] }
    obtain ⟨_, _, _, _, _, _, h7⟩ := hrun
    rw [lastSeenUsage_eq, ← seenUsageFrom_streamLines]
    show (StreamSSE.loop json _ _ _ _).st.usage = _
    rcases h7 with ⟨e, _, _, hwe, _⟩ | ⟨_, _, hu, _⟩
    · rw [hw] at hwe; exact absurd hwe (by simp)
    · rw [hu]
      unfold seenUsageFrom
      rw [read_lines_before_sentinel _ _ _ new hpre]
      rcases hstop with h | h | h
      · exact Or.inl h
      · exact absurd (hw _) h
      · exact Or.inr h
  · intro st line hwl hs
    by_cases hl : line = []
    · subst hl
      exact ⟨st, lineBlock_nil json st, fun _ => rfl, fun _ => rfl⟩
    · refine ⟨(st.wrote line).saw json line, lineBlock_next json st line hl hwl hs, ?_, ?_⟩
      · intro h; rw [saw_model, h]; rfl
      · intro h; rw [saw_usage, h]; rfl
  · intro line h
    simp [frameModel, frameUsage, decodedFrame, h]
  · intro line payload h hj
    simp [frameModel, frameUsage, decodedFrame, h, hj]
  · intro line ch h
    simp [frameModel, frameUsage, h]

set_option maxRecDepth 100000 in
theorem StreamSSE_returns_last_seen_witness :
    (∀ k, (newResponseWriter true (fun _ => none)).writeErr k = none)
    ∧ (StreamSSE testJSON (newResponseWriter true (fun _ => none))
        { chunks := [testStream], err := GoError.EOF }).st.model = str "gpt-4"
    ∧ (StreamSSE testJSON (newResponseWriter true (fun _ => none))
        { chunks := [testStream], err := GoError.EOF }).st.usage
        = some { PromptTokens := 5, CompletionTokens := 7, TotalTokens := 12 } :=
  ⟨fun _ => rfl, by
    rw [(StreamSSE_returns_last_seen testJSON (newResponseWriter true (fun _ => none))
      { chunks := [testStream], err := GoError.EOF } (fun _ => rfl)).1]
    decide, by decide⟩


set_option maxRecDepth 100000 in
/-- C2, as stated, fails: on the three frames of the mock upstream, which end in
`data: [DONE]` followed by a blank line, and with a client whose writes all succeed,
`StreamSSE` returns without an error after writing everything but the final
newline: what the client receives is not the upstream body. -/
theorem StreamSSE_drops_bytes_after_sentinel :
    (StreamSSE mockJSON (newResponseWriter true (fun _ => none))
        { chunks := [mockStream], err := GoError.EOF }).st.w.body.flatten ++ [0x0A] = mockStream
    ∧ (StreamSSE mockJSON (newResponseWriter true (fun _ => none))
        { chunks := [mockStream], err := GoError.EOF }).st.w.body.flatten ≠ mockStream
    ∧ (StreamSSE mockJSON (newResponseWriter true (fun _ => none))
        { chunks := [mockStream], err := GoError.EOF }).err = none
    ∧ (StreamSSE rejectJSON (newResponseWriter true (fun _ => none))
        { chunks := [str "data: [DONE]\n\n"], err := GoError.EOF }).st.w.body
        = [str "data: [DONE]\n"] := by
  refine ⟨by decide, by decide, by decide, by decide⟩


/-- C4, as stated, fails: the upstream delivers `data: [DONE]` without a newline
and then fails with an error other than end-of-stream; the read has failed
before `StreamSSE` returns at the sentinel line, no write has failed, and the
error returned is nil. -/
theorem StreamSSE_nil_error_after_failed_read :
    ¬ ((StreamSSE rejectJSON (newResponseWriter true (fun _ => none))
          { chunks := [str "data: [DONE]"], err := GoError.other 1 }).err ≠ none
        ↔ (writeFailed (newResponseWriter true (fun _ => none))
            (StreamSSE rejectJSON (newResponseWriter true (fun _ => none))
              { chunks := [str "data: [DONE]"], err := GoError.other 1 })
          ∨ readFailed (StreamSSE rejectJSON (newResponseWriter true (fun _ => none))
              { chunks := [str "data: [DONE]"], err := GoError.other 1 }))) := by
  intro h
  have herr : (StreamSSE rejectJSON (newResponseWriter true (fun _ => none))
      { chunks := [str "data: [DONE]"], err := GoError.other 1 }).err = none := by decide
  have hread : readFailed (StreamSSE rejectJSON (newResponseWriter true (fun _ => none))
      { chunks := [str "data: [DONE]"], err := GoError.other 1 }) :=
    ⟨str "data: [DONE]", GoError.other 1, by decide, by decide⟩
  exact (h.mpr (Or.inr hread)) herr

/-- C4, amended: `StreamSSE` returns a non-nil error if and only if a write to
the client fails, or the upstream read fails with an error other than
end-of-stream and the line returned by that read is not a sentinel line; the
error returned is that failure, the failed write is the last write attempted,
and the model and usage seen on the lines handled before the failure are still
returned. When the stream ends with end-of-stream and no write fails, the error
is nil. -/
theorem StreamSSE_error_characterised (json : JSON) (w : ResponseWriter) (upstream : Reader) :
    ((StreamSSE json w upstream).err ≠ none
      ↔ (writeFailed w (StreamSSE json w upstream)
        ∨ ∃ line err, (line, some err) ∈ (StreamSSE json w upstream).st.reads
            ∧ err ≠ GoError.EOF ∧ isSentinelLine line = false))
    ∧ (∀ k e, w.body.length ≤ k → k < (StreamSSE json w upstream).st.w.body.length →
        w.writeErr k = some e →
        (StreamSSE json w upstream).err = some e
        ∧ k + 1 = (StreamSSE json w upstream).st.w.body.length)
    ∧ (¬ writeFailed w (StreamSSE json w upstream) →
        ∀ e, (StreamSSE json w upstream).err = some e →
          e = upstream.err ∧ e ≠ GoError.EOF
          ∧ ∃ line, (line, some e) ∈ (StreamSSE json w upstream).st.reads)
    ∧ (writeFailed w (StreamSSE json w upstream) →
        (StreamSSE json w upstream).st.model
            = lastSeenModel json (((StreamSSE json w upstream).st.reads.map Prod.fst).dropLast)
        ∧ (StreamSSE json w upstream).st.usage
            = lastSeenUsage json (((StreamSSE json w upstream).st.reads.map Prod.fst).dropLast))
    ∧ (¬ writeFailed w (StreamSSE json w upstream) →
        (StreamSSE json w upstream).st.model
            = lastSeenModel json ((StreamSSE json w upstream).st.reads.map Prod.fst)
        ∧ (StreamSSE json w upstream).st.usage
            = lastSeenUsage json ((StreamSSE json w upstream).st.reads.map Prod.fst))
    ∧ (upstream.err = GoError.EOF → ¬ writeFailed w (StreamSSE json w upstream) →
        (StreamSSE json w upstream).err = none) := by
  obtain ⟨new, hrun, -, -⟩ := relay_run json (ReadBytes 0x0A upstream.chunks.flatten).2
    upstream.err (ReadBytes 0x0A upstream.chunks.flatten).1
    { w := w, model := [], usage := none, reads := [] }
  have hdef : StreamSSE json w upstream = StreamSSE.loop json
      { w := w, model := [], usage := none, reads := [] }
      (ReadBytes 0x0A upstream.chunks.flatten).1 (ReadBytes 0x0A upstream.chunks.flatten).2
      upstream.err := rfl
  rw [← hdef] at hrun
  generalize StreamSSE json w upstream = r at hrun ⊢
  obtain ⟨h1, h2, h3, h4, h5, h6, h7⟩ := hrun
  simp only [List.nil_append] at h1
  have h6' : ∀ j, w.body.length ≤ j → j + 1 < r.st.w.body.length → w.writeErr j = none := h6
  rw [lastSeenModel_eq, lastSeenModel_eq, lastSeenUsage_eq, lastSeenUsage_eq, h1,
    ← List.map_dropLast]
  rcases h7 with ⟨e, he, hlt, hwe, hm, hu⟩ | ⟨hall, hm, hu, hcase⟩
  · -- the last write failed
    have hwf : writeFailed w r := ⟨r.st.w.body.length - 1, by
      have : w.body.length < r.st.w.body.length := hlt
      omega, by
      have : w.body.length < r.st.w.body.length := hlt
      omega, by
      have : w.writeErr (r.st.w.body.length - 1) = some e := hwe
      rw [this]; simp⟩
    refine ⟨⟨fun _ => Or.inl hwf, fun _ => by rw [he]; simp⟩, ?_, fun h => absurd hwf h,
      fun _ => ⟨hm, hu⟩, fun h => absurd hwf h, fun _ h => absurd hwf h⟩
    intro k e' hk1 hk2 hk3
    have hk : k = r.st.w.body.length - 1 := by
      by_contra hne
      have := h6' k hk1 (by omega)
      rw [this] at hk3; exact absurd hk3 (by simp)
    have hwe' : w.writeErr (r.st.w.body.length - 1) = some e := hwe
    rw [hk, hwe'] at hk3
    refine ⟨by rw [he, ← Option.some.inj hk3], by omega⟩
  · -- every write succeeded
    have hall' : ∀ j, w.body.length ≤ j → j < r.st.w.body.length → w.writeErr j = none := hall
    have hnwf : ¬ writeFailed w r := by
      rintro ⟨k, hk1, hk2, hk3⟩
      exact hk3 (hall' k hk1 hk2)
    refine ⟨?_, ?_, ?_, fun h => absurd h hnwf, fun _ => ⟨hm, hu⟩, ?_⟩
    · rcases hcase with ⟨hnone, hall2⟩ | ⟨l, e, he, hne, hmem, hsl⟩
      · constructor
        · intro h; exact absurd hnone h
        · rintro (h | ⟨l, e, hmem, hne, hsl⟩)
          · exact absurd h hnwf
          · rcases hall2 l e hmem with h | h
            · exact absurd h hne
            · rw [h] at hsl; exact absurd hsl (by simp)
      · constructor
        · intro _; exact Or.inr ⟨l, e, hmem, hne, hsl⟩
        · intro _; rw [he]; simp
    · intro k e' hk1 hk2 hk3
      rw [hall' k hk1 hk2] at hk3; exact absurd hk3 (by simp)
    · intro _ e' he'
      rcases hcase with ⟨hnone, _⟩ | ⟨l, e, he, hne, hmem, hsl⟩
      · rw [hnone] at he'; exact absurd he' (by simp)
      · rw [he] at he'
        have hee : e = e' := Option.some.inj he'
        subst hee
        exact ⟨h5 l e hmem, hne, l, hmem⟩
    · intro hE _
      rcases hcase with ⟨hnone, _⟩ | ⟨l, e, he, hne, hmem, hsl⟩
      · exact hnone
      · rw [h5 l e hmem] at hne; exact absurd hE hne


/-! ### The request handler -/

/-- C5: with the upstream outcome taken as an input, every execution of
`handleChatCompletions` calls `enqueue` exactly once when it reached the upstream
call (whatever the upstream did, and whether or not the relay or the copy
returned an error) and not at all otherwise; the upstream call is reached exactly
when the method is POST, the request carries a bearer token, the body was read
and the upstream request was built. -/
theorem handler_enqueues_once_per_upstream_call (s : Server) (env : Env) (w : ResponseWriter)
    (r : Request) :
    (s.handleChatCompletions env w r).enqueued.length
        = (s.handleChatCompletions env w r).upstream.length
    ∧ (s.handleChatCompletions env w r).upstream.length ≤ 1
    ∧ ((s.handleChatCompletions env w r).upstream.length = 1
        ↔ (r.Method = str "POST"
          ∧ BearerToken (r.Header.Get (str "Authorization")) ≠ []
          ∧ ∃ reqBody, readAllLimited (8 * 2 ^ 20) r.Body = .ok reqBody
            ∧ env.newRequestErr (s.upstreamRequest r reqBody).URL = none))
    ∧ (s.handleChatCompletions env w r).s
        = (s.handleChatCompletions env w r).enqueued.foldl Server.enqueue s := by
  unfold Server.handleChatCompletions
  by_cases hm : r.Method = str "POST"
  · simp only [hm, ne_eq, not_true_eq_false, if_false]
    by_cases hk : BearerToken (r.Header.Get (str "Authorization")) = []
    · simp [hk]
    · simp only [hk, if_false]
      cases hb : readAllLimited (8 * 2 ^ 20) r.Body with
      | error e => simp
      | ok reqBody =>
        simp only
        cases hn : env.newRequestErr (s.upstreamRequest r reqBody).URL with
        | some e => simp [hn]
        | none =>
          simp only
          split
          · simp [hn]
          · split <;> simp [Server.relayStreamed, Server.relayBuffered, hn]
  · simp [hm]


theorem TrimSpace_nil : TrimSpace [] = [] := by decide

theorem TrimSpace_unknown : TrimSpace (str "unknown") ≠ [] := by decide

theorem httpError_status (flusher : Bool) (writeErr : Nat → Option GoError) (msg : List Byte)
    (code : Int) : (httpError (newResponseWriter flusher writeErr) msg code).status = some code :=
  rfl

/-- The upstream call that the handler records is the request it built from the
body it read, whatever the upstream answered. -/
theorem upstream_call_eq (s : Server) (env : Env) (w : ResponseWriter) (r : Request)
    (q : UpstreamRequest) (hq : (s.handleChatCompletions env w r).upstream = [q]) :
    ∃ reqBody, readAllLimited (8 * 2 ^ 20) r.Body = .ok reqBody
      ∧ env.newRequestErr (s.upstreamRequest r reqBody).URL = none
      ∧ q = s.upstreamRequest r reqBody := by
  unfold Server.handleChatCompletions at hq
  by_cases hm : r.Method = str "POST"
  · simp only [hm, ne_eq, not_true_eq_false, if_false] at hq
    by_cases hk : BearerToken (r.Header.Get (str "Authorization")) = []
    · simp [hk] at hq
    · simp only [hk, if_false] at hq
      cases hb : readAllLimited (8 * 2 ^ 20) r.Body with
      | error e1 => rw [hb] at hq; simp at hq
      | ok reqBody =>
        rw [hb] at hq
        simp only at hq
        cases hn : env.newRequestErr (s.upstreamRequest r reqBody).URL with
        | some e1 => rw [hn] at hq; simp at hq
        | none =>
          rw [hn] at hq
          simp only at hq
          refine ⟨reqBody, rfl, hn, ?_⟩
          split at hq
          · exact (List.cons.inj hq).1.symm
          · split at hq <;> exact (List.cons.inj hq).1.symm
  · simp [hm] at hq

theorem upstreamRequest_Body (s : Server) (r : Request) (reqBody : List Byte) :
    (s.upstreamRequest r reqBody).Body = reqBody := rfl

set_option maxRecDepth 100000 in
/-- C6, as stated, fails: the request body has the model gpt-4 and a `stream`
field of the wrong type, so that decoding it returns an error; the upstream call
fails, and the event has the model gpt-4, not "unknown". -/
theorem mistyped_request_keeps_its_model :
    (mistypedJSON.request mistypedRequestBody).2 ≠ none
    ∧ (scenarioServer.handleChatCompletions (mistypedEnv (.fail (.other 1)))
        (newResponseWriter true (fun _ => none)) mistypedRequest).w.status = some 502
    ∧ (scenarioServer.handleChatCompletions (mistypedEnv (.fail (.other 1)))
        (newResponseWriter true (fun _ => none)) mistypedRequest).enqueued.map
        (fun ev => ev.Model) = [str "gpt-4"]
    ∧ str "gpt-4" ≠ str "unknown" := by
  decide

/-- C6, amended: for a POST request with a bearer token whose upstream call `q`
fails with an error before any response, the handler answers 502 and enqueues
exactly one event, with status code 0, all three token counts 0, and as model
the model that decoding the request body left in the request struct, whatever
error the decoding returned, or "unknown" when that model is blank. -/
theorem upstream_failure_gives_502_and_one_event (s : Server) (env : Env) (flusher : Bool)
    (writeErr : Nat → Option GoError) (r : Request) (q : UpstreamRequest) (e : GoError)
    (hm : r.Method = str "POST")
    (hk : BearerToken (r.Header.Get (str "Authorization")) ≠ [])
    (hq : (s.handleChatCompletions env (newResponseWriter flusher writeErr) r).upstream = [q])
    (hf : env.Do q = .fail e) :
    (s.handleChatCompletions env (newResponseWriter flusher writeErr) r).w.status = some 502
    ∧ ∃ ev, (s.handleChatCompletions env (newResponseWriter flusher writeErr) r).enqueued = [ev]
      ∧ ev.StatusCode = 0
      ∧ ev.PromptTokens = 0 ∧ ev.CompletionTokens = 0 ∧ ev.TotalTokens = 0
      ∧ readAllLimited (8 * 2 ^ 20) r.Body = .ok q.Body
      ∧ (TrimSpace (env.json.request q.Body).1.Model ≠ [] →
          ev.Model = (env.json.request q.Body).1.Model)
      ∧ (TrimSpace (env.json.request q.Body).1.Model = [] → ev.Model = str "unknown") := by
  obtain ⟨reqBody, hb, hn, hqe⟩ := upstream_call_eq s env _ r q hq
  rw [hqe] at hf
  rw [hqe, upstreamRequest_Body]
  unfold Server.handleChatCompletions
  simp only [hm, ne_eq, not_true_eq_false, if_false, hk, hb, hn, hf]
  refine ⟨httpError_status _ _ _ _, _, rfl, rfl, rfl, rfl, rfl, trivial, ?_, ?_⟩
  · intro ht
    simp [newEvent, decodeRequest, FirstNonEmpty, ht]
  · intro ht
    simp [newEvent, decodeRequest, FirstNonEmpty, ht, TrimSpace_unknown]

/-- C7: a POST request whose `Authorization` header yields no bearer token is
answered 401, with no upstream call and no metering event; the header yields no
token when it is absent or blank, when it has no space after its first word
(so no token after the scheme), and when its first word is not `Bearer` up to
letter case, as in `Basic xyz`. -/
theorem missing_bearer_token_gives_401 (s : Server) (env : Env) (flusher : Bool)
    (writeErr : Nat → Option GoError) (r : Request)
    (hm : r.Method = str "POST")
    (hk : BearerToken (r.Header.Get (str "Authorization")) = []) :
    (s.handleChatCompletions env (newResponseWriter flusher writeErr) r).w.status = some 401
    ∧ (s.handleChatCompletions env (newResponseWriter flusher writeErr) r).upstream = []
    ∧ (s.handleChatCompletions env (newResponseWriter flusher writeErr) r).enqueued = []
    ∧ (s.handleChatCompletions env (newResponseWriter flusher writeErr) r).s = s
    ∧ Header.Get [] (str "Authorization") = []
    ∧ (∀ auth, TrimSpace auth = [] → BearerToken auth = [])
    ∧ (∀ auth, 0x20 ∉ TrimSpace auth → BearerToken auth = [])
    ∧ (∀ auth, EqualFold ((TrimSpace auth).takeWhile (fun b => b != 0x20)) (str "Bearer") = false →
        BearerToken auth = [])
    ∧ BearerToken (str "Basic xyz") = []
    ∧ BearerToken (str "Bearer") = []
    ∧ BearerToken (str "Bearer ") = []
    ∧ BearerToken (str "   ") = [] := by
  have hspan : ∀ (l : List Byte), (l.span (fun b => b != 0x20)).1 = l.takeWhile (fun b => b != 0x20)
      ∧ (l.span (fun b => b != 0x20)).2 = l.dropWhile (fun b => b != 0x20) := by
    intro l
    rw [List.span_eq_take_drop]
    exact ⟨rfl, rfl⟩
  refine ⟨?_, ?_, ?_, ?_, by decide, ?_, ?_, ?_, by decide, by decide, by decide, by decide⟩
  · unfold Server.handleChatCompletions
    simp only [hm, ne_eq, not_true_eq_false, if_false, hk, if_true]
    exact httpError_status _ _ _ _
  · unfold Server.handleChatCompletions
    simp only [hm, ne_eq, not_true_eq_false, if_false, hk, if_true]
  · unfold Server.handleChatCompletions
    simp only [hm, ne_eq, not_true_eq_false, if_false, hk, if_true]
  · unfold Server.handleChatCompletions
    simp only [hm, ne_eq, not_true_eq_false, if_false, hk, if_true]
  · intro auth h
    simp [BearerToken, h]
  · intro auth h
    unfold BearerToken
    simp only
    split_ifs with h1 h2 h3
    · rfl
    · rfl
    · rfl
    · exfalso
      apply h2
      unfold SplitN2
      have hd : (TrimSpace auth).dropWhile (fun b => b != 0x20) = [] := by
        rw [List.dropWhile_eq_nil_iff]
        intro x hx
        have : x ≠ 0x20 := fun hxe => h (hxe ▸ hx)
        simpa using this
      have h2' := (hspan (TrimSpace auth)).2
      rw [hd] at h2'
      split
      · simp
      · rename_i a c b heq
        rw [heq] at h2'
        simp at h2'
  · intro auth h
    unfold BearerToken
    simp only
    split_ifs with h1 h2 h3
    · rfl
    · rfl
    · rfl
    · exfalso
      have hp : (SplitN2 (TrimSpace auth) 0x20).getD 0 []
          = (TrimSpace auth).takeWhile (fun b => b != 0x20) := by
        unfold SplitN2
        have h1' := (hspan (TrimSpace auth)).1
        split
        · rename_i a heq
          rw [heq] at h1'
          simpa using h1'
        · rename_i a c b heq
          rw [heq] at h1'
          simpa using h1'
      rw [hp, h] at h3
      simp at h3


theorem FirstNonEmpty_eq_find (vals : List (List Byte)) :
    FirstNonEmpty vals = (vals.find? (fun v => decide (TrimSpace v ≠ []))).getD [] := by
  induction vals with
  | nil => rfl
  | cons v vs ih =>
    unfold FirstNonEmpty
    rw [List.find?_cons]
    by_cases h : TrimSpace v ≠ []
    · simp [h]
    · rw [if_neg h, ih]
      simp [h]

theorem NewLimitedCapture_limit (L : Int) :
    0 ≤ (NewLimitedCapture L).limit ∧ (NewLimitedCapture L).limit.toNat = L.toNat
    ∧ (NewLimitedCapture L).buf = [] := by
  unfold NewLimitedCapture
  split_ifs with h
  · refine ⟨le_refl _, ?_, rfl⟩
    simp only
    omega
  · exact ⟨by simp only; omega, rfl, rfl⟩

/-- What the capture sink holds after the copy: the first bytes, up to the limit,
of the chunks that were read; all of the chunks when no write to the client
fails. -/
theorem copyTee_capture (chunks : List (List Byte)) (err : GoError) :
    ∀ (w : ResponseWriter) (cap : limitedCapture), 0 ≤ cap.limit →
      (cap.buf.length : Int) ≤ cap.limit →
      ∃ n, n ≤ chunks.length
        ∧ (copyTee w cap chunks err).2.1.buf
            = (cap.buf ++ (chunks.take n).flatten).take cap.limit.toNat
        ∧ ((∀ k, w.writeErr k = none) → n = chunks.length) := by
  induction chunks with
  | nil =>
    intro w cap h0 hb
    refine ⟨0, le_refl _, ?_, fun _ => rfl⟩
    simp only [copyTee, List.take_nil, List.flatten_nil, List.append_nil]
    rw [List.take_of_length_le]; omega
  | cons chunk chunks ih =>
    intro w cap h0 hb
    unfold copyTee
    by_cases hl : chunk.length > 0
    · simp only [hl, if_true]
      have hlim := limitedCapture.Write_limit cap chunk
      have hbuf := limitedCapture.Write_buf cap chunk h0 hb
      cases hwe : (w.Write chunk).2 with
      | some werr =>
        simp only
        refine ⟨1, by simp, ?_, ?_⟩
        · rw [hbuf]; simp
        · intro hall
          have : (w.Write chunk).2 = none := hall _
          rw [this] at hwe; exact absurd hwe (by simp)
      | none =>
        simp only
        obtain ⟨n, hn, hcap, hall⟩ := ih
          (if (w.Write chunk).1.flusher then (w.Write chunk).1.Flush else (w.Write chunk).1)
          (cap.Write chunk).1 (by rw [hlim]; exact h0)
          (by rw [hlim, hbuf, List.length_take]; omega)
        refine ⟨n + 1, by simp; omega, ?_, ?_⟩
        · rw [hcap, hlim, hbuf, List.take_succ_cons, List.flatten_cons, ← List.append_assoc,
            take_take_append]
        · intro hw
          rw [hall ?_]; simp
          intro k
          have : (if (w.Write chunk).1.flusher then (w.Write chunk).1.Flush
              else (w.Write chunk).1).writeErr = w.writeErr := by
            split_ifs <;> rfl
          rw [this]; exact hw k
    · simp only [hl, if_false]
      obtain ⟨n, hn, hcap, hall⟩ := ih w cap h0 hb
      have hnil : chunk = [] := List.length_eq_zero.mp (by omega)
      refine ⟨n + 1, by simp; omega, ?_, fun hw => by rw [hall hw]; simp⟩
      rw [hcap, List.take_succ_cons, List.flatten_cons, hnil, List.nil_append]


theorem setUsage_fields (ev : MeteringEvent) (u : Option Usage) :
    (ev.setUsage u).StatusCode = ev.StatusCode ∧ (ev.setUsage u).Model = ev.Model
    ∧ (∀ v, u = some v → (ev.setUsage u).PromptTokens = v.PromptTokens
        ∧ (ev.setUsage u).CompletionTokens = v.CompletionTokens
        ∧ (ev.setUsage u).TotalTokens = v.TotalTokens)
    ∧ (u = none → ev.setUsage u = ev) := by
  cases u with
  | none => exact ⟨rfl, rfl, fun v h => absurd h (by simp), fun _ => rfl⟩
  | some v =>
    refine ⟨rfl, rfl, ?_, fun h => absurd h (by simp)⟩
    intro v' h
    cases h
    exact ⟨rfl, rfl, rfl⟩

theorem WriteHeader_fields (w : ResponseWriter) (code : Int) :
    (w.WriteHeader code).writeErr = w.writeErr ∧ (w.WriteHeader code).body = w.body := by
  unfold ResponseWriter.WriteHeader
  cases w.status <;> exact ⟨rfl, rfl⟩

set_option maxRecDepth 100000 in
theorem upstream_failure_gives_502_and_one_event_witness :
    (scenarioRequest (str "Bearer abc")).Method = str "POST"
    ∧ (scenarioServer.handleChatCompletions (scenarioEnv (.fail (.other 1)))
        (newResponseWriter true (fun _ => none)) (scenarioRequest (str "Bearer abc"))).w.status
        = some 502 :=
  ⟨rfl, (upstream_failure_gives_502_and_one_event scenarioServer (scenarioEnv (.fail (.other 1)))
    true (fun _ => none) (scenarioRequest (str "Bearer abc"))
    (scenarioServer.upstreamRequest (scenarioRequest (str "Bearer abc")) scenarioRequestBody)
    (.other 1) rfl (by decide) (by decide) rfl).1⟩

set_option maxRecDepth 100000 in
theorem missing_bearer_token_gives_401_witness :
    BearerToken ((scenarioRequest (str "Basic xyz")).Header.Get (str "Authorization")) = []
    ∧ (scenarioServer.handleChatCompletions (scenarioEnv (.fail (.other 1)))
        (newResponseWriter true (fun _ => none)) (scenarioRequest (str "Basic xyz"))).enqueued
        = [] :=
  ⟨by decide, (missing_bearer_token_gives_401 scenarioServer (scenarioEnv (.fail (.other 1)))
    true (fun _ => none) (scenarioRequest (str "Basic xyz")) rfl (by decide)).2.2.1⟩


set_option maxRecDepth 100000 in
/-- C10, as stated, fails, in two ways. The upstream answers with a body that has
the model gpt-4 and a usage whose prompt count is of the wrong type, so that
decoding the captured body returns an error: the event has the counts 0, 3 and
10 of the fields that decoded, not 0, 0 and 0. And with a capture limit of 0 the
response body of the scenario, with status 200, gives an event with the counts
0, 0 and 0, not 7, 3 and 10. -/
theorem observed_usage_differs_from_claim :
    (mistypedJSON.response mistypedResponseBody).2 ≠ none
    ∧ (scenarioServer.handleChatCompletions
        (mistypedEnv (.response 200 [] { chunks := [mistypedResponseBody], err := GoError.EOF }))
        (newResponseWriter true (fun _ => none)) (scenarioRequest (str "Bearer abc"))).enqueued.map
        (fun ev => (ev.Model, ev.PromptTokens, ev.CompletionTokens, ev.TotalTokens))
      = [(str "gpt-4", 0, 3, 10)]
    ∧ (({ cfg := { scenarioConfig with MeteringCaptureBytes := 0 }, events := [], dropped := 0 }
        : Server).handleChatCompletions
        (scenarioEnv (.response 200 [] { chunks := [scenarioResponseBody], err := GoError.EOF }))
        (newResponseWriter true (fun _ => none)) (scenarioRequest (str "Bearer abc"))).enqueued.map
        (fun ev => (ev.StatusCode, ev.PromptTokens, ev.CompletionTokens, ev.TotalTokens))
      = [(200, 0, 0, 0)] := by
  decide

/-- C10, amended: for a request that the upstream answered, the one event enqueued
has the status code of the upstream, as model the first non-blank of the model
observed in the response, the model that decoding left in the request struct and
"unknown", and as token counts those of the observed usage, or 0 when there is
none. On the streaming path the observed model and usage are those that the
relay returns; on the buffered path they are those that decoding the captured
bytes left in the response struct, whatever error the decoding returned, and
nothing when the capture is empty, the capture being the first bytes of the
body, at most the capture limit, and all of them up to that limit when the
writes to the client succeed. For the response body of the scenario with status
200, on the buffered path with a capture limit of at least its length and a
client whose writes succeed, the event has model gpt-4 and the counts 7, 3 and
10. -/
theorem answered_request_event (s : Server) (env : Env) (flusher : Bool)
    (writeErr : Nat → Option GoError) (r : Request) (q : UpstreamRequest)
    (StatusCode : Int) (upHeader : Header) (upBody : Reader)
    (hm : r.Method = str "POST")
    (hk : BearerToken (r.Header.Get (str "Authorization")) ≠ [])
    (hq : (s.handleChatCompletions env (newResponseWriter flusher writeErr) r).upstream = [q])
    (hd : env.Do q = .response StatusCode upHeader upBody) :
    ∃ ev observedModel observedUsage,
      (s.handleChatCompletions env (newResponseWriter flusher writeErr) r).enqueued = [ev]
      ∧ ev.StatusCode = StatusCode
      ∧ ev.Model = (([observedModel, (decodeRequest env.json q.Body).Model, str "unknown"].find?
          (fun v => decide (TrimSpace v ≠ []))).getD [])
      ∧ TrimSpace ev.Model ≠ []
      ∧ (∀ u, observedUsage = some u → ev.PromptTokens = u.PromptTokens
          ∧ ev.CompletionTokens = u.CompletionTokens ∧ ev.TotalTokens = u.TotalTokens)
      ∧ (observedUsage = none →
          ev.PromptTokens = 0 ∧ ev.CompletionTokens = 0 ∧ ev.TotalTokens = 0)
      ∧ ((decodeRequest env.json q.Body).Stream = true →
          ∃ w1, w1.writeErr = writeErr ∧ w1.body = []
            ∧ observedModel = (StreamSSE env.json w1 upBody).st.model
            ∧ observedUsage = (StreamSSE env.json w1 upBody).st.usage)
      ∧ ((decodeRequest env.json q.Body).Stream = false →
          ∃ captured, captured <+: upBody.chunks.flatten
            ∧ captured.length ≤ s.cfg.MeteringCaptureBytes.toNat
            ∧ ((∀ k, writeErr k = none) →
                captured = upBody.chunks.flatten.take s.cfg.MeteringCaptureBytes.toNat)
            ∧ (captured = [] → observedModel = [] ∧ observedUsage = none)
            ∧ (captured ≠ [] → observedModel = (env.json.response captured).1.Model
                ∧ observedUsage = (env.json.response captured).1.Usage))
      ∧ ((decodeRequest env.json q.Body).Stream = false →
          upBody.chunks.flatten = scenarioResponseBody →
          (env.json.response scenarioResponseBody).1 = scenarioResponse →
          (scenarioResponseBody.length : Int) ≤ s.cfg.MeteringCaptureBytes →
          (∀ k, writeErr k = none) → StatusCode = 200 →
          ev.Model = str "gpt-4" ∧ ev.PromptTokens = 7 ∧ ev.CompletionTokens = 3
          ∧ ev.TotalTokens = 10 ∧ ev.StatusCode = 200) := by
  obtain ⟨reqBody, hb, hn, hqe⟩ := upstream_call_eq s env _ r q hq
  rw [hqe] at hd
  rw [hqe, upstreamRequest_Body]
  unfold Server.handleChatCompletions
  simp only [hm, ne_eq, not_true_eq_false, if_false, hk, hb, hn, hd]
  have hunk : ∀ a b : List Byte, TrimSpace (FirstNonEmpty [a, b, str "unknown"]) ≠ [] := by
    intro a b
    unfold FirstNonEmpty
    split_ifs with h1
    · exact h1
    · unfold FirstNonEmpty
      split_ifs with h2
      · exact h2
      · unfold FirstNonEmpty
        rw [if_pos TrimSpace_unknown]
        exact TrimSpace_unknown
  have hw1 := WriteHeader_fields
    { newResponseWriter flusher writeErr with
      header := Header.Set (copyHeaders upHeader (newResponseWriter flusher writeErr).header)
        (str "X-LLM-Request-ID") env.requestID } StatusCode
  generalize ResponseWriter.WriteHeader
    { newResponseWriter flusher writeErr with
      header := Header.Set (copyHeaders upHeader (newResponseWriter flusher writeErr).header)
        (str "X-LLM-Request-ID") env.requestID } StatusCode = w1 at hw1 ⊢
  obtain ⟨hw1e, hw1b⟩ := hw1
  have hw1e : w1.writeErr = writeErr := hw1e
  have hw1b : w1.body = [] := hw1b
  generalize FirstNonEmpty
    [r.Header.Get (str "X-LLM-Tenant"), r.Header.Get (str "X-Tenant"), str "default"] = tenant
  generalize BearerToken (r.Header.Get (str "Authorization")) = appKey
  by_cases hs : (decodeRequest env.json reqBody).Stream = true
  · simp only [hs, if_true, Server.relayStreamed]
    refine ⟨_, (StreamSSE env.json w1 upBody).st.model, (StreamSSE env.json w1 upBody).st.usage,
      rfl, (setUsage_fields _ _).1, ?_, ?_, (setUsage_fields _ _).2.2.1, ?_, ?_, ?_, ?_⟩
    · rw [(setUsage_fields _ _).2.1]
      exact FirstNonEmpty_eq_find _
    · rw [(setUsage_fields _ _).2.1]
      exact hunk _ _
    · intro h
      rw [(setUsage_fields _ _).2.2.2 h]
      exact ⟨rfl, rfl, rfl⟩
    · intro _
      exact ⟨w1, hw1e, hw1b, rfl, rfl⟩
    · intro h; exact absurd h (by simp)
    · intro h; exact absurd h (by simp)
  · have hs' : (decodeRequest env.json reqBody).Stream = false := by simpa using hs
    simp only [hs', Bool.false_eq_true, if_false, Server.relayBuffered]
    obtain ⟨hl0, hlt, hlb⟩ := NewLimitedCapture_limit s.cfg.MeteringCaptureBytes
    obtain ⟨n, hnle, hcap, hall⟩ := copyTee_capture upBody.chunks upBody.err w1
      (NewLimitedCapture s.cfg.MeteringCaptureBytes) hl0 (by rw [hlb]; simpa using hl0)
    rw [hlb, List.nil_append, hlt] at hcap
    have hcap' : (copyTee w1 (NewLimitedCapture s.cfg.MeteringCaptureBytes) upBody.chunks
        upBody.err).2.1.Bytes
        = ((upBody.chunks.take n).flatten).take s.cfg.MeteringCaptureBytes.toNat := hcap
    have hnn : (∀ k, writeErr k = none) → n = upBody.chunks.length := by
      intro hwr
      exact hall (by intro k; rw [hw1e]; exact hwr k)
    generalize (copyTee w1 (NewLimitedCapture s.cfg.MeteringCaptureBytes) upBody.chunks
        upBody.err).2.1.Bytes = captured at hcap' ⊢
    have hcaptured : (∀ k, writeErr k = none) →
        captured = upBody.chunks.flatten.take s.cfg.MeteringCaptureBytes.toNat := by
      intro hwr
      rw [hcap', hnn hwr, List.take_length]
    refine ⟨_, (decodeResponse env.json captured).Model, (decodeResponse env.json captured).Usage,
      rfl, (setUsage_fields _ _).1, ?_, ?_, (setUsage_fields _ _).2.2.1, ?_, ?_, ?_, ?_⟩
    · rw [(setUsage_fields _ _).2.1]
      exact FirstNonEmpty_eq_find _
    · rw [(setUsage_fields _ _).2.1]
      exact hunk _ _
    · intro h
      rw [(setUsage_fields _ _).2.2.2 h]
      exact ⟨rfl, rfl, rfl⟩
    · intro h; exact absurd h (by simp)
    · intro _
      refine ⟨captured, ?_, ?_, hcaptured, ?_, ?_⟩
      · rw [hcap']
        exact (List.take_prefix _ _).trans
          ⟨(upBody.chunks.drop n).flatten, by
            rw [← List.flatten_append, List.take_append_drop]⟩
      · rw [hcap', List.length_take]
        exact Nat.min_le_left _ _
      · intro h
        simp [decodeResponse, h]
      · intro hne
        have hpos : captured.length > 0 := List.length_pos.mpr hne
        unfold decodeResponse
        rw [if_pos hpos]
        exact ⟨rfl, rfl⟩
    · intro _ hbody hjson hlen hwr hcode
      have hc := hcaptured hwr
      rw [hbody, List.take_of_length_le (by omega)] at hc
      have hpos : scenarioResponseBody.length > 0 := by decide
      have hdec : decodeResponse env.json captured = scenarioResponse := by
        simp only [decodeResponse, hc, hpos, if_true, hjson]
      rw [hdec, hcode]
      refine ⟨?_, rfl, rfl, rfl, rfl⟩
      rw [(setUsage_fields _ _).2.1]
      show FirstNonEmpty _ = _
      unfold FirstNonEmpty
      rw [if_pos (by decide)]
      rfl

set_option maxRecDepth 100000 in
theorem answered_request_event_witness :
    (scenarioRequest (str "Bearer abc")).Method = str "POST"
    ∧ ∃ ev, (scenarioServer.handleChatCompletions
        (scenarioEnv (.response 200 [] { chunks := [scenarioResponseBody], err := GoError.EOF }))
        (newResponseWriter true (fun _ => none)) (scenarioRequest (str "Bearer abc"))).enqueued
          = [ev]
        ∧ ev.Model = str "gpt-4" ∧ ev.PromptTokens = 7 ∧ ev.CompletionTokens = 3
        ∧ ev.TotalTokens = 10 ∧ ev.StatusCode = 200 :=
  ⟨rfl, by
    obtain ⟨ev, _, _, h1, _, _, _, _, _, _, _, h9⟩ := answered_request_event scenarioServer
      (scenarioEnv (.response 200 [] { chunks := [scenarioResponseBody], err := GoError.EOF }))
      true (fun _ => none) (scenarioRequest (str "Bearer abc"))
      (scenarioServer.upstreamRequest (scenarioRequest (str "Bearer abc")) scenarioRequestBody)
      200 [] { chunks := [scenarioResponseBody], err := GoError.EOF }
      rfl (by decide) (by decide) rfl
    exact ⟨ev, h1, h9 (by decide) (by decide) (by decide) (by decide) (fun _ => rfl) rfl⟩⟩


/-! ### The metering queue -/

theorem enqueue_cases (s : Server) (ev : MeteringEvent) :
    (s.events.length < s.capacity ∧ s.enqueue ev = { s with events := s.events ++ [ev] })
    ∨ (s.capacity ≤ s.events.length ∧ s.enqueue ev = { s with dropped := s.dropped + 1 }) := by
  unfold Server.enqueue
  by_cases h : s.events.length < s.capacity
  · exact Or.inl ⟨h, by rw [if_pos h]⟩
  · exact Or.inr ⟨by omega, by rw [if_neg h]⟩

theorem enqueue_all (evs : List MeteringEvent) :
    ∀ s : Server, s.events.length ≤ s.capacity →
      (evs.foldl Server.enqueue s).events = s.events ++ evs.take (s.capacity - s.events.length)
      ∧ (evs.foldl Server.enqueue s).dropped
          = s.dropped + (evs.length - (s.capacity - s.events.length))
      ∧ (evs.foldl Server.enqueue s).cfg = s.cfg := by
  induction evs with
  | nil => intro s _; simp
  | cons ev evs ih =>
    intro s hs
    rw [List.foldl_cons]
    rcases enqueue_cases s ev with ⟨hlt, he⟩ | ⟨hge, he⟩
    · have hcap : (s.enqueue ev).capacity = s.capacity := by rw [he]; rfl
      have hev : (s.enqueue ev).events = s.events ++ [ev] := by rw [he]
      have hdr : (s.enqueue ev).dropped = s.dropped := by rw [he]
      have hcfg : (s.enqueue ev).cfg = s.cfg := by rw [he]
      have hlen : (s.enqueue ev).events.length = s.events.length + 1 := by rw [hev]; simp
      obtain ⟨h1, h2, h3⟩ := ih (s.enqueue ev) (by rw [hcap, hlen]; omega)
      have hk : s.capacity - s.events.length = (s.capacity - (s.events.length + 1)) + 1 := by omega
      refine ⟨?_, ?_, ?_⟩
      · rw [h1, hcap, hlen, hev, hk, List.take_succ_cons, List.append_assoc]
        rfl
      · rw [h2, hcap, hlen, hdr, List.length_cons]
        omega
      · rw [h3, hcfg]
    · have hcap : (s.enqueue ev).capacity = s.capacity := by rw [he]; rfl
      have hev : (s.enqueue ev).events = s.events := by rw [he]
      have hdr : (s.enqueue ev).dropped = s.dropped + 1 := by rw [he]
      have hcfg : (s.enqueue ev).cfg = s.cfg := by rw [he]
      obtain ⟨h1, h2, h3⟩ := ih (s.enqueue ev) (by rw [hcap, hev]; exact hs)
      have hk : s.capacity - s.events.length = 0 := by omega
      refine ⟨?_, ?_, ?_⟩
      · rw [h1, hcap, hev, hk, List.take_zero, List.take_zero]
      · rw [h2, hcap, hev, hdr, hk, List.length_cons]
        omega
      · rw [h3, hcfg]

/-- C8: starting from an empty queue of capacity `C` with no dequeue in between,
enqueueing `N > C` events leaves exactly the first `C` events in the queue, in
arrival order, and increases the dropped counter by exactly `N - C`; every
enqueue is a total step that either stores its event (when there is room) or
counts it (when the queue is full). -/
theorem enqueue_beyond_capacity (s : Server) (evs : List MeteringEvent)
    (hempty : s.events = []) (hN : s.capacity < evs.length) :
    (evs.foldl Server.enqueue s).events = evs.take s.capacity
    ∧ (evs.foldl Server.enqueue s).events.length = s.capacity
    ∧ (evs.foldl Server.enqueue s).dropped = s.dropped + (evs.length - s.capacity)
    ∧ (∀ (t : Server) (ev : MeteringEvent),
        (t.events.length < t.capacity ∧ t.enqueue ev = { t with events := t.events ++ [ev] })
        ∨ (t.capacity ≤ t.events.length ∧ t.enqueue ev = { t with dropped := t.dropped + 1 })) := by
  obtain ⟨h1, h2, _⟩ := enqueue_all evs s (by rw [hempty]; simp)
  rw [hempty] at h1 h2
  simp only [List.length_nil, Nat.sub_zero, List.nil_append] at h1 h2
  refine ⟨h1, ?_, h2, enqueue_cases⟩
  rw [h1, List.length_take]
  omega

theorem enqueue_beyond_capacity_witness :
    ({ cfg := { scenarioConfig with EventQueueSize := 2 }, events := [], dropped := 0 }
        : Server).events = []
    ∧ ((List.replicate 5 (newEvent (scenarioEnv (.fail .EOF)) [] [] [] 0)).foldl Server.enqueue
        { cfg := { scenarioConfig with EventQueueSize := 2 }, events := [], dropped := 0 }).dropped
        = 3 :=
  ⟨rfl, (enqueue_beyond_capacity
    { cfg := { scenarioConfig with EventQueueSize := 2 }, events := [], dropped := 0 }
    (List.replicate 5 (newEvent (scenarioEnv (.fail .EOF)) [] [] [] 0)) rfl (by decide)).2.2.1⟩


theorem backgroundSender_tick (s : Server) (out : SenderLog) :
    (s.backgroundSender out .tick).1 = s ∧ (s.backgroundSender out .tick).2.taken = out.taken
    ∧ (s.backgroundSender out .tick).2.posted = out.posted := by
  unfold Server.backgroundSender
  simp only
  split_ifs <;> exact ⟨rfl, rfl, rfl⟩

theorem backgroundSender_recv_nil (s : Server) (out : SenderLog) (post : PostResult)
    (h : s.events = []) : s.backgroundSender out (.recv post) = (s, out) := by
  simp only [Server.backgroundSender, h]

theorem backgroundSender_recv_cons (s : Server) (out : SenderLog) (post : PostResult)
    (ev : MeteringEvent) (rest : List MeteringEvent) (h : s.events = ev :: rest) :
    (s.backgroundSender out (.recv post)).1 = { s with events := rest }
    ∧ (s.backgroundSender out (.recv post)).2.taken = out.taken ++ [ev]
    ∧ (postEvent post ≠ none → (s.backgroundSender out (.recv post)).2.posted = out.posted) := by
  simp only [Server.backgroundSender, h]
  cases hp : postEvent post with
  | none => exact ⟨rfl, rfl, fun hne => absurd rfl hne⟩
  | some e => exact ⟨rfl, rfl, fun _ => rfl⟩

theorem backgroundSender_server (s : Server) (out : SenderLog) (c : SenderCase) :
    (s.backgroundSender out c).1.dropped = s.dropped
    ∧ (s.backgroundSender out c).1.cfg = s.cfg
    ∧ (s.backgroundSender out c).2.taken ++ (s.backgroundSender out c).1.events
        = out.taken ++ s.events
    ∧ (s.backgroundSender out c).1.events.length ≤ s.events.length := by
  cases c with
  | tick =>
    obtain ⟨h1, h2, _⟩ := backgroundSender_tick s out
    rw [h1, h2]
    exact ⟨rfl, rfl, rfl, le_refl _⟩
  | recv post =>
    cases hev : s.events with
    | nil =>
      rw [backgroundSender_recv_nil s out post hev]
      simp [hev]
    | cons ev rest =>
      obtain ⟨h1, h2, _⟩ := backgroundSender_recv_cons s out post ev rest hev
      rw [h1, h2]
      simp

/-- A hand-off on an empty channel: the event is taken by the sender at once,
the channel stays empty and the counter is left as it is. -/
theorem handoff_step (t : QueueRun) (ev : MeteringEvent) (post : PostResult)
    (h : t.s.events = []) :
    (t.step (.handoff ev post)).s = t.s
    ∧ (t.step (.handoff ev post)).out.taken = t.out.taken ++ [ev]
    ∧ (t.step (.handoff ev post)).calls = t.calls + 1
    ∧ (t.step (.handoff ev post)).accepted = t.accepted ++ [ev]
    ∧ (postEvent post = none → (t.step (.handoff ev post)).out.posted = t.out.posted ++ [ev])
    ∧ (postEvent post ≠ none → (t.step (.handoff ev post)).out.posted = t.out.posted) := by
  have hs : ({ t.s with events := ([] : List MeteringEvent) } : Server) = t.s := by
    cases ht : t.s with
    | mk cfg events dropped =>
      rw [ht] at h
      simp only at h
      rw [h]
  unfold QueueRun.step
  simp only [h]
  cases hp : postEvent post with
  | none => simp [Server.backgroundSender, hp, hs]
  | some e => simp [Server.backgroundSender, hp, hs]

/-- A hand-off on a channel that holds an event does not happen. -/
theorem handoff_step_cons (t : QueueRun) (ev : MeteringEvent) (post : PostResult)
    (e0 : MeteringEvent) (rest : List MeteringEvent) (h : t.s.events = e0 :: rest) :
    t.step (.handoff ev post) = t := by
  unfold QueueRun.step
  simp only [h]

/-- What holds of the queue at every point of a run. -/
theorem run_invariant (steps : List QueueStep) :
    ∀ t : QueueRun, t.s.events.length ≤ t.s.capacity →
      t.calls = t.out.taken.length + t.s.events.length + t.s.dropped →
      t.out.taken ++ t.s.events = t.accepted →
      (t.run steps).s.events.length ≤ (t.run steps).s.capacity
      ∧ (t.run steps).calls = (t.run steps).out.taken.length + (t.run steps).s.events.length
          + (t.run steps).s.dropped
      ∧ (t.run steps).out.taken ++ (t.run steps).s.events = (t.run steps).accepted
      ∧ t.s.dropped ≤ (t.run steps).s.dropped
      ∧ (t.run steps).s.cfg = t.s.cfg := by
  induction steps with
  | nil => intro t h1 h2 h3; exact ⟨h1, h2, h3, le_refl _, rfl⟩
  | cons step steps ih =>
    intro t h1 h2 h3
    have hstep : (t.step step).s.events.length ≤ (t.step step).s.capacity
        ∧ (t.step step).calls = (t.step step).out.taken.length + (t.step step).s.events.length
            + (t.step step).s.dropped
        ∧ (t.step step).out.taken ++ (t.step step).s.events = (t.step step).accepted
        ∧ t.s.dropped ≤ (t.step step).s.dropped
        ∧ (t.step step).s.cfg = t.s.cfg := by
      cases step with
      | enqueue ev =>
        unfold QueueRun.step
        simp only
        rcases enqueue_cases t.s ev with ⟨hlt, he⟩ | ⟨hge, he⟩
        · rw [he]
          simp only [if_true]
          refine ⟨?_, ?_, ?_, le_refl _, trivial⟩
          · show (t.s.events ++ [ev]).length ≤ t.s.capacity
            simp; omega
          · simp only [List.length_append, List.length_singleton]; omega
          · rw [← List.append_assoc, h3]
        · rw [he]
          have hne : ¬ (t.s.dropped + 1 = t.s.dropped) := by omega
          simp only [hne, if_false]
          refine ⟨h1, by omega, h3, by omega, trivial⟩
      | sender c =>
        unfold QueueRun.step
        simp only
        obtain ⟨hd, hc, hf, hl⟩ := backgroundSender_server t.s t.out c
        refine ⟨?_, ?_, ?_, by rw [hd], hc⟩
        · have : (t.s.backgroundSender t.out c).1.capacity = t.s.capacity := by
            unfold Server.capacity; rw [hc]
          rw [this]; omega
        · have hlen := congrArg List.length hf
          simp only [List.length_append] at hlen
          rw [hd]; omega
        · rw [hf, h3]
      | handoff ev post =>
        cases hev : t.s.events with
        | nil =>
          obtain ⟨k1, k2, k3, k4, _, _⟩ := handoff_step t ev post hev
          rw [k1, k2, k3, k4]
          rw [hev] at h2 h3
          simp only [List.length_nil, List.append_nil, Nat.add_zero] at h2 h3
          refine ⟨h1, ?_, ?_, le_refl _, rfl⟩
          · rw [hev]
            simp only [List.length_append, List.length_singleton, List.length_nil]
            omega
          · rw [hev, List.append_nil, h3]
        | cons e0 rest =>
          rw [handoff_step_cons t ev post e0 rest hev]
          exact ⟨h1, h2, h3, le_refl _, rfl⟩
    obtain ⟨k1, k2, k3, k4, k5⟩ := hstep
    obtain ⟨j1, j2, j3, j4, j5⟩ := ih (t.step step) k1 k2 k3
    have hrun : t.run (step :: steps) = (t.step step).run steps := rfl
    rw [hrun]
    exact ⟨j1, j2, j3, le_trans k4 j4, by rw [j5, k5]⟩

theorem run_append (t : QueueRun) (xs ys : List QueueStep) :
    t.run (xs ++ ys) = (t.run xs).run ys := by
  unfold QueueRun.run
  rw [List.foldl_append]

/-- C9: over every sequence of enqueue, sender and tick steps from the state that
`NewServer` makes, for every capacity (on a channel of capacity 0 an enqueue is
accepted exactly when it meets the waiting sender), the number of pending events
never exceeds the capacity; the dropped counter never decreases and a pass of
the sender (a delivery, successful or failed, or a tick) leaves it unchanged;
each enqueue either appends its event at the tail or adds exactly one to the
counter, never both and never neither, an enqueue that meets the waiting sender
being one whose event is appended to the empty queue and dequeued at once; so
the number of enqueue calls is the number of events dequeued plus those pending
plus the counter; a failed delivery takes the event off the queue and does not
put it back; and the events dequeued followed by those pending are the accepted
events in the order of their acceptance. -/
theorem queue_run_invariants (cfg : Config) (s0 : Server) (h0 : NewServer cfg = some s0)
    (steps : List QueueStep) :
    ((QueueRun.start s0).run steps).s.events.length ≤ ((QueueRun.start s0).run steps).s.capacity
    ∧ (∀ more, ((QueueRun.start s0).run steps).s.dropped
        ≤ ((QueueRun.start s0).run (steps ++ more)).s.dropped)
    ∧ (∀ c, (((QueueRun.start s0).run steps).step (.sender c)).s.dropped
        = ((QueueRun.start s0).run steps).s.dropped)
    ∧ (∀ ev post, (((QueueRun.start s0).run steps).step (.handoff ev post)).s.dropped
        = ((QueueRun.start s0).run steps).s.dropped)
    ∧ (∀ ev post, ((QueueRun.start s0).run steps).s.events = [] →
        (((QueueRun.start s0).run steps).step (.handoff ev post)).s.events = []
        ∧ (((QueueRun.start s0).run steps).step (.handoff ev post)).out.taken
            = ((QueueRun.start s0).run steps).out.taken ++ [ev]
        ∧ (((QueueRun.start s0).run steps).step (.handoff ev post)).accepted
            = ((QueueRun.start s0).run steps).accepted ++ [ev]
        ∧ (postEvent post ≠ none →
            (((QueueRun.start s0).run steps).step (.handoff ev post)).out.posted
              = ((QueueRun.start s0).run steps).out.posted))
    ∧ (∀ ev,
        ((((QueueRun.start s0).run steps).s.enqueue ev).events
            = ((QueueRun.start s0).run steps).s.events ++ [ev]
          ∧ (((QueueRun.start s0).run steps).s.enqueue ev).dropped
            = ((QueueRun.start s0).run steps).s.dropped)
        ∨ ((((QueueRun.start s0).run steps).s.enqueue ev).events
            = ((QueueRun.start s0).run steps).s.events
          ∧ (((QueueRun.start s0).run steps).s.enqueue ev).dropped
            = ((QueueRun.start s0).run steps).s.dropped + 1))
    ∧ ((QueueRun.start s0).run steps).calls
        = ((QueueRun.start s0).run steps).out.taken.length
          + ((QueueRun.start s0).run steps).s.events.length
          + ((QueueRun.start s0).run steps).s.dropped
    ∧ (∀ post, postEvent post ≠ none →
        (((QueueRun.start s0).run steps).step (.sender (.recv post))).s.events
            = ((QueueRun.start s0).run steps).s.events.tail
        ∧ (((QueueRun.start s0).run steps).step (.sender (.recv post))).out.posted
            = ((QueueRun.start s0).run steps).out.posted)
    ∧ ((QueueRun.start s0).run steps).out.taken ++ ((QueueRun.start s0).run steps).s.events
        = ((QueueRun.start s0).run steps).accepted := by
  have hs0 : s0 = { cfg := cfg, events := [], dropped := 0 } := by
    unfold NewServer at h0
    split_ifs at h0
    exact (Option.some.inj h0).symm
  have hhand : ∀ (t : QueueRun) ev post, (t.step (.handoff ev post)).s.dropped = t.s.dropped := by
    intro t ev post
    cases hev : t.s.events with
    | nil => rw [(handoff_step t ev post hev).1]
    | cons e0 rest => rw [handoff_step_cons t ev post e0 rest hev]
  have hinit := run_invariant steps (QueueRun.start s0) (by rw [hs0]; simp [QueueRun.start])
    (by rw [hs0]; simp [QueueRun.start]) (by rw [hs0]; simp [QueueRun.start])
  obtain ⟨i1, i2, i3, _, _⟩ := hinit
  refine ⟨i1, ?_, ?_, ?_, ?_, ?_, i2, ?_, i3⟩
  · intro more
    rw [run_append]
    exact (run_invariant more _ i1 i2 i3).2.2.2.1
  · intro c
    exact (backgroundSender_server _ _ c).1
  · intro ev post
    exact hhand _ ev post
  · intro ev post hev
    obtain ⟨k1, k2, _, k4, _, k6⟩ := handoff_step _ ev post hev
    exact ⟨by rw [k1]; exact hev, k2, k4, k6⟩
  · intro ev
    rcases enqueue_cases ((QueueRun.start s0).run steps).s ev with ⟨_, he⟩ | ⟨_, he⟩
    · left; rw [he]; exact ⟨rfl, rfl⟩
    · right; rw [he]; exact ⟨rfl, rfl⟩
  · intro post hpost
    show (Server.backgroundSender _ _ _).1.events = _ ∧ (Server.backgroundSender _ _ _).2.posted = _
    cases hev : ((QueueRun.start s0).run steps).s.events with
    | nil =>
      rw [backgroundSender_recv_nil _ _ post hev]
      exact ⟨hev, rfl⟩
    | cons ev rest =>
      obtain ⟨h1, _, h3⟩ := backgroundSender_recv_cons _ ((QueueRun.start s0).run steps).out
        post ev rest hev
      rw [h1]
      exact ⟨rfl, h3 hpost⟩

theorem queue_run_invariants_witness :
    NewServer { scenarioConfig with EventQueueSize := 0 }
      = some { cfg := { scenarioConfig with EventQueueSize := 0 }, events := [], dropped := 0 }
    ∧ ((QueueRun.start
          { cfg := { scenarioConfig with EventQueueSize := 0 }, events := [], dropped := 0 }).run
        [.handoff (newEvent (scenarioEnv (.fail .EOF)) [] [] [] 0) (.status 202),
         .enqueue (newEvent (scenarioEnv (.fail .EOF)) [] [] [] 0),
         .sender (.recv (.status 500)), .sender .tick]).calls = 2 :=
  ⟨by decide, by
    rw [(queue_run_invariants { scenarioConfig with EventQueueSize := 0 } _ (by decide)
      [.handoff (newEvent (scenarioEnv (.fail .EOF)) [] [] [] 0) (.status 202),
       .enqueue (newEvent (scenarioEnv (.fail .EOF)) [] [] [] 0),
       .sender (.recv (.status 500)), .sender .tick]).2.2.2.2.2.2.1]
    decide⟩


/-! ### Tenant and upstream request -/

theorem TrimSpace_default : TrimSpace (str "default") ≠ [] := by decide

theorem setUsage_Tenant (ev : MeteringEvent) (u : Option Usage) :
    (ev.setUsage u).Tenant = ev.Tenant := by
  cases u <;> rfl

/-- Every event that the handler enqueues has the tenant computed at its start. -/
theorem enqueued_tenant (s : Server) (env : Env) (w : ResponseWriter) (r : Request) :
    ∀ ev ∈ (s.handleChatCompletions env w r).enqueued,
      ev.Tenant = FirstNonEmpty
        [r.Header.Get (str "X-LLM-Tenant"), r.Header.Get (str "X-Tenant"), str "default"] := by
  unfold Server.handleChatCompletions
  by_cases hm : r.Method = str "POST"
  · simp only [hm, ne_eq, not_true_eq_false, if_false]
    by_cases hk : BearerToken (r.Header.Get (str "Authorization")) = []
    · simp [hk]
    · simp only [hk, if_false]
      cases hb : readAllLimited (8 * 2 ^ 20) r.Body with
      | error e => simp
      | ok reqBody =>
        simp only
        cases hn : env.newRequestErr (s.upstreamRequest r reqBody).URL with
        | some e => simp
        | none =>
          simp only
          split
          · simp [newEvent]
          · split <;> simp [Server.relayStreamed, Server.relayBuffered, setUsage_Tenant, newEvent]
  · simp [hm]

/-- C16: `FirstNonEmpty` returns, unmodified, the first element that is not empty
after trimming white space, and the empty string when every element is blank or
the list is empty; the tenant of every event that the handler enqueues is the
`X-LLM-Tenant` header if that is not blank, else the `X-Tenant` header if that is
not blank, else `default`, and it is never blank. -/
theorem tenant_is_first_non_blank (s : Server) (env : Env) (w : ResponseWriter) (r : Request) :
    (∀ pre v post, (∀ u ∈ pre, TrimSpace u = []) → TrimSpace v ≠ [] →
        FirstNonEmpty (pre ++ v :: post) = v)
    ∧ (∀ vals, (∀ u ∈ vals, TrimSpace u = []) → FirstNonEmpty vals = [])
    ∧ FirstNonEmpty [] = []
    ∧ FirstNonEmpty [str "  ", str " acme ", str "other"] = str " acme "
    ∧ (∀ ev ∈ (s.handleChatCompletions env w r).enqueued,
        ev.Tenant
          = (if TrimSpace (r.Header.Get (str "X-LLM-Tenant")) ≠ [] then
              r.Header.Get (str "X-LLM-Tenant")
            else if TrimSpace (r.Header.Get (str "X-Tenant")) ≠ [] then
              r.Header.Get (str "X-Tenant")
            else str "default")
        ∧ TrimSpace ev.Tenant ≠ []) := by
  have hpre : ∀ pre v post, (∀ u ∈ pre, TrimSpace u = []) → TrimSpace v ≠ [] →
      FirstNonEmpty (pre ++ v :: post) = v := by
    intro pre
    induction pre with
    | nil =>
      intro v post _ hv
      simp [FirstNonEmpty, hv]
    | cons u us ih =>
      intro v post hu hv
      have h0 : TrimSpace u = [] := hu u (List.mem_cons_self _ _)
      rw [List.cons_append, FirstNonEmpty, if_neg (by simp [h0])]
      exact ih v post (fun x hx => hu x (List.mem_cons_of_mem _ hx)) hv
  have hall : ∀ vals : List (List Byte), (∀ u ∈ vals, TrimSpace u = []) →
      FirstNonEmpty vals = [] := by
    intro vals
    induction vals with
    | nil => intro _; rfl
    | cons u us ih =>
      intro hu
      have h0 : TrimSpace u = [] := hu u (List.mem_cons_self _ _)
      rw [FirstNonEmpty, if_neg (by simp [h0])]
      exact ih (fun x hx => hu x (List.mem_cons_of_mem _ hx))
  have hten : ∀ a b : List Byte,
      FirstNonEmpty [a, b, str "default"]
        = (if TrimSpace a ≠ [] then a else if TrimSpace b ≠ [] then b else str "default")
      ∧ TrimSpace (FirstNonEmpty [a, b, str "default"]) ≠ [] := by
    intro a b
    by_cases ha : TrimSpace a = []
    · by_cases hb : TrimSpace b = []
      · simp [FirstNonEmpty, ha, hb, TrimSpace_default]
      · simp [FirstNonEmpty, ha, hb]
    · simp [FirstNonEmpty, ha]
  refine ⟨hpre, hall, rfl, by decide, ?_⟩
  intro ev hev
  rw [enqueued_tenant s env w r ev hev]
  exact hten _ _


/-- The headers of the upstream request that the handler builds. -/
theorem upstreamRequest_Header (s : Server) (r : Request) (reqBody : List Byte) :
    (s.upstreamRequest r reqBody).Header
      = [(str "Content-Type", [str "application/json"]),
         (str "Authorization", [str "Bearer " ++ s.cfg.UpstreamAPIKey])]
        ++ (if r.Header.Get (str "OpenAI-Organization") ≠ [] then
              [(str "Openai-Organization", [r.Header.Get (str "OpenAI-Organization")])] else [])
        ++ (if r.Header.Get (str "OpenAI-Beta") ≠ [] then
              [(str "Openai-Beta", [r.Header.Get (str "OpenAI-Beta")])] else [])
        ++ (if r.Header.Get (str "OpenAI-Project") ≠ [] then
              [(str "Openai-Project", [r.Header.Get (str "OpenAI-Project")])] else []) := by
  unfold Server.upstreamRequest
  simp only
  generalize r.Header.Get (str "OpenAI-Organization") = org
  generalize r.Header.Get (str "OpenAI-Beta") = beta
  generalize r.Header.Get (str "OpenAI-Project") = proj
  generalize str "Bearer " ++ s.cfg.UpstreamAPIKey = auth
  by_cases ho : org = [] <;> by_cases hb : beta = [] <;> by_cases hp : proj = [] <;>
    simp only [ho, hb, hp, ne_eq, not_true_eq_false, not_false_eq_true, if_true, if_false] <;> rfl

/-- The upstream calls of the handler, as a function of the request. -/
theorem upstream_calls (s : Server) (env : Env) (w : ResponseWriter) (r : Request) :
    (s.handleChatCompletions env w r).upstream
      = if r.Method ≠ str "POST" then []
        else if BearerToken (r.Header.Get (str "Authorization")) = [] then []
        else match readAllLimited (8 * 2 ^ 20) r.Body with
          | .error _ => []
          | .ok reqBody =>
            match env.newRequestErr (s.upstreamRequest r reqBody).URL with
            | some _ => []
            | none => [s.upstreamRequest r reqBody] := by
  unfold Server.handleChatCompletions
  by_cases hm : r.Method = str "POST"
  · simp only [hm, ne_eq, not_true_eq_false, if_false]
    by_cases hk : BearerToken (r.Header.Get (str "Authorization")) = []
    · simp [hk]
    · simp only [hk, if_false]
      cases hb : readAllLimited (8 * 2 ^ 20) r.Body with
      | error e => simp
      | ok reqBody =>
        simp only
        cases hn : env.newRequestErr (s.upstreamRequest r reqBody).URL with
        | some e => simp
        | none =>
          simp only
          split
          · rfl
          · split <;> rfl
  · simp [hm]

/-- C12: the upstream request does not depend on the inbound credential. Two
inbound requests with the same method and body and the same `OpenAI-Organization`,
`OpenAI-Beta` and `OpenAI-Project` headers, each with a non-empty bearer token
(so they may differ in that token and in every other header), give the same
upstream calls; and every upstream request of the handler is a POST to the
configured URL whose `Authorization` header is `Bearer ` followed by the
configured upstream key, whose body is the inbound body as read, and whose
headers are `Content-Type`, `Authorization` and the non-empty ones among the
three headers above, and no other. -/
theorem upstream_request_ignores_inbound_credential (s : Server) (env : Env)
    (w1 w2 : ResponseWriter) (r1 r2 : Request)
    (hm : r1.Method = r2.Method) (hbody : r1.Body = r2.Body)
    (horg : r1.Header.Get (str "OpenAI-Organization") = r2.Header.Get (str "OpenAI-Organization"))
    (hbeta : r1.Header.Get (str "OpenAI-Beta") = r2.Header.Get (str "OpenAI-Beta"))
    (hproj : r1.Header.Get (str "OpenAI-Project") = r2.Header.Get (str "OpenAI-Project"))
    (hk1 : BearerToken (r1.Header.Get (str "Authorization")) ≠ [])
    (hk2 : BearerToken (r2.Header.Get (str "Authorization")) ≠ []) :
    (s.handleChatCompletions env w1 r1).upstream = (s.handleChatCompletions env w2 r2).upstream
    ∧ ∀ q ∈ (s.handleChatCompletions env w1 r1).upstream,
        q.Method = str "POST"
        ∧ q.URL = TrimRight s.cfg.UpstreamBaseURL 0x2F ++ str "/v1/chat/completions"
        ∧ q.Header.Get (str "Authorization") = str "Bearer " ++ s.cfg.UpstreamAPIKey
        ∧ readAllLimited (8 * 2 ^ 20) r1.Body = .ok q.Body
        ∧ q.Header
          = [(str "Content-Type", [str "application/json"]),
             (str "Authorization", [str "Bearer " ++ s.cfg.UpstreamAPIKey])]
            ++ (if r1.Header.Get (str "OpenAI-Organization") ≠ [] then
                [(str "Openai-Organization", [r1.Header.Get (str "OpenAI-Organization")])]
              else [])
            ++ (if r1.Header.Get (str "OpenAI-Beta") ≠ [] then
                [(str "Openai-Beta", [r1.Header.Get (str "OpenAI-Beta")])] else [])
            ++ (if r1.Header.Get (str "OpenAI-Project") ≠ [] then
                [(str "Openai-Project", [r1.Header.Get (str "OpenAI-Project")])] else []) := by
  have hreq : ∀ b, s.upstreamRequest r1 b = s.upstreamRequest r2 b := by
    intro b
    unfold Server.upstreamRequest
    simp only [horg, hbeta, hproj]
  constructor
  · rw [upstream_calls, upstream_calls, hm, hbody]
    simp only [hk1, hk2, if_false, hreq]
  · intro q hq
    rw [upstream_calls] at hq
    by_cases hmp : r1.Method = str "POST"
    · simp only [hmp, ne_eq, not_true_eq_false, if_false, hk1] at hq
      cases hb : readAllLimited (8 * 2 ^ 20) r1.Body with
      | error e => rw [hb] at hq; simp at hq
      | ok reqBody =>
        rw [hb] at hq
        simp only at hq
        cases hn : env.newRequestErr (s.upstreamRequest r1 reqBody).URL with
        | some e => rw [hn] at hq; simp at hq
        | none =>
          rw [hn] at hq
          simp only [List.mem_singleton] at hq
          subst hq
          refine ⟨rfl, rfl, ?_, rfl, upstreamRequest_Header s r1 reqBody⟩
          rw [upstreamRequest_Header]
          rfl
    · simp [hmp] at hq

set_option maxRecDepth 100000 in
theorem upstream_request_ignores_inbound_credential_witness :
    BearerToken ((scenarioRequest (str "Bearer abc")).Header.Get (str "Authorization"))
      ≠ BearerToken ((scenarioRequest (str "Bearer xyz")).Header.Get (str "Authorization"))
    ∧ (scenarioServer.handleChatCompletions (scenarioEnv (.fail (.other 1)))
        (newResponseWriter true (fun _ => none)) (scenarioRequest (str "Bearer abc"))).upstream
      = (scenarioServer.handleChatCompletions (scenarioEnv (.fail (.other 1)))
        (newResponseWriter true (fun _ => none)) (scenarioRequest (str "Bearer xyz"))).upstream :=
  ⟨by decide, (upstream_request_ignores_inbound_credential scenarioServer
    (scenarioEnv (.fail (.other 1))) (newResponseWriter true (fun _ => none))
    (newResponseWriter true (fun _ => none)) (scenarioRequest (str "Bearer abc"))
    (scenarioRequest (str "Bearer xyz")) rfl rfl (by decide) (by decide) (by decide)
    (by decide) (by decide)).1⟩


/-! ### Response headers -/

theorem lookup_map_keep {β : Type} (k : List Byte) (f : List Byte × β → List Byte × β)
    (hf : ∀ e, (f e).1 = e.1) (h : List (List Byte × β)) :
    (h.map f).lookup k = (h.lookup k).map (fun v => (f (k, v)).2) := by
  induction h with
  | nil => rfl
  | cons e es ih =>
    obtain ⟨a, b⟩ := e
    by_cases hk : k = a
    · subst hk
      have h1 := hf (k, b)
      simp only [List.map_cons]
      have : f (k, b) = (k, (f (k, b)).2) := Prod.ext h1 rfl
      rw [this]
      simp [List.lookup]
    · have h1 : (f (a, b)).1 = a := hf (a, b)
      simp only [List.map_cons]
      have : f (a, b) = (a, (f (a, b)).2) := Prod.ext h1 rfl
      rw [this]
      have hne : (k == a) = false := by simpa using hk
      simp only [List.lookup, hne, ih]

theorem lookup_none_iff {β : Type} (k : List Byte) (h : List (List Byte × β)) :
    h.lookup k = none ↔ h.any (fun e => e.1 == k) = false := by
  induction h with
  | nil => simp
  | cons e es ih =>
    obtain ⟨a, b⟩ := e
    by_cases hk : k = a
    · subst hk
      simp [List.lookup]
    · have hne : (k == a) = false := by simpa using hk
      have hne2 : (a == k) = false := by simpa using fun h => hk h.symm
      simp only [List.lookup, hne, ih, List.any_cons, hne2, Bool.false_or]

theorem lookup_append_single {β : Type} (k a : List Byte) (b : β) (h : List (List Byte × β)) :
    (h ++ [(a, b)]).lookup k
      = match h.lookup k with
        | some v => some v
        | none => if k = a then some b else none := by
  induction h with
  | nil =>
    by_cases hk : k = a
    · subst hk; simp [List.lookup]
    · have hne : (k == a) = false := by simpa using hk
      simp [List.lookup, hne, hk]
  | cons e es ih =>
    obtain ⟨c, d⟩ := e
    by_cases hk : k = c
    · subst hk; simp [List.lookup]
    · have hne : (k == c) = false := by simpa using hk
      rw [List.cons_append]
      simp only [List.lookup, hne]
      exact ih

/-- The values under a name after `Header.Add`. -/
theorem Values_Add (h : Header) (key v n : List Byte) :
    Header.Values (Header.Add h key v) n
      = if CanonicalMIMEHeaderKey n = CanonicalMIMEHeaderKey key then Header.Values h n ++ [v]
        else Header.Values h n := by
  unfold Header.Values Header.Add
  simp only
  generalize CanonicalMIMEHeaderKey key = k
  generalize CanonicalMIMEHeaderKey n = cn
  by_cases hany : h.any (fun e => e.1 == k) = true
  · rw [if_pos hany, lookup_map_keep cn _ (fun e => by by_cases he : (e.1 == k) = true <;> simp_all)]
    by_cases hc : cn = k
    · subst hc
      cases hl : List.lookup cn h with
      | none =>
        rw [lookup_none_iff] at hl
        rw [hl] at hany
        exact absurd hany (by simp)
      | some vs => simp
    · have hne : (cn == k) = false := by simpa using hc
      rw [if_neg hc]
      cases hl : List.lookup cn h with
      | none => rfl
      | some vs => simp [hne]
  · rw [if_neg hany, lookup_append_single]
    have hany2 : h.any (fun e => e.1 == k) = false := Bool.eq_false_iff.mpr hany
    by_cases hc : cn = k
    · subst hc
      rw [(lookup_none_iff cn h).mpr hany2]
      simp
    · cases hl : List.lookup cn h with
      | none => simp [hc]
      | some vs => simp [hc]

/-- The values under a name after `Header.Set`. -/
theorem Values_Set (h : Header) (key v n : List Byte) :
    Header.Values (Header.Set h key v) n
      = if CanonicalMIMEHeaderKey n = CanonicalMIMEHeaderKey key then [v]
        else Header.Values h n := by
  unfold Header.Values Header.Set
  simp only
  generalize CanonicalMIMEHeaderKey key = k
  generalize CanonicalMIMEHeaderKey n = cn
  by_cases hany : h.any (fun e => e.1 == k) = true
  · rw [if_pos hany, lookup_map_keep cn _ (fun e => by by_cases he : (e.1 == k) = true <;> simp_all)]
    by_cases hc : cn = k
    · subst hc
      cases hl : List.lookup cn h with
      | none =>
        rw [lookup_none_iff] at hl
        rw [hl] at hany
        exact absurd hany (by simp)
      | some vs => simp
    · have hne : (cn == k) = false := by simpa using hc
      rw [if_neg hc]
      cases hl : List.lookup cn h with
      | none => rfl
      | some vs => simp [hne]
  · rw [if_neg hany, lookup_append_single]
    have hany2 : h.any (fun e => e.1 == k) = false := Bool.eq_false_iff.mpr hany
    by_cases hc : cn = k
    · subst hc
      rw [(lookup_none_iff cn h).mpr hany2]
      simp
    · cases hl : List.lookup cn h with
      | none => simp [hc]
      | some vs => simp [hc]

/-- The values under a name after the header copy loop. -/
theorem Values_copyHeaders (up : Header) (n : List Byte) : ∀ h : Header,
    Header.Values (copyHeaders up h) n = Header.Values h n ++ forwardedValues up n := by
  have inner : ∀ (k : List Byte) (vs : List (List Byte)) (h : Header),
      Header.Values (vs.foldl (fun a v => Header.Add a k v) h) n
        = Header.Values h n
          ++ (if CanonicalMIMEHeaderKey n = CanonicalMIMEHeaderKey k then vs else []) := by
    intro k vs
    induction vs with
    | nil => intro h; simp
    | cons v vs ih =>
      intro h
      rw [List.foldl_cons, ih, Values_Add]
      by_cases hc : CanonicalMIMEHeaderKey n = CanonicalMIMEHeaderKey k <;> simp [hc]
  induction up with
  | nil => intro h; simp [copyHeaders, forwardedValues]
  | cons e es ih =>
    intro h
    have hstep : copyHeaders (e :: es) h
        = copyHeaders es (if IsHopByHopHeader e.1 then h
            else e.2.foldl (fun a v => Header.Add a e.1 v) h) := rfl
    rw [hstep, ih]
    unfold forwardedValues
    by_cases hh : IsHopByHopHeader e.1 = true
    · simp [hh, List.filter_cons]
    · have hh2 : IsHopByHopHeader e.1 = false := by simpa using hh
      rw [if_neg hh, inner]
      by_cases hc : CanonicalMIMEHeaderKey n = CanonicalMIMEHeaderKey e.1
      · simp [hh2, List.filter_cons, hc]
      · have hc2 : ¬ CanonicalMIMEHeaderKey e.1 = CanonicalMIMEHeaderKey n := fun h => hc h.symm
        simp [hh2, List.filter_cons, hc, hc2]

theorem wrote_header (st : SSEState) (line : List Byte) :
    (st.wrote line).w.header = st.w.header ∧ (st.wrote line).w.status = st.w.status := by
  unfold SSEState.wrote
  split_ifs <;> exact ⟨rfl, rfl⟩

/-- One pass of the loop body leaves the header map and the status code of the
client as they are. -/
theorem lineBlock_header (json : JSON) (st : SSEState) (line : List Byte) :
    (∀ r, StreamSSE.lineBlock json st line = .ret r →
        r.st.w.header = st.w.header ∧ r.st.w.status = st.w.status)
    ∧ (∀ st1, StreamSSE.lineBlock json st line = .next st1 →
        st1.w.header = st.w.header ∧ st1.w.status = st.w.status) := by
  rcases line_cases st line with h | ⟨hl, e, he⟩ | ⟨hl, hw, hs⟩ | ⟨hl, hw, hs⟩
  · subst h
    rw [lineBlock_nil]
    refine ⟨fun r hr => (by cases hr), fun st1 h1 => ?_⟩
    cases h1
    exact ⟨rfl, rfl⟩
  · rw [lineBlock_fail json st line e hl he]
    refine ⟨fun r hr => ?_, fun st1 h1 => by cases h1⟩
    cases hr
    exact ⟨rfl, rfl⟩
  · rw [lineBlock_sentinel json st line hl hw hs]
    refine ⟨fun r hr => ?_, fun st1 h1 => by cases h1⟩
    cases hr
    exact wrote_header st line
  · rw [lineBlock_next json st line hl hw hs]
    refine ⟨fun r hr => (by cases hr), fun st1 h1 => ?_⟩
    cases h1
    exact wrote_header st line

/-- The loop of `StreamSSE` leaves the header map and the status code of the
client as they are. -/
theorem loop_header (json : JSON) (last : List Byte) (err : GoError) (lines : List (List Byte)) :
    ∀ st : SSEState,
      (StreamSSE.loop json st lines last err).st.w.header = st.w.header
      ∧ (StreamSSE.loop json st lines last err).st.w.status = st.w.status := by
  induction lines with
  | nil =>
    intro st
    rw [loop_nil]
    have h := lineBlock_header json { st with reads := st.reads ++ [(last, some err)] } last
    cases hb : StreamSSE.lineBlock json { st with reads := st.reads ++ [(last, some err)] } last with
    | ret r => exact h.1 r hb
    | next st1 =>
      simp only [StreamSSE.errBlock]
      split_ifs <;> exact h.2 st1 hb
  | cons line lines ih =>
    intro st
    rw [loop_cons]
    have h := lineBlock_header json { st with reads := st.reads ++ [(line, none)] } line
    cases hb : StreamSSE.lineBlock json { st with reads := st.reads ++ [(line, none)] } line with
    | ret r => exact h.1 r hb
    | next st1 =>
      simp only
      have h2 := h.2 st1 hb
      have h3 := ih st1
      exact ⟨h3.1.trans h2.1, h3.2.trans h2.2⟩

/-- The copy of a buffered response leaves the header map and the status code
of the client as they are. -/
theorem copyTee_header (chunks : List (List Byte)) (err : GoError) :
    ∀ (w : ResponseWriter) (cap : limitedCapture),
      (copyTee w cap chunks err).1.header = w.header
      ∧ (copyTee w cap chunks err).1.status = w.status := by
  induction chunks with
  | nil => intro w cap; exact ⟨rfl, rfl⟩
  | cons chunk chunks ih =>
    intro w cap
    unfold copyTee
    have hw : (if (w.Write chunk).1.flusher then (w.Write chunk).1.Flush
        else (w.Write chunk).1).header = w.header
        ∧ (if (w.Write chunk).1.flusher then (w.Write chunk).1.Flush
        else (w.Write chunk).1).status = w.status := by
      split_ifs <;> exact ⟨rfl, rfl⟩
    by_cases hl : chunk.length > 0
    · simp only [hl, if_true]
      cases hwe : (w.Write chunk).2 with
      | some werr => exact hw
      | none =>
        simp only
        have h3 := ih (if (w.Write chunk).1.flusher then (w.Write chunk).1.Flush
          else (w.Write chunk).1) (cap.Write chunk).1
        exact ⟨h3.1.trans hw.1, h3.2.trans hw.2⟩
    · simp only [hl, if_false]
      exact ih w cap

/-- The header map and the status code that the client has after a request that
the upstream answered. -/
theorem answered_header (s : Server) (env : Env) (w : ResponseWriter) (r : Request)
    (q : UpstreamRequest) (StatusCode : Int) (upHeader : Header) (upBody : Reader)
    (hq : (s.handleChatCompletions env w r).upstream = [q])
    (hd : env.Do q = .response StatusCode upHeader upBody) :
    (s.handleChatCompletions env w r).w.header
      = Header.Set (copyHeaders upHeader w.header) (str "X-LLM-Request-ID") env.requestID
    ∧ (s.handleChatCompletions env w r).w.status
      = (match w.status with
        | none => some StatusCode
        | some c => some c) := by
  obtain ⟨reqBody, hb, hn, hqe⟩ := upstream_call_eq s env w r q hq
  rw [hqe] at hd
  have hm : r.Method = str "POST" := by
    by_contra hm
    rw [upstream_calls, if_pos hm] at hq
    exact absurd hq (by simp)
  have hk : BearerToken (r.Header.Get (str "Authorization")) ≠ [] := by
    intro hk
    rw [upstream_calls, if_neg (by simp [hm]), if_pos hk] at hq
    exact absurd hq (by simp)
  unfold Server.handleChatCompletions
  simp only [hm, ne_eq, not_true_eq_false, if_false, hk, hb, hn, hd]
  have hws : ∀ h : Header, (ResponseWriter.WriteHeader { w with header := h } StatusCode).header = h
      ∧ (ResponseWriter.WriteHeader { w with header := h } StatusCode).status
        = (match w.status with
          | none => some StatusCode
          | some c => some c) := by
    intro h
    unfold ResponseWriter.WriteHeader
    cases hs : w.status <;> simp [hs]
  generalize Header.Set (copyHeaders upHeader w.header) (str "X-LLM-Request-ID") env.requestID
    = wh at *
  have hw1 := hws wh
  generalize ResponseWriter.WriteHeader { w with header := wh } StatusCode = w1 at *
  split_ifs
  · simp only [Server.relayStreamed, StreamSSE]
    have h := loop_header env.json (ReadBytes 0x0A upBody.chunks.flatten).2 upBody.err
      (ReadBytes 0x0A upBody.chunks.flatten).1 { w := w1, model := [], usage := none, reads := [] }
    exact ⟨h.1.trans hw1.1, h.2.trans hw1.2⟩
  · simp only [Server.relayBuffered]
    have h := copyTee_header upBody.chunks upBody.err w1 (NewLimitedCapture s.cfg.MeteringCaptureBytes)
    exact ⟨h.1.trans hw1.1, h.2.trans hw1.2⟩

theorem keys_Add (h : Header) (key v : List Byte) (hn : (h.map Prod.fst).Nodup) :
    ((Header.Add h key v).map Prod.fst).Nodup := by
  unfold Header.Add
  simp only
  generalize CanonicalMIMEHeaderKey key = k
  by_cases hany : h.any (fun e => e.1 == k) = true
  · rw [if_pos hany, List.map_map]
    have : (Prod.fst ∘ fun e : List Byte × List (List Byte) =>
        if (e.1 == k) = true then (k, e.2 ++ [v]) else e) = Prod.fst := by
      funext e
      by_cases he : (e.1 == k) = true <;> simp_all
    rw [this]
    exact hn
  · rw [if_neg hany, List.map_append, List.map_singleton]
    have hany2 : h.any (fun e => e.1 == k) = false := Bool.eq_false_iff.mpr hany
    rw [List.nodup_append]
    refine ⟨hn, List.nodup_singleton _, ?_⟩
    intro a ha hb
    rw [List.mem_singleton] at hb
    subst hb
    obtain ⟨e, he, hfe⟩ := List.mem_map.mp ha
    have := List.any_eq_false.mp hany2 e he
    simp [hfe] at this

theorem keys_Set (h : Header) (key v : List Byte) (hn : (h.map Prod.fst).Nodup) :
    ((Header.Set h key v).map Prod.fst).Nodup := by
  unfold Header.Set
  simp only
  generalize CanonicalMIMEHeaderKey key = k
  by_cases hany : h.any (fun e => e.1 == k) = true
  · rw [if_pos hany, List.map_map]
    have : (Prod.fst ∘ fun e : List Byte × List (List Byte) =>
        if (e.1 == k) = true then (k, [v]) else e) = Prod.fst := by
      funext e
      by_cases he : (e.1 == k) = true <;> simp_all
    rw [this]
    exact hn
  · rw [if_neg hany, List.map_append, List.map_singleton]
    have hany2 : h.any (fun e => e.1 == k) = false := Bool.eq_false_iff.mpr hany
    rw [List.nodup_append]
    refine ⟨hn, List.nodup_singleton _, ?_⟩
    intro a ha hb
    rw [List.mem_singleton] at hb
    subst hb
    obtain ⟨e, he, hfe⟩ := List.mem_map.mp ha
    have := List.any_eq_false.mp hany2 e he
    simp [hfe] at this

theorem keys_copyHeaders (up : Header) : ∀ h : Header, (h.map Prod.fst).Nodup →
    ((copyHeaders up h).map Prod.fst).Nodup := by
  have inner : ∀ (k : List Byte) (vs : List (List Byte)) (h : Header), (h.map Prod.fst).Nodup →
      ((vs.foldl (fun a v => Header.Add a k v) h).map Prod.fst).Nodup := by
    intro k vs
    induction vs with
    | nil => intro h hn; exact hn
    | cons v vs ih => intro h hn; exact ih _ (keys_Add h k v hn)
  induction up with
  | nil => intro h hn; exact hn
  | cons e es ih =>
    intro h hn
    have hstep : copyHeaders (e :: es) h
        = copyHeaders es (if IsHopByHopHeader e.1 then h
            else e.2.foldl (fun a v => Header.Add a e.1 v) h) := rfl
    rw [hstep]
    apply ih
    split_ifs
    · exact hn
    · exact inner _ _ _ hn

set_option maxRecDepth 100000 in
/-- C11 (counterexample): an upstream response header named `X-Llm-Request-Id`
is not a hop-by-hop header, yet its value does not reach the client: the client
gets the identifier that the handler generated under that name, and nothing
else. -/
theorem upstream_request_id_header_is_replaced :
    (str "X-Llm-Request-Id", [str "upstream-id"]) ∈ upstreamHeaderWithRequestID
    ∧ IsHopByHopHeader (str "X-Llm-Request-Id") = false
    ∧ Header.Values (scenarioServer.handleChatCompletions
        (scenarioEnv (.response 200 upstreamHeaderWithRequestID
          { chunks := [scenarioResponseBody], err := GoError.EOF }))
        (newResponseWriter true (fun _ => none)) (scenarioRequest (str "Bearer abc"))).w.header
        (str "X-Llm-Request-Id") = [str "req_00"]
    ∧ str "upstream-id" ∉ Header.Values (scenarioServer.handleChatCompletions
        (scenarioEnv (.response 200 upstreamHeaderWithRequestID
          { chunks := [scenarioResponseBody], err := GoError.EOF }))
        (newResponseWriter true (fun _ => none)) (scenarioRequest (str "Bearer abc"))).w.header
        (str "X-Llm-Request-Id") := by
  decide

set_option maxRecDepth 100000 in
/-- C11 (amended): for every upstream response header map, the headers that the
handler sends to the client are, under every field name other than
`X-LLM-Request-ID`, the values of the upstream headers of that name that are not
hop-by-hop (connection, keep-alive, proxy-authenticate, proxy-authorization, te,
trailer, transfer-encoding, upgrade, as `IsHopByHopHeader` decides), all of them
and in order; under `X-LLM-Request-ID` the client gets the generated request
identifier alone, which replaces what the upstream sent under that name. Names
are compared in their canonical form, and the client has one entry per name. -/
theorem client_headers_are_forwarded_upstream_headers (s : Server) (env : Env) (flusher : Bool)
    (writeErr : Nat → Option GoError) (r : Request) (q : UpstreamRequest)
    (StatusCode : Int) (upHeader : Header) (upBody : Reader)
    (hq : (s.handleChatCompletions env (newResponseWriter flusher writeErr) r).upstream = [q])
    (hd : env.Do q = .response StatusCode upHeader upBody) :
    (∀ n, Header.Values
        (s.handleChatCompletions env (newResponseWriter flusher writeErr) r).w.header n
      = if CanonicalMIMEHeaderKey n = CanonicalMIMEHeaderKey (str "X-LLM-Request-ID") then
          [env.requestID]
        else forwardedValues upHeader n)
    ∧ ((s.handleChatCompletions env (newResponseWriter flusher writeErr) r).w.header.map
        Prod.fst).Nodup
    ∧ (∀ k ∈ [str "connection", str "keep-alive", str "proxy-authenticate",
          str "proxy-authorization", str "te", str "trailer", str "transfer-encoding",
          str "upgrade", str "Connection", str "Transfer-Encoding", str "TE"],
        IsHopByHopHeader k = true)
    ∧ IsHopByHopHeader (str "Content-Type") = false := by
  have h := (answered_header s env (newResponseWriter flusher writeErr) r q StatusCode upHeader
    upBody hq hd).1
  rw [h]
  refine ⟨?_, ?_, by decide, by decide⟩
  · intro n
    rw [Values_Set, Values_copyHeaders]
    split_ifs
    · rfl
    · rfl
  · exact keys_Set _ _ _ (keys_copyHeaders upHeader _ (by simp [newResponseWriter]))

set_option maxRecDepth 100000 in
theorem client_headers_are_forwarded_upstream_headers_witness :
    Header.Values (scenarioServer.handleChatCompletions
        (scenarioEnv (.response 200 upstreamHeaderWithRequestID
          { chunks := [scenarioResponseBody], err := GoError.EOF }))
        (newResponseWriter true (fun _ => none)) (scenarioRequest (str "Bearer abc"))).w.header
        (str "Content-Type")
      = [str "application/json"] :=
  ((client_headers_are_forwarded_upstream_headers scenarioServer
    (scenarioEnv (.response 200 upstreamHeaderWithRequestID
      { chunks := [scenarioResponseBody], err := GoError.EOF }))
    true (fun _ => none) (scenarioRequest (str "Bearer abc"))
    (scenarioServer.upstreamRequest (scenarioRequest (str "Bearer abc")) scenarioRequestBody)
    200 upstreamHeaderWithRequestID { chunks := [scenarioResponseBody], err := GoError.EOF }
    (by decide) rfl).1 (str "Content-Type")).trans (by decide)


/-! ### Oversized bodies -/

/-- A body of more than `n` bytes is read without an error, and cut to its first
`n` bytes. -/
theorem readAllLimited_truncates (n : Nat) (body : Reader) (h : n < body.chunks.flatten.length) :
    readAllLimited n body = .ok (body.chunks.flatten.take n) := by
  unfold readAllLimited
  simp only [h, true_or, if_true]

/-- The status code that the handler gives to a fresh client. -/
theorem handled_status (s : Server) (env : Env) (flusher : Bool)
    (writeErr : Nat → Option GoError) (r : Request) :
    (s.handleChatCompletions env (newResponseWriter flusher writeErr) r).w.status
      = if r.Method ≠ str "POST" then some 405
        else if BearerToken (r.Header.Get (str "Authorization")) = [] then some 401
        else match readAllLimited (8 * 2 ^ 20) r.Body with
          | .error _ => some 400
          | .ok reqBody =>
            match env.newRequestErr (s.upstreamRequest r reqBody).URL with
            | some _ => some 500
            | none =>
              match env.Do (s.upstreamRequest r reqBody) with
              | .fail _ => some 502
              | .response StatusCode _ _ => some StatusCode := by
  by_cases hm : r.Method = str "POST"
  · rw [if_neg (by simp [hm])]
    by_cases hk : BearerToken (r.Header.Get (str "Authorization")) = []
    · rw [if_pos hk]
      unfold Server.handleChatCompletions
      simp only [hm, ne_eq, not_true_eq_false, if_false, hk, if_true]
      exact httpError_status _ _ _ _
    · rw [if_neg hk]
      cases hb : readAllLimited (8 * 2 ^ 20) r.Body with
      | error e =>
        unfold Server.handleChatCompletions
        simp only [hm, ne_eq, not_true_eq_false, if_false, hk, hb]
        exact httpError_status _ _ _ _
      | ok reqBody =>
        simp only
        cases hn : env.newRequestErr (s.upstreamRequest r reqBody).URL with
        | some e =>
          unfold Server.handleChatCompletions
          simp only [hm, ne_eq, not_true_eq_false, if_false, hk, hb, hn]
          exact httpError_status _ _ _ _
        | none =>
          simp only
          have hq : (s.handleChatCompletions env (newResponseWriter flusher writeErr) r).upstream
              = [s.upstreamRequest r reqBody] := by
            rw [upstream_calls]
            simp only [hm, ne_eq, not_true_eq_false, if_false, hk, hb, hn]
          cases hd : env.Do (s.upstreamRequest r reqBody) with
          | fail e =>
            unfold Server.handleChatCompletions
            simp only [hm, ne_eq, not_true_eq_false, if_false, hk, hb, hn, hd]
            exact httpError_status _ _ _ _
          | response StatusCode upHeader upBody =>
            exact (answered_header s env _ r _ StatusCode upHeader upBody hq hd).2
  · rw [if_pos hm]
    unfold Server.handleChatCompletions
    simp only [hm, ne_eq, not_false_eq_true, if_true]
    exact httpError_status _ _ _ _

theorem oversizedBody_flatten : oversizedRequest.Body.chunks.flatten = oversizedBody := by
  show [oversizedBody].flatten = oversizedBody
  rw [List.flatten_cons, List.flatten_nil, List.append_nil]

theorem oversizedBody_length : oversizedBody.length = 8 * 2 ^ 20 + 1 :=
  List.length_replicate _ _

theorem oversizedRequest_token :
    BearerToken (oversizedRequest.Header.Get (str "Authorization")) ≠ [] := by decide

theorem oversizedRequest_read :
    readAllLimited (8 * 2 ^ 20) oversizedRequest.Body = .ok (oversizedBody.take (8 * 2 ^ 20)) := by
  rw [readAllLimited_truncates _ _ (by rw [oversizedBody_flatten, oversizedBody_length]; omega),
    oversizedBody_flatten]

/-- C13 (counterexample): a POST request with a bearer token and a body of 8 MiB
and one byte is not answered 400: the upstream is called, and its status 200
goes to the client. -/
theorem oversized_body_reaches_upstream :
    oversizedRequest.Method = str "POST"
    ∧ BearerToken (oversizedRequest.Header.Get (str "Authorization")) ≠ []
    ∧ 8 * 2 ^ 20 < oversizedRequest.Body.chunks.flatten.length
    ∧ (scenarioServer.handleChatCompletions plainEnv (newResponseWriter true (fun _ => none))
        oversizedRequest).w.status = some 200
    ∧ (scenarioServer.handleChatCompletions plainEnv (newResponseWriter true (fun _ => none))
        oversizedRequest).upstream.length = 1 := by
  refine ⟨rfl, oversizedRequest_token, ?_, ?_, ?_⟩
  · rw [oversizedBody_flatten, oversizedBody_length]; omega
  · rw [handled_status, if_neg (by simp [oversizedRequest]), if_neg oversizedRequest_token,
      oversizedRequest_read]
    rfl
  · rw [upstream_calls, if_neg (by simp [oversizedRequest]), if_neg oversizedRequest_token,
      oversizedRequest_read]
    rfl

/-- C13 (amended): a POST request with a bearer token whose body is larger than
8 MiB is not rejected for its size: the handler reads the first 8 MiB of the body
and goes on with them as with any other body, so the upstream is called with the
cut body whenever the upstream request can be built, and the client gets 500 when
it cannot, 502 when the upstream call fails, and the status of the upstream
otherwise. -/
theorem oversized_body_is_cut_to_limit (s : Server) (env : Env) (flusher : Bool)
    (writeErr : Nat → Option GoError) (r : Request)
    (hm : r.Method = str "POST")
    (hk : BearerToken (r.Header.Get (str "Authorization")) ≠ [])
    (hlen : 8 * 2 ^ 20 < r.Body.chunks.flatten.length) :
    readAllLimited (8 * 2 ^ 20) r.Body = .ok (r.Body.chunks.flatten.take (8 * 2 ^ 20))
    ∧ (s.handleChatCompletions env (newResponseWriter flusher writeErr) r).upstream
      = (match env.newRequestErr
            (s.upstreamRequest r (r.Body.chunks.flatten.take (8 * 2 ^ 20))).URL with
        | some _ => []
        | none => [s.upstreamRequest r (r.Body.chunks.flatten.take (8 * 2 ^ 20))])
    ∧ (s.handleChatCompletions env (newResponseWriter flusher writeErr) r).w.status
      = (match env.newRequestErr
            (s.upstreamRequest r (r.Body.chunks.flatten.take (8 * 2 ^ 20))).URL with
        | some _ => some 500
        | none =>
          match env.Do (s.upstreamRequest r (r.Body.chunks.flatten.take (8 * 2 ^ 20))) with
          | .fail _ => some 502
          | .response StatusCode _ _ => some StatusCode) := by
  have hread := readAllLimited_truncates (8 * 2 ^ 20) r.Body hlen
  refine ⟨hread, ?_, ?_⟩
  · rw [upstream_calls, if_neg (by simp [hm]), if_neg hk, hread]
  · rw [handled_status, if_neg (by simp [hm]), if_neg hk, hread]

theorem oversized_body_is_cut_to_limit_witness :
    (scenarioServer.handleChatCompletions (scenarioEnv (.fail (.other 1)))
        (newResponseWriter true (fun _ => none)) oversizedRequest).w.status = some 502 :=
  (oversized_body_is_cut_to_limit scenarioServer (scenarioEnv (.fail (.other 1))) true
    (fun _ => none) oversizedRequest rfl oversizedRequest_token
    (by rw [oversizedBody_flatten, oversizedBody_length]; omega)).2.2


/-! ### Token counts -/

theorem frameUsage_origin (json : JSON) (l : List Byte) (u : Usage)
    (h : frameUsage json l = some u) :
    l ≠ [] ∧ ∃ ch, decodedFrame json l = some ch ∧ ch.Usage = some u := by
  refine ⟨?_, ?_⟩
  · intro hl
    rw [hl, frameUsage_nil] at h
    cases h
  · unfold frameUsage at h
    cases hd : decodedFrame json l with
    | none => rw [hd] at h; cases h
    | some ch => rw [hd] at h; exact ⟨ch, rfl, h⟩

theorem seenUsageFrom_origin (json : JSON) (d : Option Usage) (lines : List (List Byte))
    (u : Usage) (h : seenUsageFrom json d lines = some u) :
    d = some u ∨ ∃ l ∈ lines, frameUsage json l = some u := by
  unfold seenUsageFrom at h
  cases hl : ((lines.takeWhile (fun l => !isSentinelLine l)).filterMap
      (fun l => (frameUsage json l).map some)).getLast? with
  | none => rw [hl] at h; exact Or.inl h
  | some x =>
    rw [hl] at h
    have hx : x = some u := h
    have hmem := List.mem_of_getLast?_eq_some hl
    rw [List.mem_filterMap] at hmem
    obtain ⟨l, hlmem, hfl⟩ := hmem
    right
    refine ⟨l, (List.takeWhile_sublist _).subset hlmem, ?_⟩
    cases hf : frameUsage json l with
    | none => rw [hf] at hfl; cases hfl
    | some v =>
      rw [hf] at hfl
      simp only [Option.map_some'] at hfl
      rw [hx] at hfl
      exact Option.some.inj hfl

/-- A usage that `StreamSSE` returns was decoded from a frame of the stream. -/
theorem StreamSSE_usage_origin (json : JSON) (w : ResponseWriter) (up : Reader) (u : Usage)
    (h : (StreamSSE json w up).st.usage = some u) :
    ∃ line ch, line ∈ streamLines up.chunks.flatten ∧ decodedFrame json line = some ch
      ∧ ch.Usage = some u := by
  unfold StreamSSE at h
  simp only at h
  obtain ⟨new, hrun, hpre, -⟩ := relay_run json (ReadBytes 0x0A up.chunks.flatten).2 up.err
    (ReadBytes 0x0A up.chunks.flatten).1 { w := w, model := [], usage := none, reads := [] }
  obtain ⟨-, -, -, -, -, -, hcase⟩ := hrun
  have hall : ((ReadBytes 0x0A up.chunks.flatten).1.map (fun l => (l, (none : Option GoError)))
      ++ [((ReadBytes 0x0A up.chunks.flatten).2, some up.err)]).map Prod.fst
      = (ReadBytes 0x0A up.chunks.flatten).1 ++ [(ReadBytes 0x0A up.chunks.flatten).2] := by
    simp [List.map_append, List.map_map, Function.comp_def]
  have hsub : ∀ l ∈ new.map Prod.fst, l ≠ [] → l ∈ streamLines up.chunks.flatten := by
    intro l hl hne
    have h1 : l ∈ (ReadBytes 0x0A up.chunks.flatten).1 ++ [(ReadBytes 0x0A up.chunks.flatten).2] := by
      rw [← hall]
      obtain ⟨rest, hrest⟩ := hpre
      rw [← hrest, List.map_append]
      exact List.mem_append_left _ hl
    unfold streamLines
    rcases List.mem_append.mp h1 with h2 | h2
    · exact List.mem_append_left _ h2
    · rw [List.mem_singleton] at h2
      rw [if_neg (by rw [← h2]; exact hne)]
      exact List.mem_append_right _ (by rw [h2]; simp)
  have hfin : ∀ ls : List (List Byte), (∀ l ∈ ls, l ∈ new.map Prod.fst) →
      seenUsageFrom json none ls = some u →
      ∃ line ch, line ∈ streamLines up.chunks.flatten ∧ decodedFrame json line = some ch
        ∧ ch.Usage = some u := by
    intro ls hls hu
    rcases seenUsageFrom_origin json _ _ u hu with h0 | ⟨l, hl, hfl⟩
    · cases h0
    · obtain ⟨hne, ch, hch, hus⟩ := frameUsage_origin json l u hfl
      exact ⟨l, ch, hsub l (hls l hl) hne, hch, hus⟩
  rcases hcase with ⟨e, -, -, -, -, hu⟩ | ⟨-, -, hu, -⟩
  · rw [hu] at h
    refine hfin _ ?_ h
    intro l hl
    obtain ⟨x, hx, hxl⟩ := List.mem_map.mp hl
    exact List.mem_map.mpr ⟨x, (List.dropLast_sublist _).subset hx, hxl⟩
  · rw [hu] at h
    exact hfin _ (fun l hl => hl) h

/-- The token counts of an event built with a usage, or with none. -/
theorem setUsage_counts (env : Env) (tenant appKey model : List Byte) (StatusCode : Int)
    (usage : Option Usage) :
    (usage = none
      ∧ ((newEvent env tenant appKey model StatusCode).setUsage usage).PromptTokens = 0
      ∧ ((newEvent env tenant appKey model StatusCode).setUsage usage).CompletionTokens = 0
      ∧ ((newEvent env tenant appKey model StatusCode).setUsage usage).TotalTokens = 0)
    ∨ ∃ u, usage = some u
      ∧ ((newEvent env tenant appKey model StatusCode).setUsage usage).PromptTokens
          = u.PromptTokens
      ∧ ((newEvent env tenant appKey model StatusCode).setUsage usage).CompletionTokens
          = u.CompletionTokens
      ∧ ((newEvent env tenant appKey model StatusCode).setUsage usage).TotalTokens
          = u.TotalTokens := by
  cases usage with
  | none => exact Or.inl ⟨rfl, rfl, rfl, rfl⟩
  | some u => exact Or.inr ⟨u, rfl, rfl, rfl, rfl⟩

/-- The bytes that the buffered path decodes: the first bytes of the upstream
body, at most the capture limit. -/
theorem relayBuffered_capture (s : Server) (w1 : ResponseWriter) (upBody : Reader) :
    (copyTee w1 (NewLimitedCapture s.cfg.MeteringCaptureBytes) upBody.chunks upBody.err).2.1.Bytes
        <+: upBody.chunks.flatten
    ∧ (copyTee w1 (NewLimitedCapture s.cfg.MeteringCaptureBytes) upBody.chunks
        upBody.err).2.1.Bytes.length ≤ s.cfg.MeteringCaptureBytes.toNat := by
  obtain ⟨hl0, hlt, hlb⟩ := NewLimitedCapture_limit s.cfg.MeteringCaptureBytes
  obtain ⟨n, hnle, hcap, -⟩ := copyTee_capture upBody.chunks upBody.err w1
    (NewLimitedCapture s.cfg.MeteringCaptureBytes) hl0 (by rw [hlb]; simpa using hl0)
  rw [hlb, List.nil_append, hlt] at hcap
  have hcap' : (copyTee w1 (NewLimitedCapture s.cfg.MeteringCaptureBytes) upBody.chunks
      upBody.err).2.1.Bytes
      = ((upBody.chunks.take n).flatten).take s.cfg.MeteringCaptureBytes.toNat := hcap
  rw [hcap']
  refine ⟨?_, ?_⟩
  · exact (List.take_prefix _ _).trans
      ⟨(upBody.chunks.drop n).flatten, by rw [← List.flatten_append, List.take_append_drop]⟩
  · rw [List.length_take]
    exact Nat.min_le_left _ _

/-- The events that the handler enqueues, as a function of the request. -/
theorem enqueued_events (s : Server) (env : Env) (w : ResponseWriter) (r : Request) :
    (s.handleChatCompletions env w r).enqueued
      = if r.Method ≠ str "POST" then []
        else if BearerToken (r.Header.Get (str "Authorization")) = [] then []
        else match readAllLimited (8 * 2 ^ 20) r.Body with
          | .error _ => []
          | .ok reqBody =>
            match env.newRequestErr (s.upstreamRequest r reqBody).URL with
            | some _ => []
            | none =>
              match env.Do (s.upstreamRequest r reqBody) with
              | .fail _ =>
                [newEvent env
                  (FirstNonEmpty [r.Header.Get (str "X-LLM-Tenant"),
                    r.Header.Get (str "X-Tenant"), str "default"])
                  (BearerToken (r.Header.Get (str "Authorization")))
                  (FirstNonEmpty [(decodeRequest env.json reqBody).Model, str "unknown"]) 0]
              | .response StatusCode upHeader upBody =>
                if (decodeRequest env.json reqBody).Stream then
                  [(newEvent env
                    (FirstNonEmpty [r.Header.Get (str "X-LLM-Tenant"),
                      r.Header.Get (str "X-Tenant"), str "default"])
                    (BearerToken (r.Header.Get (str "Authorization")))
                    (FirstNonEmpty [(StreamSSE env.json
                        (answeredWriter env w upHeader StatusCode) upBody).st.model,
                      (decodeRequest env.json reqBody).Model, str "unknown"])
                    StatusCode).setUsage
                    (StreamSSE env.json
                      (answeredWriter env w upHeader StatusCode) upBody).st.usage]
                else
                  [(newEvent env
                    (FirstNonEmpty [r.Header.Get (str "X-LLM-Tenant"),
                      r.Header.Get (str "X-Tenant"), str "default"])
                    (BearerToken (r.Header.Get (str "Authorization")))
                    (FirstNonEmpty [(decodeResponse env.json
                        (copyTee (answeredWriter env w upHeader StatusCode)
                          (NewLimitedCapture s.cfg.MeteringCaptureBytes) upBody.chunks
                          upBody.err).2.1.Bytes).Model,
                      (decodeRequest env.json reqBody).Model, str "unknown"])
                    StatusCode).setUsage
                    (decodeResponse env.json
                      (copyTee (answeredWriter env w upHeader StatusCode)
                        (NewLimitedCapture s.cfg.MeteringCaptureBytes) upBody.chunks
                        upBody.err).2.1.Bytes).Usage] := by
  unfold Server.handleChatCompletions
  by_cases hm : r.Method = str "POST"
  · simp only [hm, ne_eq, not_true_eq_false, if_false]
    by_cases hk : BearerToken (r.Header.Get (str "Authorization")) = []
    · simp [hk]
    · simp only [hk, if_false]
      cases hb : readAllLimited (8 * 2 ^ 20) r.Body with
      | error e => simp
      | ok reqBody =>
        simp only
        cases hn : env.newRequestErr (s.upstreamRequest r reqBody).URL with
        | some e => simp
        | none =>
          simp only
          cases hd : env.Do (s.upstreamRequest r reqBody) with
          | fail e => rfl
          | response StatusCode upHeader upBody =>
            simp only
            by_cases hs : (decodeRequest env.json reqBody).Stream = true
            · simp only [hs, if_true, Server.relayStreamed]
              rfl
            · simp only [hs, if_false, Server.relayBuffered]
              rfl
  · simp [hm]

/-- The token counts of every event of the handler: all 0, or those of a usage
that the upstream response carries. -/
theorem enqueued_counts (s : Server) (env : Env) (w : ResponseWriter) (r : Request) :
    ∀ ev ∈ (s.handleChatCompletions env w r).enqueued,
      (ev.PromptTokens = 0 ∧ ev.CompletionTokens = 0 ∧ ev.TotalTokens = 0)
      ∨ ∃ q StatusCode upHeader upBody u,
          (s.handleChatCompletions env w r).upstream = [q]
          ∧ env.Do q = .response StatusCode upHeader upBody
          ∧ ev.PromptTokens = u.PromptTokens ∧ ev.CompletionTokens = u.CompletionTokens
          ∧ ev.TotalTokens = u.TotalTokens
          ∧ (((decodeRequest env.json q.Body).Stream = false
              ∧ ∃ captured, captured ≠ [] ∧ captured <+: upBody.chunks.flatten
                ∧ captured.length ≤ s.cfg.MeteringCaptureBytes.toNat
                ∧ (env.json.response captured).1.Usage = some u)
            ∨ ((decodeRequest env.json q.Body).Stream = true
              ∧ ∃ line ch, line ∈ streamLines upBody.chunks.flatten
                ∧ decodedFrame env.json line = some ch ∧ ch.Usage = some u)) := by
  rw [enqueued_events, upstream_calls]
  by_cases hm : r.Method = str "POST"
  · simp only [hm, ne_eq, not_true_eq_false, if_false]
    by_cases hk : BearerToken (r.Header.Get (str "Authorization")) = []
    · simp [hk]
    · simp only [hk, if_false]
      cases hb : readAllLimited (8 * 2 ^ 20) r.Body with
      | error e => simp
      | ok reqBody =>
        simp only
        cases hn : env.newRequestErr (s.upstreamRequest r reqBody).URL with
        | some e => simp
        | none =>
          simp only
          cases hd : env.Do (s.upstreamRequest r reqBody) with
          | fail e =>
            intro ev hev
            simp only [List.mem_singleton] at hev
            subst hev
            exact Or.inl ⟨rfl, rfl, rfl⟩
          | response StatusCode upHeader upBody =>
            simp only
            by_cases hs : (decodeRequest env.json reqBody).Stream = true
            · simp only [hs, if_true]
              intro ev hev
              simp only [List.mem_singleton] at hev
              subst hev
              rcases setUsage_counts env _ _ _ _ _ with ⟨-, h1, h2, h3⟩ | ⟨u, hu, h1, h2, h3⟩
              · exact Or.inl ⟨h1, h2, h3⟩
              · refine Or.inr ⟨_, StatusCode, upHeader, upBody, u, rfl, hd, h1, h2, h3,
                  Or.inr ⟨hs, StreamSSE_usage_origin _ _ _ u hu⟩⟩
            · have hs2 : (decodeRequest env.json reqBody).Stream = false := by simpa using hs
              simp only [hs2, Bool.false_eq_true, if_false]
              intro ev hev
              rw [List.mem_singleton] at hev
              subst hev
              rcases setUsage_counts env _ _ _ _ _ with ⟨-, h1, h2, h3⟩ | ⟨u, hu, h1, h2, h3⟩
              · exact Or.inl ⟨h1, h2, h3⟩
              · have hcap := relayBuffered_capture s (answeredWriter env w upHeader StatusCode)
                  upBody
                refine Or.inr ⟨_, StatusCode, upHeader, upBody, u, rfl, hd, h1, h2, h3,
                  Or.inl ⟨hs2, _, ?_, hcap.1, hcap.2, ?_⟩⟩
                · intro hnil
                  rw [hnil] at hu
                  simp [decodeResponse] at hu
                · unfold decodeResponse at hu
                  split_ifs at hu
                  exact hu
  · simp [hm]

set_option maxRecDepth 100000 in
/-- C14, as stated, fails: the upstream answers a request with a body whose usage
has the counts -5, 3 and -2; the event that the handler enqueues carries these
counts, two of them negative. -/
theorem event_carries_negative_counts :
    (scenarioServer.handleChatCompletions negativeUsageEnv
        (newResponseWriter true (fun _ => none)) (scenarioRequest (str "Bearer abc"))).enqueued.map
        (fun ev => (ev.PromptTokens, ev.CompletionTokens, ev.TotalTokens))
      = [(-5, 3, -2)] := by
  decide

/-- C14, amended: every metering event that the handler emits has prompt,
completion and total token counts that are all 0, or are the three counts of one
usage object of the upstream response to that request, copied as they are: on the
buffered path the usage that decoding left in the response struct for the
captured bytes, which are first bytes of the response body, at most the capture
limit; on the streaming path the usage of a chunk decoded from a data frame of
the response body. So the counts are non-negative whenever every usage object
that the decoder gives has non-negative counts. -/
theorem event_counts_are_observed_usage (s : Server) (env : Env) (w : ResponseWriter)
    (r : Request) :
    (∀ ev ∈ (s.handleChatCompletions env w r).enqueued,
      (ev.PromptTokens = 0 ∧ ev.CompletionTokens = 0 ∧ ev.TotalTokens = 0)
      ∨ ∃ q StatusCode upHeader upBody u,
          (s.handleChatCompletions env w r).upstream = [q]
          ∧ env.Do q = .response StatusCode upHeader upBody
          ∧ ev.PromptTokens = u.PromptTokens ∧ ev.CompletionTokens = u.CompletionTokens
          ∧ ev.TotalTokens = u.TotalTokens
          ∧ (((decodeRequest env.json q.Body).Stream = false
              ∧ ∃ captured, captured ≠ [] ∧ captured <+: upBody.chunks.flatten
                ∧ captured.length ≤ s.cfg.MeteringCaptureBytes.toNat
                ∧ (env.json.response captured).1.Usage = some u)
            ∨ ((decodeRequest env.json q.Body).Stream = true
              ∧ ∃ line ch, line ∈ streamLines upBody.chunks.flatten
                ∧ decodedFrame env.json line = some ch ∧ ch.Usage = some u)))
    ∧ ((∀ b u, (env.json.response b).1.Usage = some u →
          0 ≤ u.PromptTokens ∧ 0 ≤ u.CompletionTokens ∧ 0 ≤ u.TotalTokens) →
        (∀ p ch u, env.json.chunk p = some ch → ch.Usage = some u →
          0 ≤ u.PromptTokens ∧ 0 ≤ u.CompletionTokens ∧ 0 ≤ u.TotalTokens) →
        ∀ ev ∈ (s.handleChatCompletions env w r).enqueued,
          0 ≤ ev.PromptTokens ∧ 0 ≤ ev.CompletionTokens ∧ 0 ≤ ev.TotalTokens) := by
  refine ⟨enqueued_counts s env w r, ?_⟩
  intro hresp hchunk ev hev
  rcases enqueued_counts s env w r ev hev with ⟨h1, h2, h3⟩
    | ⟨q, sc, uh, ub, u, -, -, h1, h2, h3, hsrc⟩
  · rw [h1, h2, h3]
    exact ⟨le_refl _, le_refl _, le_refl _⟩
  · rw [h1, h2, h3]
    rcases hsrc with ⟨-, captured, -, -, -, hu⟩ | ⟨-, line, ch, -, hch, hu⟩
    · exact hresp captured u hu
    · unfold decodedFrame at hch
      cases hp : dataPayload line with
      | none => rw [hp] at hch; cases hch
      | some p =>
        rw [hp] at hch
        simp only at hch
        split_ifs at hch
        exact hchunk p ch u hch hu

/-! ### The relay up to the sentinel line -/

/-- A line followed by more bytes: `ReadBytes` returns the line first. -/
theorem ReadBytes_line (d : Byte) (x rest : List Byte) (hx : d ∉ x) :
    ReadBytes d (x ++ d :: rest)
      = ((x ++ [d]) :: (ReadBytes d rest).1, (ReadBytes d rest).2) := by
  induction x with
  | nil => simp [ReadBytes]
  | cons b bs ih =>
    have hb : b ≠ d := fun h => hx (by simp [h])
    have hbs : d ∉ bs := fun h => hx (List.mem_cons_of_mem _ h)
    rw [List.cons_append, ReadBytes]
    simp only [hb, if_false]
    rw [ih hbs]
    rfl

/-- Bytes without the delimiter are the last piece. -/
theorem ReadBytes_rest (d : Byte) (t : List Byte) (ht : d ∉ t) : ReadBytes d t = ([], t) := by
  induction t with
  | nil => rfl
  | cons b bs ih =>
    have hb : b ≠ d := fun h => ht (by simp [h])
    have hbs : d ∉ bs := fun h => ht (List.mem_cons_of_mem _ h)
    rw [ReadBytes]
    simp only [hb, if_false]
    rw [ih hbs]

/-- Lines written one after the other are read back as they are. -/
theorem ReadBytes_of_lines (d : Byte) (t : List Byte) (ht : d ∉ t) (ls : List (List Byte))
    (hls : ∀ l ∈ ls, ∃ x, l = x ++ [d] ∧ d ∉ x) : ReadBytes d (ls.flatten ++ t) = (ls, t) := by
  induction ls with
  | nil => simpa using ReadBytes_rest d t ht
  | cons l ls ih =>
    obtain ⟨x, hl, hx⟩ := hls l (List.mem_cons_self _ _)
    have ih2 := ih (fun l2 h2 => hls l2 (List.mem_cons_of_mem _ h2))
    rw [List.flatten_cons, hl, List.append_assoc, List.append_assoc, List.singleton_append,
      ReadBytes_line d x _ hx, ih2]

/-- What `ReadBytes` returns: lines that end in the delimiter and have it nowhere
else, a last piece without the delimiter, and together they are the stream. -/
theorem ReadBytes_spec (d : Byte) (data : List Byte) :
    (∀ l ∈ (ReadBytes d data).1, ∃ x, l = x ++ [d] ∧ d ∉ x)
    ∧ d ∉ (ReadBytes d data).2
    ∧ (ReadBytes d data).1.flatten ++ (ReadBytes d data).2 = data := by
  induction data with
  | nil => simp [ReadBytes]
  | cons b bs ih =>
    obtain ⟨h1, h2, h3⟩ := ih
    rw [ReadBytes]
    by_cases hb : b = d
    · simp only [hb, if_true]
      refine ⟨?_, h2, ?_⟩
      · intro l hl
        rcases List.mem_cons.mp hl with h | h
        · exact ⟨[], by simp [h], by simp⟩
        · exact h1 l h
      · rw [List.flatten_cons, List.append_assoc, h3]; rfl
    · simp only [hb, if_false]
      cases hr : (ReadBytes d bs).1 with
      | nil =>
        rw [hr] at h3
        simp only
        refine ⟨by simp, ?_, ?_⟩
        · intro hmem
          rcases List.mem_cons.mp hmem with h | h
          · exact hb h.symm
          · exact h2 h
        · simpa using h3
      | cons l ls =>
        rw [hr] at h1 h3
        simp only
        refine ⟨?_, h2, ?_⟩
        · intro l2 hl2
          rcases List.mem_cons.mp hl2 with h | h
          · obtain ⟨x, hx, hdx⟩ := h1 l (List.mem_cons_self _ _)
            refine ⟨b :: x, by rw [h, hx]; rfl, ?_⟩
            intro hmem
            rcases List.mem_cons.mp hmem with h | h
            · exact hb h.symm
            · exact hdx h
          · exact h1 l2 (List.mem_cons_of_mem _ h)
        · rw [List.flatten_cons, List.append_assoc, List.cons_append, ← List.append_assoc,
            ← List.flatten_cons, h3]


theorem isSentinelLine_ne_nil (s : List Byte) (hs : isSentinelLine s = true) : s ≠ [] := by
  intro h
  rw [h, isSentinelLine_nil] at hs
  cases hs

/-- A run of the loop whose writes succeed, over lines with a sentinel line among
them or as the last piece: the lines before the first sentinel line and that
line are written, no error is returned, and the model and the usage are those
seen before the sentinel line. -/
theorem loop_to_sentinel (json : JSON) (last : List Byte) (err : GoError) (s : List Byte)
    (hs : isSentinelLine s = true) (pre : List (List Byte)) :
    ∀ (st : SSEState) (lines : List (List Byte)), (∀ k, st.w.writeErr k = none) →
      (∀ l ∈ pre, isSentinelLine l = false) →
      ((∃ post, lines = pre ++ s :: post) ∨ (lines = pre ∧ last = s)) →
      (StreamSSE.loop json st lines last err).err = none
      ∧ (StreamSSE.loop json st lines last err).st.w.body
          = st.w.body ++ pre.filter (fun l => l ≠ []) ++ [s]
      ∧ (StreamSSE.loop json st lines last err).st.model = seenModelFrom json st.model pre
      ∧ (StreamSSE.loop json st lines last err).st.usage = seenUsageFrom json st.usage pre := by
  have hne := isSentinelLine_ne_nil s hs
  induction pre with
  | nil =>
    intro st lines hw _ hl
    rcases hl with ⟨post, hl⟩ | ⟨hl, hlast⟩
    · rw [hl, List.nil_append, loop_cons,
        lineBlock_sentinel json { st with reads := st.reads ++ [(s, none)] } s hne (hw _) hs]
      simp only [wrote_body, wrote_model, wrote_usage, seenModelFrom_nil, seenUsageFrom_nil]
      simp
    · rw [hl, hlast, loop_nil,
        lineBlock_sentinel json { st with reads := st.reads ++ [(s, some err)] } s hne (hw _) hs]
      simp only [wrote_body, wrote_model, wrote_usage, seenModelFrom_nil, seenUsageFrom_nil]
      simp
  | cons l pre ih =>
    intro st lines hw hpre hl
    have hsl : isSentinelLine l = false := hpre l (List.mem_cons_self _ _)
    have hpre2 : ∀ l2 ∈ pre, isSentinelLine l2 = false :=
      fun l2 h2 => hpre l2 (List.mem_cons_of_mem _ h2)
    obtain ⟨rest, hrest, hl2⟩ : ∃ rest, lines = l :: rest
        ∧ ((∃ post, rest = pre ++ s :: post) ∨ (rest = pre ∧ last = s)) := by
      rcases hl with ⟨post, hl⟩ | ⟨hl, hlast⟩
      · exact ⟨pre ++ s :: post, by rw [hl]; rfl, Or.inl ⟨post, rfl⟩⟩
      · exact ⟨pre, hl, Or.inr ⟨rfl, hlast⟩⟩
    rw [hrest, loop_cons, seenModelFrom_cons json st.model l pre hsl,
      seenUsageFrom_cons json st.usage l pre hsl]
    by_cases hln : l = []
    · subst hln
      rw [lineBlock_nil]
      simp only
      have h := ih { st with reads := st.reads ++ [([], none)] } rest hw hpre2 hl2
      rw [frameModel_nil, frameUsage_nil]
      simpa using h
    · rw [lineBlock_next json { st with reads := st.reads ++ [(l, none)] } l hln (hw _) hsl]
      simp only
      have h := ih (({ st with reads := st.reads ++ [(l, none)] }.wrote l).saw json l) rest
        (by intro k; rw [saw_w, wrote_writeErr]; exact hw k) hpre2 hl2
      rw [saw_w, wrote_body, saw_model, wrote_model, saw_usage, wrote_usage] at h
      obtain ⟨h1, h2, h3, h4⟩ := h
      refine ⟨h1, ?_, h3, h4⟩
      rw [h2]
      simp [List.filter_cons, hln]

theorem streamLines_flatten (data : List Byte) : (streamLines data).flatten = data := by
  have h := (ReadBytes_spec 0x0A data).2.2
  unfold streamLines
  by_cases ht : (ReadBytes 0x0A data).2 = []
  · rw [if_pos ht, List.append_nil]
    rw [ht, List.append_nil] at h
    exact h
  · rw [if_neg ht, List.flatten_append]
    simpa using h

theorem streamLines_ne_nil (data : List Byte) : ∀ l ∈ streamLines data, l ≠ [] := by
  intro l hl
  unfold streamLines at hl
  rcases List.mem_append.mp hl with h | h
  · obtain ⟨x, hx, _⟩ := (ReadBytes_spec 0x0A data).1 l h
    rw [hx]; simp
  · by_cases ht : (ReadBytes 0x0A data).2 = []
    · rw [if_pos ht] at h; cases h
    · rw [if_neg ht, List.mem_singleton] at h
      rw [h]; exact ht

/-- Where the first sentinel line of a stream is: among the lines that end in a
newline, or it is the piece after the last newline. -/
theorem sentinel_split (A : List (List Byte)) (t : List Byte) (pre : List (List Byte))
    (s : List Byte) (post : List (List Byte))
    (h : pre ++ s :: post = A ++ (if t = [] then [] else [t])) :
    (∃ post1, A = pre ++ s :: post1) ∨ (A = pre ∧ t = s ∧ post = []) := by
  by_cases ht : t = []
  · rw [if_pos ht, List.append_nil] at h
    exact Or.inl ⟨post, h.symm⟩
  · rw [if_neg ht] at h
    rcases List.eq_nil_or_concat post with hp | ⟨post1, x, hp⟩
    · subst hp
      have h2 := List.append_inj' h rfl
      exact Or.inr ⟨h2.1.symm, (List.cons.inj h2.2).1.symm, rfl⟩
    · rw [hp] at h
      have h3 : (pre ++ s :: post1) ++ [x] = A ++ [t] := by
        rw [← h]; simp
      exact Or.inl ⟨post1, (List.append_inj' h3 rfl).1.symm⟩

/-- The first sentinel line of a list of lines that has one. -/
theorem first_sentinel (L : List (List Byte)) (hs : ∃ l ∈ L, isSentinelLine l = true) :
    ∃ s post, L = beforeSentinel L ++ s :: post ∧ isSentinelLine s = true
      ∧ throughSentinel L = beforeSentinel L ++ [s]
      ∧ ∀ l ∈ beforeSentinel L, isSentinelLine l = false := by
  have hsplit : L = beforeSentinel L ++ L.dropWhile (fun l => !isSentinelLine l) :=
    (List.takeWhile_append_dropWhile _ L).symm
  have hbefore : ∀ l ∈ beforeSentinel L, isSentinelLine l = false := by
    intro l hl
    have := List.mem_takeWhile_imp hl
    simpa using this
  cases hd : L.dropWhile (fun l => !isSentinelLine l) with
  | nil =>
    rw [List.dropWhile_eq_nil_iff] at hd
    obtain ⟨l, hl, hsl⟩ := hs
    have := hd l hl
    rw [hsl] at this
    cases this
  | cons s post =>
    have hhead := List.head_dropWhile_not (fun l => !isSentinelLine l) L
      (by rw [hd]; simp)
    simp only [hd, List.head_cons, Bool.not_eq_true, Bool.not_eq_false'] at hhead
    refine ⟨s, post, ?_, hhead, ?_, hbefore⟩
    · rw [← hd]; exact hsplit
    · unfold throughSentinel
      rw [hd]; rfl

/-- The relay of a stream that has a sentinel line, to a client whose writes
succeed. -/
theorem StreamSSE_to_sentinel (json : JSON) (w : ResponseWriter) (upstream : Reader)
    (hw : ∀ k, w.writeErr k = none) (pre : List (List Byte)) (s : List Byte)
    (post : List (List Byte)) (hL : streamLines upstream.chunks.flatten = pre ++ s :: post)
    (hpre : ∀ l ∈ pre, isSentinelLine l = false) (hs : isSentinelLine s = true) :
    (StreamSSE json w upstream).err = none
    ∧ (StreamSSE json w upstream).st.w.body = w.body ++ (pre ++ [s])
    ∧ (StreamSSE json w upstream).st.model = seenModelFrom json [] pre
    ∧ (StreamSSE json w upstream).st.usage = seenUsageFrom json none pre := by
  have hsp := sentinel_split (ReadBytes 0x0A upstream.chunks.flatten).1
    (ReadBytes 0x0A upstream.chunks.flatten).2 pre s post hL.symm
  have hcase : (∃ post1, (ReadBytes 0x0A upstream.chunks.flatten).1 = pre ++ s :: post1)
      ∨ ((ReadBytes 0x0A upstream.chunks.flatten).1 = pre
        ∧ (ReadBytes 0x0A upstream.chunks.flatten).2 = s) := by
    rcases hsp with h | ⟨h1, h2, _⟩
    · exact Or.inl h
    · exact Or.inr ⟨h1, h2⟩
  have h := loop_to_sentinel json (ReadBytes 0x0A upstream.chunks.flatten).2 upstream.err s hs pre
    { w := w, model := [], usage := none, reads := [] }
    (ReadBytes 0x0A upstream.chunks.flatten).1 hw hpre hcase
  have hfilter : pre.filter (fun l => l ≠ []) = pre := by
    rw [List.filter_eq_self]
    intro l hl
    have : l ∈ streamLines upstream.chunks.flatten := by rw [hL]; simp [hl]
    simpa using streamLines_ne_nil _ l this
  rw [hfilter] at h
  obtain ⟨h1, h2, h3, h4⟩ := h
  exact ⟨h1, by rw [← List.append_assoc]; exact h2, h3, h4⟩

/-- The lines of a stream up to its first sentinel line, sent alone, are read
back as these lines. -/
theorem streamLines_through (data : List Byte) (pre : List (List Byte)) (s : List Byte)
    (post : List (List Byte)) (hL : streamLines data = pre ++ s :: post) :
    streamLines (pre ++ [s]).flatten = pre ++ [s] := by
  rcases sentinel_split (ReadBytes 0x0A data).1 (ReadBytes 0x0A data).2 pre s post hL.symm with
    ⟨post1, h⟩ | ⟨h1, h2, h3⟩
  · have hlines : ∀ l ∈ pre ++ [s], ∃ x, l = x ++ [0x0A] ∧ (0x0A : Byte) ∉ x := by
      intro l hl
      apply (ReadBytes_spec 0x0A data).1 l
      rw [h]
      rcases List.mem_append.mp hl with h4 | h4
      · simp [h4]
      · rw [List.mem_singleton] at h4; simp [h4]
    have hr := ReadBytes_of_lines 0x0A [] (by simp) (pre ++ [s]) hlines
    rw [List.append_nil] at hr
    unfold streamLines
    rw [hr]
    simp
  · have hd : (pre ++ [s]).flatten = data := by
      rw [← streamLines_flatten data, hL, h3]
    rw [hd, hL, h3]

/-- C19: for every upstream body that contains a sentinel line and a client whose
writes succeed, `StreamSSE` writes exactly the lines of the body up to and
including the first sentinel line, which are the first bytes of the body, and
nothing after; it returns a nil error; and it returns the same model and usage
as it does on these first bytes alone, of which it writes all. -/
theorem StreamSSE_stops_at_first_sentinel (json : JSON) (w : ResponseWriter) (upstream : Reader)
    (hw : ∀ k, w.writeErr k = none)
    (hs : ∃ l ∈ streamLines upstream.chunks.flatten, isSentinelLine l = true) :
    (StreamSSE json w upstream).st.w.body
      = w.body ++ throughSentinel (streamLines upstream.chunks.flatten)
    ∧ (∃ s, throughSentinel (streamLines upstream.chunks.flatten)
          = beforeSentinel (streamLines upstream.chunks.flatten) ++ [s]
        ∧ isSentinelLine s = true)
    ∧ (throughSentinel (streamLines upstream.chunks.flatten)).flatten <+: upstream.chunks.flatten
    ∧ (StreamSSE json w upstream).err = none
    ∧ ∀ (w2 : ResponseWriter) (alone : Reader), (∀ k, w2.writeErr k = none) →
        alone.chunks.flatten = (throughSentinel (streamLines upstream.chunks.flatten)).flatten →
        (StreamSSE json w2 alone).st.model = (StreamSSE json w upstream).st.model
        ∧ (StreamSSE json w2 alone).st.usage = (StreamSSE json w upstream).st.usage
        ∧ (StreamSSE json w2 alone).st.w.body
          = w2.body ++ throughSentinel (streamLines upstream.chunks.flatten)
        ∧ (StreamSSE json w2 alone).err = none := by
  obtain ⟨s, post, hL, hsent, hthrough, hbefore⟩ := first_sentinel _ hs
  have hrun := StreamSSE_to_sentinel json w upstream hw _ s post hL hbefore hsent
  rw [hthrough]
  refine ⟨hrun.2.1, ⟨s, rfl, hsent⟩, ?_, hrun.1, ?_⟩
  · refine ⟨post.flatten, ?_⟩
    rw [← List.flatten_append, List.append_assoc, List.singleton_append, ← hL,
      streamLines_flatten]
  · intro w2 alone hw2 halone
    have hL2 : streamLines alone.chunks.flatten
        = beforeSentinel (streamLines upstream.chunks.flatten) ++ s :: [] := by
      rw [halone]
      exact streamLines_through _ _ s post hL
    have hrun2 := StreamSSE_to_sentinel json w2 alone hw2 _ s [] hL2 hbefore hsent
    exact ⟨hrun2.2.2.1.trans hrun.2.2.1.symm, hrun2.2.2.2.trans hrun.2.2.2.symm, hrun2.2.1,
      hrun2.1⟩

set_option maxRecDepth 100000 in
theorem StreamSSE_stops_at_first_sentinel_witness :
    (∃ l ∈ streamLines (str "data: [DONE]\ndata: more\n"), isSentinelLine l = true)
    ∧ (StreamSSE rejectJSON (newResponseWriter true (fun _ => none))
        { chunks := [str "data: [DONE]\ndata: more\n"], err := GoError.EOF }).st.w.body
      = [str "data: [DONE]\n"] :=
  ⟨⟨str "data: [DONE]\n", by decide, by decide⟩,
   ((StreamSSE_stops_at_first_sentinel rejectJSON (newResponseWriter true (fun _ => none))
      { chunks := [str "data: [DONE]\ndata: more\n"], err := GoError.EOF } (fun _ => rfl)
      ⟨str "data: [DONE]\n", by decide, by decide⟩).1).trans (by decide)⟩


/-! ### White space and the bearer token -/

theorem leadingRune_succ (runes : List (List Byte)) (s : List Byte) (k : Nat)
    (h : leadingRune runes s = k + 1) : ∃ ρ ∈ runes, ρ <+: s ∧ ρ.length = k + 1 := by
  unfold leadingRune at h
  cases hf : runes.find? (fun r => r.isPrefixOf s) with
  | none => rw [hf] at h; cases h
  | some ρ =>
    rw [hf] at h
    refine ⟨ρ, List.mem_of_find?_eq_some hf, ?_, h⟩
    have hp0 : ρ.isPrefixOf s = true :=
      @List.find?_some _ (fun r : List Byte => r.isPrefixOf s) ρ runes hf
    exact List.isPrefixOf_iff_prefix.mp hp0

theorem leadingRune_zero (runes : List (List Byte)) (hne : ∀ ρ ∈ runes, ρ ≠ []) (s : List Byte) :
    leadingRune runes s = 0 ↔ ∀ ρ ∈ runes, ¬ ρ <+: s := by
  unfold leadingRune
  cases hf : runes.find? (fun r => r.isPrefixOf s) with
  | none =>
    simp only [true_iff]
    intro ρ hρ hp
    have := List.find?_eq_none.mp hf ρ hρ
    exact this (List.isPrefixOf_iff_prefix.mpr hp)
  | some ρ =>
    have hmem := List.mem_of_find?_eq_some hf
    have hp0 : ρ.isPrefixOf s = true :=
      @List.find?_some _ (fun r : List Byte => r.isPrefixOf s) ρ runes hf
    have hp := List.isPrefixOf_iff_prefix.mp hp0
    constructor
    · intro h0
      exact absurd (List.length_eq_zero.mp h0) (hne ρ hmem)
    · intro hall
      exact absurd hp (hall ρ hmem)

theorem dropRunes_suffix (runes : List (List Byte)) (s : List Byte) :
    ∀ k, dropRunes runes k s <:+ s := by
  induction s with
  | nil => intro k; cases k <;> simp [dropRunes]
  | cons b bs ih =>
    intro k
    cases k with
    | succ k =>
      rw [dropRunes]
      exact (ih k).trans (List.suffix_cons b bs)
    | zero =>
      rw [dropRunes]
      split
      · exact List.suffix_refl _
      · exact (ih _).trans (List.suffix_cons b bs)

theorem dropRunes_stable (runes : List (List Byte)) (hne : ∀ ρ ∈ runes, ρ ≠ [])
    (s : List Byte) : ∀ k, leadingRune runes (dropRunes runes k s) = 0 := by
  induction s with
  | nil =>
    intro k
    have : dropRunes runes k [] = [] := by cases k <;> simp [dropRunes]
    rw [this, leadingRune_zero runes hne]
    intro ρ hρ hp
    exact hne ρ hρ (List.prefix_nil.mp hp)
  | cons b bs ih =>
    intro k
    cases k with
    | succ k => rw [dropRunes]; exact ih k
    | zero =>
      rw [dropRunes]
      split
      · rename_i h0; exact h0
      · exact ih _

theorem dropRunes_of_zero (runes : List (List Byte)) (s : List Byte)
    (h : leadingRune runes s = 0) : dropRunes runes 0 s = s := by
  cases s with
  | nil => rfl
  | cons b bs => rw [dropRunes, h]

theorem dropRunes_drop (runes : List (List Byte)) (s : List Byte) :
    ∀ k, k ≤ s.length → dropRunes runes k s = dropRunes runes 0 (s.drop k) := by
  induction s with
  | nil => intro k hk; cases k <;> simp [dropRunes]
  | cons b bs ih =>
    intro k hk
    cases k with
    | zero => rfl
    | succ k =>
      rw [dropRunes, List.drop_succ_cons]
      exact ih k (by simpa using hk)

/-- A string that is made of runes of the list only, and is not empty, ends with
one of them. -/
theorem dropRunes_nil (runes : List (List Byte)) : ∀ (n : Nat) (s : List Byte), s.length ≤ n →
    s ≠ [] → dropRunes runes 0 s = [] → ∃ ρ ∈ runes, ρ <:+ s := by
  intro n
  induction n with
  | zero =>
    intro s hn hs _
    exact absurd (List.length_eq_zero.mp (Nat.le_zero.mp hn)) hs
  | succ n ih =>
    intro s hn hs hd
    cases s with
    | nil => exact absurd rfl hs
    | cons b bs =>
      cases hl : leadingRune runes (b :: bs) with
      | zero =>
        rw [dropRunes_of_zero runes _ hl] at hd
        cases hd
      | succ k =>
        obtain ⟨ρ, hρ, hp, hlen⟩ := leadingRune_succ runes _ k hl
        rw [dropRunes, hl] at hd
        simp only at hd
        have hk : k ≤ bs.length := by
          have := hp.length_le
          simp only [List.length_cons] at this
          omega
        rw [dropRunes_drop runes bs k hk] at hd
        obtain ⟨t, ht⟩ := hp
        have hdrop : bs.drop k = t := by
          have h1 : (b :: bs).drop (k + 1) = t := by
            rw [← ht, ← hlen, List.drop_left]
          simpa using h1
        rw [hdrop] at hd
        by_cases htn : t = []
        · refine ⟨ρ, hρ, ?_⟩
          rw [← ht, htn, List.append_nil]
        · have htl : t.length ≤ n := by
            have h2 : (b :: bs).length = ρ.length + t.length := by
              rw [← ht, List.length_append]
            simp only [List.length_cons] at h2 hn
            omega
          obtain ⟨ρ2, hρ2, hs2⟩ := ih t htl htn hd
          refine ⟨ρ2, hρ2, ?_⟩
          rw [← ht]
          exact hs2.trans (List.suffix_append ρ t)

theorem spaceRunes_ne_nil : ∀ ρ ∈ spaceRunes, ρ ≠ [] := by decide

theorem spaceRunes_reverse_ne_nil : ∀ ρ ∈ spaceRunes.map List.reverse, ρ ≠ [] := by decide

/-- A trimmed string is the start of the string without its leading white space,
and neither starts nor ends with a white-space rune. -/
theorem TrimSpace_spec (s : List Byte) :
    TrimSpace s <+: dropRunes spaceRunes 0 s
    ∧ (∀ ρ ∈ spaceRunes, ¬ ρ <:+ TrimSpace s)
    ∧ (∀ ρ ∈ spaceRunes, ¬ ρ <+: TrimSpace s) := by
  have hsuf := dropRunes_suffix (spaceRunes.map List.reverse) (dropRunes spaceRunes 0 s).reverse 0
  have hpre : TrimSpace s <+: dropRunes spaceRunes 0 s := by
    unfold TrimSpace
    rw [← List.reverse_suffix, List.reverse_reverse]
    exact hsuf
  refine ⟨hpre, ?_, ?_⟩
  · intro ρ hρ hs
    have h0 := dropRunes_stable (spaceRunes.map List.reverse) spaceRunes_reverse_ne_nil
      (dropRunes spaceRunes 0 s).reverse 0
    rw [leadingRune_zero _ spaceRunes_reverse_ne_nil] at h0
    apply h0 ρ.reverse (List.mem_map.mpr ⟨ρ, hρ, rfl⟩)
    rw [← List.reverse_suffix, List.reverse_reverse]
    have : (dropRunes (spaceRunes.map List.reverse) 0 (dropRunes spaceRunes 0 s).reverse).reverse
        = TrimSpace s := rfl
    rw [this]
    exact hs
  · intro ρ hρ hp
    have h0 := dropRunes_stable spaceRunes spaceRunes_ne_nil s 0
    rw [leadingRune_zero _ spaceRunes_ne_nil] at h0
    exact h0 ρ hρ (hp.trans hpre)

theorem SplitN2_at_space (s r : List Byte) (hs : (0x20 : Byte) ∉ s) :
    SplitN2 (s ++ 0x20 :: r) 0x20 = [s, r] := by
  have h : (s ++ 0x20 :: r).span (fun b => b != 0x20) = (s, 0x20 :: r) := by
    induction s with
    | nil => simp [List.span, List.span.loop]
    | cons b bs ih =>
      have hb : b ≠ 0x20 := fun h => hs (by simp [h])
      have hbs : (0x20 : Byte) ∉ bs := fun h => hs (List.mem_cons_of_mem _ h)
      have ih2 := ih hbs
      rw [List.span_eq_take_drop] at ih2 ⊢
      have hb2 : (b != 0x20) = true := by simpa using hb
      simp only [List.cons_append, List.takeWhile_cons, List.dropWhile_cons, hb2, if_true]
      rw [(Prod.mk.inj ih2).1, (Prod.mk.inj ih2).2]
  unfold SplitN2
  rw [h]

theorem SplitN2_no_space (a : List Byte) (ha : (0x20 : Byte) ∉ a) : SplitN2 a 0x20 = [a] := by
  have h : a.span (fun b => b != 0x20) = (a, []) := by
    rw [List.span_eq_take_drop]
    have h1 : a.takeWhile (fun b => b != 0x20) = a := by
      rw [List.takeWhile_eq_self_iff]
      intro x hx
      have : x ≠ 0x20 := fun h => ha (h ▸ hx)
      simpa using this
    have h2 : a.dropWhile (fun b => b != 0x20) = [] := by
      rw [List.dropWhile_eq_nil_iff]
      intro x hx
      have : x ≠ 0x20 := fun h => ha (h ▸ hx)
      simpa using this
    rw [h1, h2]
  unfold SplitN2
  rw [h]

/-- What follows a space inside a trimmed string is not blank. -/
theorem TrimSpace_after_space (h s r : List Byte) (ha : TrimSpace h = s ++ 0x20 :: r) :
    TrimSpace r ≠ [] ∧ TrimSpace r = dropRunes spaceRunes 0 r := by
  have hsuf : ∀ ρ ∈ spaceRunes, ¬ ρ <:+ TrimSpace h := (TrimSpace_spec h).2.1
  have hra : r <:+ TrimSpace h := by
    rw [ha]
    exact ⟨s ++ [0x20], by simp⟩
  have hr : r ≠ [] := by
    intro hr
    apply hsuf [0x20] (by decide)
    rw [ha, hr]
    exact ⟨s, rfl⟩
  have hL : dropRunes spaceRunes 0 r ≠ [] := by
    intro hL
    obtain ⟨ρ, hρ, hs2⟩ := dropRunes_nil spaceRunes r.length r (le_refl _) hr hL
    exact hsuf ρ hρ (hs2.trans hra)
  have hLa : dropRunes spaceRunes 0 r <:+ TrimSpace h :=
    (dropRunes_suffix spaceRunes r 0).trans hra
  have h0 : leadingRune (spaceRunes.map List.reverse) (dropRunes spaceRunes 0 r).reverse = 0 := by
    rw [leadingRune_zero _ spaceRunes_reverse_ne_nil]
    intro ρ1 hρ1 hp
    obtain ⟨ρ, hρ, hrev⟩ := List.mem_map.mp hρ1
    apply hsuf ρ hρ
    rw [← hrev, List.reverse_prefix] at hp
    exact hp.trans hLa
  have heq : TrimSpace r = dropRunes spaceRunes 0 r := by
    unfold TrimSpace
    rw [dropRunes_of_zero _ _ h0, List.reverse_reverse]
  exact ⟨by rw [heq]; exact hL, heq⟩

/-- A rune that starts a string, but not its first part, holds the first byte of
the second part after its own first byte. -/
theorem prefix_append_overlap (ρ : List Byte) : ∀ (u X : List Byte), u ≠ [] → ρ <+: u ++ X →
    ¬ ρ <+: u → ∃ x, X.head? = some x ∧ x ∈ ρ.tail := by
  induction ρ with
  | nil => intro u X _ _ hn; exact absurd (List.nil_prefix) hn
  | cons a ρ1 ih =>
    intro u X hu hp hn
    cases u with
    | nil => exact absurd rfl hu
    | cons b u1 =>
      rw [List.cons_append, List.cons_prefix_cons] at hp
      rw [List.cons_prefix_cons] at hn
      have hn1 : ¬ ρ1 <+: u1 := fun h => hn ⟨hp.1, h⟩
      by_cases hu1 : u1 = []
      · subst hu1
        rw [List.nil_append] at hp
        cases ρ1 with
        | nil => exact absurd (List.nil_prefix) hn1
        | cons c ρ2 =>
          cases X with
          | nil => exact absurd hp.2 (by simp)
          | cons x X1 =>
            rw [List.cons_prefix_cons] at hp
            exact ⟨x, rfl, by simp [hp.2.1]⟩
      · obtain ⟨x, hx, hmem⟩ := ih u1 X hu1 hp.2 hn1
        exact ⟨x, hx, List.mem_of_mem_tail hmem⟩

/-- A string without leading or trailing white space stays as it is after the
word `Bearer` and a space. -/
theorem TrimSpace_Bearer (t : List Byte) (ht : t ≠ []) (hfix : TrimSpace t = t) :
    TrimSpace (str "Bearer " ++ t) = str "Bearer " ++ t := by
  have hsuf : ∀ ρ ∈ spaceRunes, ¬ ρ <:+ t := by
    rw [← hfix]
    exact (TrimSpace_spec t).2.1
  have hfront : dropRunes spaceRunes 0 (str "Bearer " ++ t) = str "Bearer " ++ t := by
    apply dropRunes_of_zero
    rw [leadingRune_zero _ spaceRunes_ne_nil]
    intro ρ hρ hp
    have hh : ρ.head? = some 0x42 := by
      obtain ⟨rest, hrest⟩ := hp
      have : str "Bearer " ++ t = 0x42 :: (str "earer " ++ t) := rfl
      rw [this] at hrest
      cases ρ with
      | nil => exact absurd rfl (spaceRunes_ne_nil [] hρ)
      | cons c cs =>
        rw [List.cons_append] at hrest
        rw [(List.cons.inj hrest).1]
        rfl
    have key : ∀ ρ ∈ spaceRunes, ρ.head? ≠ some 0x42 := by decide
    exact key ρ hρ hh
  unfold TrimSpace
  rw [hfront, dropRunes_of_zero, List.reverse_reverse]
  rw [leadingRune_zero _ spaceRunes_reverse_ne_nil]
  intro ρ1 hρ1 hp
  obtain ⟨ρ, hρ, hrev⟩ := List.mem_map.mp hρ1
  rw [List.reverse_append] at hp
  by_cases hpt : ρ1 <+: t.reverse
  · apply hsuf ρ hρ
    rw [← hrev, List.reverse_prefix] at hpt
    exact hpt
  · obtain ⟨x, hx, hmem⟩ := prefix_append_overlap ρ1 t.reverse (str "Bearer ").reverse
      (by simpa using ht) hp hpt
    have hx2 : x = 0x20 := by
      have : (str "Bearer ").reverse.head? = some 0x20 := by decide
      rw [this] at hx
      exact (Option.some.inj hx).symm
    rw [hx2] at hmem
    have key : ∀ ρ2 ∈ spaceRunes.map List.reverse, (0x20 : Byte) ∉ ρ2.tail := by decide
    exact key ρ1 hρ1 hmem

set_option maxRecDepth 100000 in
/-- C15: for every `Authorization` header value h: if h, trimmed of white space,
is s, a space and r, where s has no space and equals `Bearer` up to letter case,
then `BearerToken h` is r trimmed of white space, and it is not empty; in every
other case `BearerToken h` is the empty string. So `BearerToken ("Bearer " ++ t)`
is t for every non-empty t without leading or trailing white space, as in the
tests of util_test.go. -/
theorem BearerToken_characterised (h : List Byte) :
    (∀ s r, TrimSpace h = s ++ 0x20 :: r → (0x20 : Byte) ∉ s →
        EqualFold s (str "Bearer") = true →
        BearerToken h = TrimSpace r ∧ BearerToken h ≠ [])
    ∧ ((¬ ∃ s r, TrimSpace h = s ++ 0x20 :: r ∧ (0x20 : Byte) ∉ s
          ∧ EqualFold s (str "Bearer") = true) →
        BearerToken h = [])
    ∧ (∀ t, t ≠ [] → TrimSpace t = t → BearerToken (str "Bearer " ++ t) = t)
    ∧ BearerToken (str "Bearer abc") = str "abc"
    ∧ BearerToken (str "Basic abc") = []
    ∧ BearerToken [] = []
    ∧ BearerToken (str "  bEARER \t abc def \r\n") = str "abc def" := by
  have hmain : ∀ a s r : List Byte, TrimSpace a = s ++ 0x20 :: r → (0x20 : Byte) ∉ s →
      EqualFold s (str "Bearer") = true →
      BearerToken a = TrimSpace r ∧ BearerToken a ≠ [] := by
    intro a s r ha hs he
    have hne := (TrimSpace_after_space a s r ha).1
    have hb : BearerToken a = TrimSpace r := by
      unfold BearerToken
      simp only [ha, SplitN2_at_space s r hs]
      simp [he]
    exact ⟨hb, by rw [hb]; exact hne⟩
  refine ⟨hmain h, ?_, ?_, by decide, by decide, by decide, by decide⟩
  · intro hno
    unfold BearerToken
    simp only
    by_cases h1 : TrimSpace h = []
    · rw [if_pos h1]
    · rw [if_neg h1]
      by_cases hsp : (0x20 : Byte) ∈ TrimSpace h
      · obtain ⟨s, r, hsr, hs⟩ := List.eq_append_cons_of_mem hsp
        rw [hsr, SplitN2_at_space s r hs]
        have he : EqualFold s (str "Bearer") = false := by
          cases hc : EqualFold s (str "Bearer") with
          | false => rfl
          | true => exact absurd ⟨s, r, hsr, hs, hc⟩ hno
        simp [he]
      · rw [SplitN2_no_space _ hsp]
        simp
  · intro t ht hfix
    have ha : TrimSpace (str "Bearer " ++ t) = str "Bearer" ++ 0x20 :: t :=
      TrimSpace_Bearer t ht hfix
    rw [(hmain _ (str "Bearer") t ha (by decide) (by decide)).1, hfix]


/-! ### The configuration -/

set_option maxRecDepth 100000 in
/-- C20: `LoadConfig` returns, without an error, a configuration that the server
cannot be started with. With `EVENT_QUEUE_SIZE=-1` the configuration has the
queue size -1, and `NewServer` panics when it allocates the queue; with
`EVENT_FLUSH_TIMEOUT=0s` it has the flush timeout 0, and `time.NewTicker` panics
in the background sender. Only the capture budget is guarded: with
`METERING_CAPTURE_BYTES=-1` it is 0, and it is at least 0 in every configuration
that is returned without an error. -/
theorem LoadConfig_returns_unusable_config :
    (LoadConfig someDurations negativeQueueEnviron).2 = none
    ∧ (LoadConfig someDurations negativeQueueEnviron).1.EventQueueSize = -1
    ∧ NewServer (LoadConfig someDurations negativeQueueEnviron).1 = none
    ∧ (LoadConfig someDurations zeroFlushEnviron).2 = none
    ∧ (LoadConfig someDurations zeroFlushEnviron).1.EventFlushTimeout = 0
    ∧ NewTicker (LoadConfig someDurations zeroFlushEnviron).1.EventFlushTimeout = none
    ∧ (LoadConfig someDurations negativeCaptureEnviron).2 = none
    ∧ (LoadConfig someDurations negativeCaptureEnviron).1.MeteringCaptureBytes = 0
    ∧ (∀ (ParseDuration : List Byte → Option Int) (getenv : List Byte → List Byte),
        (LoadConfig ParseDuration getenv).2 = none →
        0 ≤ (LoadConfig ParseDuration getenv).1.MeteringCaptureBytes) := by
  refine ⟨by decide, by decide, by decide, by decide, by decide, by decide, by decide,
    by decide, ?_⟩
  intro pd getenv h
  unfold LoadConfig at h ⊢
  simp only at h ⊢
  split_ifs at h ⊢ with h1 h2
  · exact le_refl _
  · simp only
    omega


/-! ### The collector -/

/-- C17: `HandleEvents` of the collector, with JSON decoding and encoding taken
as given (the encoder accepts every event): a request that is not a POST is
answered 405; a POST whose body does not decode as a `MeteringEvent` without
unknown fields is answered 400; a POST whose decoded event has an empty request
identifier is answered 400; every other POST is answered 202 with the body
`accepted`. In the 202 case the event, with its timestamp replaced by the current
time only when it was unset, is given to the log exactly once: its JSON followed
by a newline is appended to the log file, which is flushed once, or, without a
log file, its JSON is logged in one `EVENT` line. In the other cases nothing is
written. -/
theorem HandleEvents_answers_and_logs_once (s : Collector.Server) (json : Collector.JSON)
    (now : Int) (flusher : Bool) (writeErr : Nat → Option GoError) (r : Request)
    (hmarshal : ∀ ev, json.marshal ev ≠ none) :
    (r.Method ≠ str "POST" →
      (s.HandleEvents json now (newResponseWriter flusher writeErr) r).2.status = some 405
      ∧ (s.HandleEvents json now (newResponseWriter flusher writeErr) r).1 = s)
    ∧ (r.Method = str "POST" → ∀ msg, json.decode r.Body = .error msg →
      (s.HandleEvents json now (newResponseWriter flusher writeErr) r).2.status = some 400
      ∧ (s.HandleEvents json now (newResponseWriter flusher writeErr) r).1 = s)
    ∧ (r.Method = str "POST" → ∀ ev, json.decode r.Body = .ok ev → ev.RequestID = [] →
      (s.HandleEvents json now (newResponseWriter flusher writeErr) r).2.status = some 400
      ∧ (s.HandleEvents json now (newResponseWriter flusher writeErr) r).1 = s)
    ∧ (r.Method = str "POST" → ∀ ev, json.decode r.Body = .ok ev → ev.RequestID ≠ [] →
      (s.HandleEvents json now (newResponseWriter flusher writeErr) r).2.status = some 202
      ∧ (s.HandleEvents json now (newResponseWriter flusher writeErr) r).2.body = [str "accepted"]
      ∧ ∃ b, json.marshal (if ev.At = 0 then { ev with At := now } else ev) = some b
        ∧ (s.file = true →
            (s.HandleEvents json now (newResponseWriter flusher writeErr) r).1
              = { s with written := s.written ++ b ++ [0x0A], flushes := s.flushes + 1 })
        ∧ (s.file = false →
            (s.HandleEvents json now (newResponseWriter flusher writeErr) r).1
              = { s with logged := s.logged ++ [str "EVENT " ++ b] })) := by
  refine ⟨?_, ?_, ?_, ?_⟩
  · intro hm
    unfold Collector.Server.HandleEvents
    rw [if_pos hm]
    exact ⟨httpError_status _ _ _ _, rfl⟩
  · intro hm msg hd
    unfold Collector.Server.HandleEvents
    rw [if_neg (by simp [hm]), hd]
    exact ⟨httpError_status _ _ _ _, rfl⟩
  · intro hm ev hd hid
    unfold Collector.Server.HandleEvents
    rw [if_neg (by simp [hm]), hd]
    simp only [hid, if_true]
    exact ⟨httpError_status _ _ _ _, trivial⟩
  · intro hm ev hd hid
    unfold Collector.Server.HandleEvents
    rw [if_neg (by simp [hm]), hd]
    simp only [hid, if_false]
    cases hb : json.marshal (if ev.At = 0 then { ev with At := now } else ev) with
    | none => exact absurd hb (hmarshal _)
    | some b =>
      simp only
      refine ⟨rfl, rfl, b, rfl, ?_, ?_⟩
      · intro hf
        simp only [hf, if_true]
        rfl
      · intro hf
        simp [hf]

set_option maxRecDepth 100000 in
theorem HandleEvents_answers_and_logs_once_witness :
    ((({ file := true, written := [], flushes := 0, logged := [] } : Collector.Server).HandleEvents
      Collector.testJSON 1700000000 (newResponseWriter true (fun _ => none))
      Collector.testRequest).2).status = some 202
    ∧ ((({ file := true, written := [], flushes := 0, logged := [] } : Collector.Server).HandleEvents
      Collector.testJSON 1700000000 (newResponseWriter true (fun _ => none))
      Collector.testRequest).1).written
      = str "\x7b\"request_id\":\"req_123\",\"ts\":1700000000\x7d\n" :=
  ⟨((HandleEvents_answers_and_logs_once
      { file := true, written := [], flushes := 0, logged := [] } Collector.testJSON 1700000000
      true (fun _ => none) Collector.testRequest (fun _ => Option.some_ne_none _)).2.2.2 rfl
      Collector.testEvent rfl (by decide)).1, by decide⟩


/-! ### What the relay forwards -/

/-- A run of the loop whose writes succeed, over lines without a sentinel line:
every line that is not empty is written. -/
theorem loop_without_sentinel (json : JSON) (last : List Byte) (err : GoError)
    (hlast : isSentinelLine last = false) (lines : List (List Byte)) :
    ∀ (st : SSEState), (∀ k, st.w.writeErr k = none) →
      (∀ l ∈ lines, isSentinelLine l = false) →
      (StreamSSE.loop json st lines last err).st.w.body
        = st.w.body ++ (lines ++ [last]).filter (fun l => l ≠ []) := by
  induction lines with
  | nil =>
    intro st hw _
    rw [loop_nil]
    by_cases hln : last = []
    · subst hln
      rw [lineBlock_nil]
      simp only [StreamSSE.errBlock]
      split_ifs <;> simp
    · rw [lineBlock_next json { st with reads := st.reads ++ [(last, some err)] } last hln
        (hw _) hlast]
      simp only [StreamSSE.errBlock]
      split_ifs <;> simp [saw_w, wrote_body, hln]
  | cons l lines ih =>
    intro st hw hl
    have hsl : isSentinelLine l = false := hl l (List.mem_cons_self _ _)
    have hl2 : ∀ l2 ∈ lines, isSentinelLine l2 = false :=
      fun l2 h2 => hl l2 (List.mem_cons_of_mem _ h2)
    rw [loop_cons]
    by_cases hln : l = []
    · subst hln
      rw [lineBlock_nil]
      simp only
      have h := ih { st with reads := st.reads ++ [([], none)] } hw hl2
      simpa using h
    · rw [lineBlock_next json { st with reads := st.reads ++ [(l, none)] } l hln (hw _) hsl]
      simp only
      have h := ih (({ st with reads := st.reads ++ [(l, none)] }.wrote l).saw json l)
        (by intro k; rw [saw_w, wrote_writeErr]; exact hw k) hl2
      rw [saw_w, wrote_body] at h
      rw [h]
      simp [List.filter_cons, hln]

/-- The lines of a stream are what `ReadBytes` returns, the empty piece left
out. -/
theorem streamLines_filter (data : List Byte) :
    ((ReadBytes 0x0A data).1 ++ [(ReadBytes 0x0A data).2]).filter (fun l => l ≠ [])
      = streamLines data := by
  have hne : ∀ l ∈ (ReadBytes 0x0A data).1, l ≠ [] := by
    intro l hl
    obtain ⟨x, hx, _⟩ := (ReadBytes_spec 0x0A data).1 l hl
    rw [hx]; simp
  have hf : (ReadBytes 0x0A data).1.filter (fun l => l ≠ []) = (ReadBytes 0x0A data).1 := by
    rw [List.filter_eq_self]
    intro l hl
    simpa using hne l hl
  unfold streamLines
  rw [List.filter_append, hf]
  by_cases ht : (ReadBytes 0x0A data).2 = []
  · simp [ht]
  · simp [ht]

/-- The relay of a stream without a sentinel line, to a client whose writes
succeed: all lines are written. -/
theorem StreamSSE_without_sentinel (json : JSON) (w : ResponseWriter) (upstream : Reader)
    (hw : ∀ k, w.writeErr k = none)
    (hno : ∀ l ∈ streamLines upstream.chunks.flatten, isSentinelLine l = false) :
    (StreamSSE json w upstream).st.w.body = w.body ++ streamLines upstream.chunks.flatten := by
  have hlast : isSentinelLine (ReadBytes 0x0A upstream.chunks.flatten).2 = false := by
    by_cases ht : (ReadBytes 0x0A upstream.chunks.flatten).2 = []
    · rw [ht]; exact isSentinelLine_nil
    · apply hno
      unfold streamLines
      rw [if_neg ht]
      simp
  have hlines : ∀ l ∈ (ReadBytes 0x0A upstream.chunks.flatten).1, isSentinelLine l = false := by
    intro l hl
    apply hno
    unfold streamLines
    exact List.mem_append_left _ hl
  have h := loop_without_sentinel json _ upstream.err hlast _
    { w := w, model := [], usage := none, reads := [] } hw hlines
  rw [streamLines_filter] at h
  exact h

/-- Without a sentinel line, the lines up to the first sentinel line are all
lines. -/
theorem throughSentinel_all (L : List (List Byte)) (hno : ∀ l ∈ L, isSentinelLine l = false) :
    throughSentinel L = L := by
  unfold throughSentinel beforeSentinel
  have h1 : L.takeWhile (fun l => !isSentinelLine l) = L := by
    rw [List.takeWhile_eq_self_iff]
    intro l hl
    simp [hno l hl]
  have h2 : L.dropWhile (fun l => !isSentinelLine l) = [] := by
    rw [List.dropWhile_eq_nil_iff]
    intro l hl
    simp [hno l hl]
  rw [h1, h2]
  simp

/-- C2, amended: for every upstream event-stream body and a client whose writes
all succeed, the byte slices that `StreamSSE` writes to the client are the lines
of the upstream body up to and including the first sentinel line, where the relay
stops: their concatenation is the upstream body byte for byte and in the original
order up to the end of that line, and what the body holds after it is not
forwarded. A body without a sentinel line is forwarded whole. -/
theorem StreamSSE_forwards_through_sentinel (json : JSON) (w : ResponseWriter)
    (upstream : Reader) (hw : ∀ k, w.writeErr k = none) :
    (StreamSSE json w upstream).st.w.body
      = w.body ++ throughSentinel (streamLines upstream.chunks.flatten)
    ∧ (throughSentinel (streamLines upstream.chunks.flatten)).flatten <+: upstream.chunks.flatten
    ∧ (∀ s post, streamLines upstream.chunks.flatten
          = beforeSentinel (streamLines upstream.chunks.flatten) ++ s :: post →
        throughSentinel (streamLines upstream.chunks.flatten)
            = beforeSentinel (streamLines upstream.chunks.flatten) ++ [s]
        ∧ isSentinelLine s = true
        ∧ (throughSentinel (streamLines upstream.chunks.flatten)).flatten ++ post.flatten
            = upstream.chunks.flatten)
    ∧ ((∀ l ∈ streamLines upstream.chunks.flatten, isSentinelLine l = false) →
        (throughSentinel (streamLines upstream.chunks.flatten)).flatten
          = upstream.chunks.flatten) := by
  by_cases hs : ∃ l ∈ streamLines upstream.chunks.flatten, isSentinelLine l = true
  · obtain ⟨s, post, hL, hsent, hthrough, hbefore⟩ := first_sentinel _ hs
    have hrun := StreamSSE_to_sentinel json w upstream hw _ s post hL hbefore hsent
    have hflat : (beforeSentinel (streamLines upstream.chunks.flatten) ++ [s]).flatten
        ++ post.flatten = upstream.chunks.flatten := by
      rw [← List.flatten_append, List.append_assoc, List.singleton_append, ← hL,
        streamLines_flatten]
    rw [hthrough]
    refine ⟨hrun.2.1, ⟨post.flatten, hflat⟩, ?_, ?_⟩
    · intro s2 post2 hL2
      have heq : s :: post = s2 :: post2 :=
        List.append_cancel_left (hL.symm.trans hL2)
      obtain ⟨h1, h2⟩ := List.cons.inj heq
      subst h1
      subst h2
      exact ⟨rfl, hsent, hflat⟩
    · intro hno
      obtain ⟨l, hl, hsl⟩ := hs
      rw [hno l hl] at hsl
      cases hsl
  · have hno : ∀ l ∈ streamLines upstream.chunks.flatten, isSentinelLine l = false := by
      intro l hl
      cases hc : isSentinelLine l with
      | false => rfl
      | true => exact absurd ⟨l, hl, hc⟩ hs
    have hall := throughSentinel_all _ hno
    rw [hall]
    refine ⟨StreamSSE_without_sentinel json w upstream hw hno, ?_, ?_, ?_⟩
    · rw [streamLines_flatten]
    · intro s post hL
      exfalso
      have hbefore : beforeSentinel (streamLines upstream.chunks.flatten)
          = streamLines upstream.chunks.flatten := by
        unfold beforeSentinel
        rw [List.takeWhile_eq_self_iff]
        intro l hl
        simp [hno l hl]
      rw [hbefore] at hL
      have := congrArg List.length hL
      simp at this
    · intro _
      exact streamLines_flatten _

set_option maxRecDepth 100000 in
theorem StreamSSE_forwards_through_sentinel_witness :
    (StreamSSE mockJSON (newResponseWriter true (fun _ => none))
        { chunks := [mockStream], err := GoError.EOF }).st.w.body.flatten ++ str "\n"
      = mockStream :=
  (congrArg (fun b => b.flatten ++ str "\n")
    (StreamSSE_forwards_through_sentinel mockJSON (newResponseWriter true (fun _ => none))
      { chunks := [mockStream], err := GoError.EOF } (fun _ => rfl)).1).trans (by decide)

end Proxy
